import Mathlib

/-!
# The `disco` character device (`src/T7/disco-impl.c`)

A shallow embedding of the driver's four file operations and of the state
they share, followed by the properties of the channel they implement.

* The `int` fields of `data_pipe` are integers; the conversions the C
  expressions perform (`int` to `size_t`, `size_t` to `int` or `ssize_t`)
  are explicit, and `%` on `int` is the truncating remainder.
* The kernel heap is a list of session records; a pointer is `none` (NULL)
  or an index into that list.  `kmalloc` hands out the next index.
* Everything outside the file is a parameter: the result of each `kmalloc`,
  of each one-byte user copy, and of each `c_wait`.
* A function returns `none` when the C code dereferences a pointer that
  refers to no session record.
-/

namespace Disco

/-! ## Constants -/

/-- Source line 43. -/
def TRUE : Int := 1

/-- Source line 44. -/
def FALSE : Int := 0

/-- Source line 47: the capacity of a session buffer. -/
def MAX_SIZE : Int := 8192

/-- Linux `FMODE_READ` (from `linux/fs.h`). -/
def FMODE_READ : Nat := 1

/-- Linux `FMODE_WRITE` (from `linux/fs.h`). -/
def FMODE_WRITE : Nat := 2

/-- Linux `EINTR` (from `linux/errno.h`). -/
def EINTR : Int := 4

/-- Linux `ENOMEM` (from `linux/errno.h`). -/
def ENOMEM : Int := 12

/-- Linux `EFAULT` (from `linux/errno.h`). -/
def EFAULT : Int := 14

/-- Linux `ENOSPC` (from `linux/errno.h`). -/
def ENOSPC : Int := 28

/-! ## Machine arithmetic -/

/-- Conversion of an integer value to `size_t` (64-bit unsigned). -/
def to_size_t (x : Int) : Nat := (x % 18446744073709551616).toNat

/-- Conversion of an integer value to `int` (32-bit two's complement). -/
def to_int (x : Int) : Int := (x + 2147483648) % 4294967296 - 2147483648

/-- Conversion of a `size_t` value to `ssize_t` (64-bit two's complement). -/
def to_ssize_t (n : Nat) : Int :=
  ((n : Int) + 9223372036854775808) % 18446744073709551616 - 9223372036854775808

/-- The C expression `(x + 1) % MAX_SIZE` on `int` operands: the sum is an
`int`, the remainder truncates towards zero. -/
def next_index (x : Int) : Int := Int.tmod (to_int (x + 1)) MAX_SIZE

/-! ## Data model -/

/-- The record `data_pipe` (source lines 30-38).  `buff i` is the byte at
address `buff + i`; the driver allocates `MAX_SIZE` bytes there. -/
structure data_pipe where
  buff : Int → UInt8
  in_ : Int
  out : Int
  size : Int
  lectorf : Int
  lector : Int
  escritor : Int

/-- The part of `struct file` the driver uses: the mode bits and the
`private_data` pointer (`none` is NULL). -/
structure file where
  f_mode : Nat
  private_data : Option Nat

/-- The driver's global state: the statics `wait` and `pipe` (source lines
49 and 52), the session records allocated so far, and the number of
`c_broadcast (&cond)` calls issued so far on the condition variable. -/
structure Module where
  wait : Int
  pipe : Option Nat
  heap : List data_pipe
  broadcasts : Nat

/-- The state `disco_init` leaves (source lines 60-61) when
`register_chrdev` succeeds: no session, nobody waiting for a partner. -/
def disco_init : Module :=
  { wait := FALSE, pipe := none, heap := [], broadcasts := 0 }

/-- The session record a pointer refers to, if any. -/
def deref (m : Module) (ptr : Option Nat) : Option (Nat × data_pipe) :=
  match ptr with
  | none => none
  | some a =>
    match m.heap[a]? with
    | none => none
    | some p => some (a, p)

/-- Store a session record at an address. -/
def store (m : Module) (a : Nat) (p : data_pipe) : Module :=
  { m with heap := m.heap.set a p }

/-! ## `disco_open` (source lines 73-140) -/

/-- Source lines 95-99 and 126-130: the initialisation of a record that
`kmalloc` returned with contents `g`.  The fields `lector` and `escritor`
keep whatever the memory held. -/
def init_pipe (g : data_pipe) : data_pipe :=
  { g with buff := fun _ => 0, in_ := 0, out := 0, size := 0, lectorf := FALSE }

/-- Source lines 103-105: the writer marks the session. -/
def writer_mark (p : data_pipe) : data_pipe :=
  { p with lector := TRUE, escritor := TRUE, size := 0 }

/-- The function `disco_open`.  `kmalloc_pipe` is the result of
`kmalloc (sizeof (data_pipe))`: `none` when it fails, else the contents of
the memory it returns; `kmalloc_buff` tells whether the allocation of the
buffer succeeds.  The result is the return code, the new global state and
the updated `filp`. -/
def disco_open (m : Module) (filp : file) (kmalloc_pipe : Option data_pipe)
    (kmalloc_buff : Bool) : Option (Int × Module × file) :=
  if filp.f_mode &&& FMODE_WRITE ≠ 0 then
    if m.wait ≠ 0 then
      match deref m m.pipe with
      | none => none
      | some (a, p) =>
        some (0,
          { store m a (writer_mark p) with
              wait := FALSE, broadcasts := m.broadcasts + 1 },
          { filp with private_data := some a })
    else
      match kmalloc_pipe with
      | none => some (-ENOMEM, m, filp)
      | some g =>
        if kmalloc_buff then
          some (0,
            { wait := TRUE, pipe := some m.heap.length,
              heap := m.heap ++ [writer_mark (init_pipe g)],
              broadcasts := m.broadcasts + 1 },
            { filp with private_data := some m.heap.length })
        else some (-ENOMEM, m, filp)
  else if filp.f_mode &&& FMODE_READ ≠ 0 then
    if m.wait ≠ 0 then
      some (0, { m with wait := FALSE, broadcasts := m.broadcasts + 1 },
        { filp with private_data := m.pipe })
    else
      match kmalloc_pipe with
      | none => some (-ENOMEM, m, filp)
      | some g =>
        if kmalloc_buff then
          some (0,
            { m with wait := TRUE, pipe := some m.heap.length,
                     heap := m.heap ++ [init_pipe g] },
            { filp with private_data := some m.heap.length })
        else some (-ENOMEM, m, filp)
  else some (0, m, filp)

/-! ## `disco_release` (source lines 142-153) -/

/-- The function `disco_release`. -/
def disco_release (m : Module) (filp : file) : Option (Int × Module) :=
  if filp.f_mode &&& FMODE_WRITE ≠ 0 then
    match deref m filp.private_data with
    | none => none
    | some (a, p) =>
      some (0, { store m a { p with lectorf := TRUE } with
                   broadcasts := m.broadcasts + 1 })
  else some (0, m)

/-! ## `disco_read` (source lines 155-185) -/

/-- What a call of `disco_read` comes to: the thread is still asleep in
`c_wait` (nothing woke it), or the call returned `rc` after storing the
bytes `ubuf` at the start of the user buffer. -/
inductive read_ret where
  | blocked
  | returned (rc : Int) (ubuf : List UInt8)
  deriving DecidableEq

/-- The result of one `c_wait (&cond, &mutex)`: non-zero (interrupted), or
zero, in which case the thread holds the mutex again and finds the global
state `m'` that the other threads left. -/
inductive c_wait_result where
  | interrupted
  | woken (m' : Module)

/-- The loop of source lines 173-179, with `n` iterations left, `k` the loop
counter and `ubuf` the bytes stored so far.  `copy_to_user k` tells whether
the copy of byte `k` succeeds.  The flag of the result is `false` when the
loop was left by the `goto`. -/
def read_copy (copy_to_user : Nat → Bool) (p : data_pipe) (k : Nat)
    (ubuf : List UInt8) : Nat → Bool × data_pipe × List UInt8
  | 0 => (true, p, ubuf)
  | n + 1 =>
    if copy_to_user k then
      read_copy copy_to_user { p with out := next_index p.out } (k + 1)
        (ubuf ++ [p.buff p.out]) n
    else (false, p, ubuf)

/-- Source lines 166-181: what `disco_read` does once the wait loop is
left. -/
def read_body (p : data_pipe) (count : Nat) (copy_to_user : Nat → Bool) :
    Int × data_pipe × List UInt8 :=
  if p.lectorf ≠ 0 then (0, p, [])
  else
    let count' := if count > to_size_t p.size then to_size_t p.size else count
    match read_copy copy_to_user p 0 [] count' with
    | (false, p', ubuf) => (-EFAULT, p', ubuf)
    | (true, p', ubuf) =>
      (to_ssize_t count', { p' with size := to_int (p'.size - count') }, ubuf)

/-- The condition of the wait loop, source line 160. -/
def must_wait (p : data_pipe) (f_pos : Int) : Bool :=
  p.escritor = 0 || p.size ≤ f_pos

/-- The function `disco_read`.  `count` is the size of the user buffer,
`f_pos` the value of `*f_pos`, and `waits` the results of the successive
calls of `c_wait`. -/
def disco_read (m : Module) (filp : file) (count : Nat) (f_pos : Int)
    (copy_to_user : Nat → Bool) :
    List c_wait_result → Option (read_ret × Module)
  | [] =>
    match deref m filp.private_data with
    | none => none
    | some (a, p) =>
      if must_wait p f_pos then some (read_ret.blocked, m)
      else
        match read_body p count copy_to_user with
        | (rc, p', ubuf) => some (read_ret.returned rc ubuf, store m a p')
  | w :: rest =>
    match deref m filp.private_data with
    | none => none
    | some (a, p) =>
      if must_wait p f_pos then
        match w with
        | c_wait_result.interrupted => some (read_ret.returned (-EINTR) [], m)
        | c_wait_result.woken m' =>
          disco_read m' filp count f_pos copy_to_user rest
      else
        match read_body p count copy_to_user with
        | (rc, p', ubuf) => some (read_ret.returned rc ubuf, store m a p')

/-! ## `disco_write` (source lines 187-211) -/

/-- The loop of source lines 198-204, with `n` iterations left and `k` the
loop counter.  `copy_from_user k` is the byte at `buf + k`, or `none` when
the copy of that byte fails (nothing is stored then). -/
def write_copy (copy_from_user : Nat → Option UInt8) (p : data_pipe) (k : Nat) :
    Nat → Bool × data_pipe
  | 0 => (true, p)
  | n + 1 =>
    match copy_from_user k with
    | none => (false, p)
    | some b =>
      write_copy copy_from_user
        { p with buff := Function.update p.buff p.in_ b,
                 in_ := next_index p.in_ } (k + 1) n

/-- Source lines 191-207 on the session `*pipeact`: the return code, the
session afterwards, and whether `c_broadcast` was called. -/
def write_body (p : data_pipe) (copy_from_user : Nat → Option UInt8)
    (count : Nat) : Int × data_pipe × Bool :=
  if p.size = MAX_SIZE then (-ENOSPC, p, false)
  else
    let room := to_size_t (to_int (MAX_SIZE - p.size))
    let count' := if count > room then room else count
    match write_copy copy_from_user p 0 count' with
    | (false, p') => (-EFAULT, p', false)
    | (true, p') =>
      (to_ssize_t count', { p' with size := to_int (p'.size + count') }, true)

/-- The function `disco_write`. -/
def disco_write (m : Module) (filp : file)
    (copy_from_user : Nat → Option UInt8) (count : Nat) :
    Option (Int × Module) :=
  match deref m filp.private_data with
  | none => none
  | some (a, p) =>
    match write_body p copy_from_user count with
    | (rc, p', bc) =>
      some (rc, { store m a p' with
                    broadcasts := if bc then m.broadcasts + 1 else m.broadcasts })

/-! ## Predicates and inputs used in the statements -/

/-- The range invariant of a session: the occupancy is between 0 and the
capacity and both cursors are valid indices of the buffer. -/
def range_inv (p : data_pipe) : Prop :=
  0 ≤ p.size ∧ p.size ≤ MAX_SIZE ∧ 0 ≤ p.in_ ∧ p.in_ < MAX_SIZE ∧
    0 ≤ p.out ∧ p.out < MAX_SIZE

instance (p : data_pipe) : Decidable (range_inv p) := by
  unfold range_inv; infer_instance

/-- Every session record of the module satisfies the range invariant. -/
def heap_ok (m : Module) : Prop := ∀ p ∈ m.heap, range_inv p

/-- A user buffer holding the bytes `l`: reading past its end faults. -/
def user_bytes (l : List UInt8) : Nat → Option UInt8 := fun k => l[k]?

/-- A user buffer every byte of which can be stored to. -/
def writable : Nat → Bool := fun _ => true

/-- A `struct file` opened for writing only, before `disco_open` ran. -/
def wfile : file := { f_mode := FMODE_WRITE, private_data := none }

/-- A `struct file` opened for reading only, before `disco_open` ran. -/
def rfile : file := { f_mode := FMODE_READ, private_data := none }

/-- Some contents of freshly allocated memory: nothing in it is zero. -/
def junk : data_pipe :=
  { buff := fun _ => 170, in_ := 5, out := 6, size := 7, lectorf := 8,
    lector := 9, escritor := 10 }

/-- The session a write-mode `disco_open` creates. -/
def fresh_pipe : data_pipe :=
  { buff := fun _ => 0, in_ := 0, out := 0, size := 0, lectorf := 0,
    lector := 1, escritor := 1 }

/-- The observable part of a session record: its integer fields and the
first eight bytes of its buffer. -/
structure pipe_view where
  in_ : Int
  out : Int
  size : Int
  lectorf : Int
  lector : Int
  escritor : Int
  head : List UInt8
  deriving DecidableEq

/-- The observable part of the global state. -/
structure module_view where
  wait : Int
  pipe : Option Nat
  heap : List pipe_view
  broadcasts : Nat
  deriving DecidableEq

/-- The observable part of a session record. -/
def view (p : data_pipe) : pipe_view :=
  { in_ := p.in_, out := p.out, size := p.size, lectorf := p.lectorf,
    lector := p.lector, escritor := p.escritor,
    head := (List.range 8).map (fun i => p.buff i) }

/-- The observable part of the global state. -/
def mview (m : Module) : module_view :=
  { wait := m.wait, pipe := m.pipe, heap := m.heap.map view,
    broadcasts := m.broadcasts }

/-- The session holds exactly the bytes `l`, unread, in the cells from 0 on,
with a writer present and not closed. -/
def holds (p : data_pipe) (l : List UInt8) : Prop :=
  p.out = 0 ∧ p.size = l.length ∧ p.in_ = (l.length : Int) % 8192 ∧ l.length ≤ 8192 ∧
    p.escritor ≠ 0 ∧ p.lectorf = 0 ∧ ∀ i : Nat, i < l.length → l[i]? = some (p.buff i)

/-- A sequence of `disco_write` calls through one handle, each passing one of
the byte strings `ws` whole; the return codes are dropped. -/
def write_all (m : Module) (filp : file) : List (List UInt8) → Option Module
  | [] => some m
  | w :: ws =>
    match disco_write m filp (user_bytes w) w.length with
    | none => none
    | some (_, m') => write_all m' filp ws

/-- The global state after a write-mode open on the state of `disco_init`. -/
def opened_module : Module :=
  { wait := 1, pipe := some 0, heap := [fresh_pipe], broadcasts := 1 }

/-- The handle that write-mode open returns. -/
def whandle : file := { f_mode := FMODE_WRITE, private_data := some 0 }

/-- The handle of a reader that joined the session at address 0. -/
def rhandle : file := { f_mode := FMODE_READ, private_data := some 0 }

/-- A session whose writer closed without writing. -/
def closed_empty_pipe : data_pipe := { fresh_pipe with lectorf := 1 }

/-- A session holding the three bytes 1, 2, 3, unread. -/
def three_pipe : data_pipe :=
  { buff := Function.update (Function.update (Function.update (fun _ => 0) 0 1) 1 2) 2 3,
    in_ := 3, out := 0, size := 3, lectorf := 0, lector := 1, escritor := 1 }

/-- A session with a full buffer. -/
def full_pipe : data_pipe := { fresh_pipe with size := 8192 }

/-- A module whose only session is full. -/
def full_module : Module :=
  { wait := 0, pipe := some 0, heap := [full_pipe], broadcasts := 2 }

/-- A module whose only session holds three unread bytes. -/
def three_module : Module :=
  { wait := 0, pipe := some 0, heap := [three_pipe], broadcasts := 3 }

/-! ## Sequences of calls and their books -/

/-- One call into the driver.  `do_open` is an `open` of the device with the
given mode bits and allocation results; the other calls name the file they
act on by its position in the table of opened files.  A `do_read` is one
pass of `disco_read` from taking the mutex to returning or going to sleep in
`c_wait`; `interrupted` tells whether that sleep ends in an interruption
(else the thread stays asleep, and a later `do_read` is its re-test). -/
inductive Op where
  | do_open (f_mode : Nat) (kmalloc_pipe : Option data_pipe) (kmalloc_buff : Bool)
  | do_release (fd : Nat)
  | do_read (fd : Nat) (count : Nat) (f_pos : Int) (copy_to_user : Nat → Bool)
      (interrupted : Bool)
  | do_write (fd : Nat) (copy_from_user : Nat → Option UInt8) (count : Nat)

/-- The driver's state together with the table of opened files and, per
session address, the books the accounting claims speak of: bytes written
(sum of the positive results of `disco_write`), bytes read (sum of the
positive results of `disco_read`), unread bytes dropped by write-mode opens
that joined the session; `faults` counts the calls that returned
`-EFAULT`. -/
structure Sys where
  m : Module
  files : List file
  written : Nat → Int
  consumed : Nat → Int
  dropped : Nat → Int
  faults : Nat

/-- The system after `disco_init`. -/
def init_sys : Sys :=
  { m := disco_init, files := [], written := fun _ => 0, consumed := fun _ => 0,
    dropped := fun _ => 0, faults := 0 }

/-- Add the `n` bytes of a successful transfer to the books of the session
`ptr` points to. -/
def credit (f : Nat → Int) (ptr : Option Nat) (n : Int) : Nat → Int :=
  match ptr with
  | none => f
  | some a => if 0 < n then Function.update f a (f a + n) else f

/-- Count a call that returned `-EFAULT`. -/
def count_fault (faults : Nat) (rc : Int) : Nat :=
  if rc = -EFAULT then faults + 1 else faults

/-- The unread bytes a write-mode open drops when it joins the waiting
session: line 105 sets that session's `size` to 0. -/
def drop_on_open (m : Module) (f_mode : Nat) (dropped : Nat → Int) : Nat → Int :=
  if f_mode &&& FMODE_WRITE ≠ 0 ∧ m.wait ≠ 0 then
    match deref m m.pipe with
    | none => dropped
    | some (a, p) => Function.update dropped a (dropped a + p.size)
  else dropped

/-- One call and its bookkeeping; `none` when the call names no opened file
or dereferences an invalid pointer. -/
def step (s : Sys) : Op → Option Sys
  | Op.do_open f_mode kmalloc_pipe kmalloc_buff =>
    match disco_open s.m { f_mode := f_mode, private_data := none }
        kmalloc_pipe kmalloc_buff with
    | none => none
    | some (rc, m', filp') =>
      some { s with m := m',
                    files := if rc = 0 then s.files ++ [filp'] else s.files,
                    dropped := drop_on_open s.m f_mode s.dropped }
  | Op.do_release fd =>
    match s.files[fd]? with
    | none => none
    | some filp =>
      match disco_release s.m filp with
      | none => none
      | some (_, m') => some { s with m := m' }
  | Op.do_read fd count f_pos copy_to_user interrupted =>
    match s.files[fd]? with
    | none => none
    | some filp =>
      match disco_read s.m filp count f_pos copy_to_user
          (if interrupted then [c_wait_result.interrupted] else []) with
      | none => none
      | some (read_ret.blocked, m') => some { s with m := m' }
      | some (read_ret.returned rc _, m') =>
        some { s with m := m',
                      consumed := credit s.consumed filp.private_data rc,
                      faults := count_fault s.faults rc }
  | Op.do_write fd copy_from_user count =>
    match s.files[fd]? with
    | none => none
    | some filp =>
      match disco_write s.m filp copy_from_user count with
      | none => none
      | some (rc, m') =>
        some { s with m := m',
                      written := credit s.written filp.private_data rc,
                      faults := count_fault s.faults rc }

/-- A sequence of calls. -/
def run (s : Sys) : List Op → Option Sys
  | [] => some s
  | op :: ops =>
    match step s op with
    | none => none
    | some s' => run s' ops

/-- The `size` field of the session at address `a`, 0 when there is none. -/
def size_at (m : Module) (a : Nat) : Int :=
  match m.heap[a]? with
  | none => 0
  | some p => p.size

/-- The books balance: every session is within the range invariant and, as
long as no call returned `-EFAULT`, `size` is what was written less what was
read less what write-mode opens dropped. -/
def books_ok (s : Sys) : Prop :=
  heap_ok s.m ∧
    (s.faults = 0 → ∀ a, size_at s.m a = s.written a - s.consumed a - s.dropped a)

/-- Open writer, write three bytes, open writer again. -/
def reopen_trace : List Op :=
  [Op.do_open FMODE_WRITE (some junk) true,
   Op.do_write 0 (user_bytes [1, 2, 3]) 3,
   Op.do_open FMODE_WRITE none false]

/-- Open writer, write three bytes, open reader, read two bytes, read the
third, start a read that is interrupted, close the writer. -/
def plain_trace : List Op :=
  [Op.do_open FMODE_WRITE (some junk) true,
   Op.do_write 0 (user_bytes [1, 2, 3]) 3,
   Op.do_open FMODE_READ none false,
   Op.do_read 1 2 0 writable false,
   Op.do_read 1 2 0 writable false,
   Op.do_read 1 2 0 writable true,
   Op.do_release 0]

/-! ## Flags, roles and parity -/

/-- The session at address `a` exists and its end-of-stream flag `lectorf`
is set. -/
def eos_at (m : Module) (a : Nat) : Prop :=
  ∃ p, m.heap[a]? = some p ∧ p.lectorf ≠ 0

/-- The call is not an `open` whose mode has neither access bit. -/
def has_role : Op → Bool
  | Op.do_open f_mode _ _ =>
    decide (f_mode &&& FMODE_WRITE ≠ 0 ∨ f_mode &&& FMODE_READ ≠ 0)
  | _ => true

/-- Open writer, close it, open reader (joins), open reader with a failing
allocation, open writer (creates). -/
def opens_trace : List Op :=
  [Op.do_open FMODE_WRITE (some junk) true,
   Op.do_release 0,
   Op.do_open FMODE_READ none false,
   Op.do_open FMODE_READ none false,
   Op.do_open FMODE_WRITE (some junk) true]

/-- The module after open writer and close writer: it still awaits a partner
and its only session is closed. -/
def closed_module : Module :=
  { wait := 1, pipe := some 0, heap := [closed_empty_pipe], broadcasts := 2 }

/-- The flag `wait` is 0 or 1 and tells the parity of the number of entries
in the table of opened files, that is, of successful opens. -/
def parity_ok (s : Sys) : Prop :=
  (s.m.wait = 0 ∧ s.files.length % 2 = 0) ∨ (s.m.wait = 1 ∧ s.files.length % 2 = 1)

/-! ## Cursor consistency -/

/-- Cursor consistency of a session: `in` lies `size` cells after `out`,
around the ring. -/
def cursor_inv (p : data_pipe) : Prop := p.in_ = (p.out + p.size) % 8192

instance (p : data_pipe) : Decidable (cursor_inv p) := by
  unfold cursor_inv; infer_instance

/-- Every session of the module is within the range invariant and has
consistent cursors. -/
def cursors_ok (m : Module) : Prop := ∀ p ∈ m.heap, range_inv p ∧ cursor_inv p

/-- The module after open writer and a write of the bytes 1, 2, 3. -/
def written_module : Module :=
  { wait := 1, pipe := some 0, heap := [three_pipe], broadcasts := 2 }

/-! ## Two runs that differ in uninitialised memory -/

/-- Two session records agree on everything but `lector` and `escritor`. -/
def same_stream (p q : data_pipe) : Prop :=
  p.buff = q.buff ∧ p.in_ = q.in_ ∧ p.out = q.out ∧ p.size = q.size ∧
    p.lectorf = q.lectorf

/-- The session record with both flags cleared. -/
def strip (p : data_pipe) : data_pipe := { p with lector := 0, escritor := 0 }

/-- The sessions of two runs at one address: the same stream, and the same
`escritor` unless the session is empty. -/
def twin (p q : data_pipe) : Prop :=
  same_stream p q ∧ (p.escritor = q.escritor ∨ p.size = 0)

/-- The global states of two runs: the same `wait`, `pipe`, number of
broadcasts and number of sessions, and twin sessions at every address. -/
def twin_modules (m1 m2 : Module) : Prop :=
  m1.wait = m2.wait ∧ m1.pipe = m2.pipe ∧ m1.broadcasts = m2.broadcasts ∧
    m1.heap.length = m2.heap.length ∧
    ∀ (a : Nat) (p q : data_pipe),
      m1.heap[a]? = some p → m2.heap[a]? = some q → twin p q

/-- The address holds a session in both runs, with the same `escritor`. -/
def agree_escr (m1 m2 : Module) (a : Nat) : Prop :=
  a < m1.heap.length ∧
    ∀ p q, m1.heap[a]? = some p → m2.heap[a]? = some q → p.escritor = q.escritor

/-- Two runs in step: twin global states, the same table of files, and every
write-mode handle points to a session with the same `escritor` in both. -/
def twin_sys (s1 s2 : Sys) : Prop :=
  twin_modules s1.m s2.m ∧ s1.files = s2.files ∧
    ∀ f ∈ s1.files, f.f_mode &&& FMODE_WRITE ≠ 0 →
      ∀ a, f.private_data = some a → agree_escr s1.m s2.m a

/-- Both absent, or both present and related. -/
def both {α : Type} (R : α → α → Prop) : Option α → Option α → Prop
  | none, none => True
  | some x, some y => R x y
  | _, _ => False

/-- The same call in two runs: everything equal, except that the memory
`kmalloc` returns may hold different contents (in particular different
`lector` and `escritor`). -/
def same_call : Op → Op → Prop
  | Op.do_open f1 kp1 kb1, Op.do_open f2 kp2 kb2 =>
    f1 = f2 ∧ kb1 = kb2 ∧ kp1.isSome = kp2.isSome
  | Op.do_release fd1, Op.do_release fd2 => fd1 = fd2
  | Op.do_read fd1 c1 fp1 ok1 i1, Op.do_read fd2 c2 fp2 ok2 i2 =>
    fd1 = fd2 ∧ c1 = c2 ∧ fp1 = fp2 ∧ ok1 = ok2 ∧ i1 = i2
  | Op.do_write fd1 cfu1 c1, Op.do_write fd2 cfu2 c2 =>
    fd1 = fd2 ∧ cfu1 = cfu2 ∧ c1 = c2
  | _, _ => False

/-- The call respects the discipline of the claim: a write goes through a
handle opened in write mode, a read uses a file position that is not
negative. -/
def polite (s : Sys) : Op → Bool
  | Op.do_write fd _ _ =>
    match s.files[fd]? with
    | none => true
    | some f => decide (f.f_mode &&& FMODE_WRITE ≠ 0)
  | Op.do_read _ _ f_pos _ _ => decide (0 ≤ f_pos)
  | _ => true

/-- Every call of the run respects the discipline. -/
def polite_run (s : Sys) : List Op → Bool
  | [] => true
  | op :: ops =>
    polite s op &&
      match step s op with
      | none => true
      | some s' => polite_run s' ops

/-- What a call shows its caller: the return code, and for a read whether it
sleeps or what it returns and delivers. -/
inductive Obs where
  | code (rc : Int)
  | read (r : read_ret)
  deriving DecidableEq

/-- What the call shows its caller; `none` when it names no opened file or
dereferences an invalid pointer. -/
def observe (s : Sys) : Op → Option Obs
  | Op.do_open f_mode kmalloc_pipe kmalloc_buff =>
    (disco_open s.m { f_mode := f_mode, private_data := none }
      kmalloc_pipe kmalloc_buff).map (fun r => Obs.code r.1)
  | Op.do_release fd =>
    match s.files[fd]? with
    | none => none
    | some filp => (disco_release s.m filp).map (fun r => Obs.code r.1)
  | Op.do_read fd count f_pos copy_to_user interrupted =>
    match s.files[fd]? with
    | none => none
    | some filp =>
      (disco_read s.m filp count f_pos copy_to_user
        (if interrupted then [c_wait_result.interrupted] else [])).map
        (fun r => Obs.read r.1)
  | Op.do_write fd copy_from_user count =>
    match s.files[fd]? with
    | none => none
    | some filp => (disco_write s.m filp copy_from_user count).map (fun r => Obs.code r.1)

/-- What the calls of a run show, one after the other, up to the first that
does not return. -/
def observations (s : Sys) : List Op → List (Option Obs)
  | [] => []
  | op :: ops =>
    observe s op ::
      match step s op with
      | none => []
      | some s' => observations s' ops

/-- What two runs must share at their end: `wait`, `pipe`, and for every
session `in`, `out`, `size`, `lectorf` and the buffer. -/
def same_streams (s1 s2 : Sys) : Prop :=
  s1.m.wait = s2.m.wait ∧ s1.m.pipe = s2.m.pipe ∧
    s1.m.heap.length = s2.m.heap.length ∧
    ∀ (a : Nat) (p q : data_pipe),
      s1.m.heap[a]? = some p → s2.m.heap[a]? = some q → same_stream p q

/-- Memory contents that differ from `junk` in `lector` and `escritor`
only: both are zero. -/
def junk0 : data_pipe := { junk with lector := 0, escritor := 0 }

/-- Open reader on memory holding `g`, read (sleeps), open writer, write the
bytes 1, 2, 3, read again. -/
def flags_trace (g : data_pipe) : List Op :=
  [Op.do_open FMODE_READ (some g) true,
   Op.do_read 0 10 0 writable false,
   Op.do_open FMODE_WRITE none false,
   Op.do_write 1 (user_bytes [1, 2, 3]) 3,
   Op.do_read 0 10 0 writable false]

/-! ## Reads at a file position past the data -/

/-- The module after a read-mode open on the state of `disco_init`, the
memory of the record holding `junk`. -/
def reader_module : Module :=
  { wait := 1, pipe := some 0, heap := [init_pipe junk], broadcasts := 0 }

/-! ## Arithmetic of the cursors -/

theorem next_index_eq (x : Int) (h0 : 0 ≤ x) (h1 : x < 8192) :
    next_index x = (x + 1) % 8192 := by
  unfold next_index to_int MAX_SIZE
  have h : (x + 1 + 2147483648) % 4294967296 - 2147483648 = x + 1 := by omega
  rw [h]
  exact Int.tmod_eq_emod (by omega) (by decide)

theorem to_size_t_eq (x : Int) (h0 : 0 ≤ x) (h1 : x ≤ 8192) :
    to_size_t x = x.toNat := by
  unfold to_size_t
  congr 1
  omega

theorem to_int_eq (x : Int) (h0 : -8192 ≤ x) (h1 : x ≤ 16384) : to_int x = x := by
  unfold to_int
  omega

theorem to_ssize_t_eq (n : Nat) (h : n ≤ 8192) : to_ssize_t n = n := by
  unfold to_ssize_t
  omega

theorem write_copy_ok (cfu : Nat → Option UInt8) (d : Nat → UInt8) :
    ∀ (n : Nat) (p : data_pipe) (k : Nat), 0 ≤ p.in_ → p.in_ < 8192 → n ≤ 8192 →
      (∀ i, i < n → cfu (k + i) = some (d (k + i))) →
      ∃ p', write_copy cfu p k n = (true, p') ∧
        p'.in_ = (p.in_ + n) % 8192 ∧ p'.out = p.out ∧ p'.size = p.size ∧
        p'.lectorf = p.lectorf ∧ p'.lector = p.lector ∧ p'.escritor = p.escritor ∧
        (∀ i : Nat, i < n → p'.buff ((p.in_ + i) % 8192) = d (k + i)) ∧
        (∀ j : Int, (∀ i : Nat, i < n → j ≠ (p.in_ + i) % 8192) → p'.buff j = p.buff j) := by
  intro n
  induction n with
  | zero =>
    intro p k h0 h1 _ _
    refine ⟨p, rfl, ?_, rfl, rfl, rfl, rfl, rfl, ?_, ?_⟩
    · simp; omega
    · intro i hi; omega
    · intro j _; rfl
  | succ n ih =>
    intro p k h0 h1 hn hc
    have hk : cfu k = some (d k) := by simpa using hc 0 (by omega)
    have hni := next_index_eq p.in_ h0 h1
    obtain ⟨p', he, hin, hout, hsz, hlf, hl, hes, hnew, hold⟩ :=
      ih { p with buff := Function.update p.buff p.in_ (d k), in_ := next_index p.in_ }
        (k + 1) (by simp only [hni]; omega) (by simp only [hni]; omega) (by omega)
        (fun i hi => by have := hc (i + 1) (by omega); rwa [show k + 1 + i = k + (i + 1) by omega])
    simp only [hni] at hin hnew hold
    refine ⟨p', ?_, ?_, hout, hsz, hlf, hl, hes, ?_, ?_⟩
    · simp only [write_copy, hk]; exact he
    · rw [hin]; push_cast; omega
    · intro i hi
      rcases Nat.eq_zero_or_pos i with rfl | hpos
      · have h1 := hold p.in_ (fun i hi => by omega)
        have h2 : (p.in_ + ((0 : Nat) : Int)) % 8192 = p.in_ := by simp; omega
        rw [h2, h1]; simp
      · obtain ⟨i', rfl⟩ : ∃ i', i = i' + 1 := ⟨i - 1, by omega⟩
        have h1 := hnew i' (by omega)
        have h2 : (p.in_ + ((i' + 1 : Nat) : Int)) % 8192 = ((p.in_ + 1) % 8192 + i') % 8192 := by
          push_cast; omega
        rw [h2, h1]; congr 1; omega
    · intro j hj
      have h1 := hold j (fun i hi => by
        have := hj (i + 1) (by omega)
        push_cast at this; omega)
      have h2 : j ≠ p.in_ := by
        have := hj 0 (by omega)
        simp at this; omega
      rw [h1]; simp [Function.update, h2]

theorem read_copy_ok (ok : Nat → Bool) :
    ∀ (n : Nat) (p : data_pipe) (k : Nat) (ubuf : List UInt8),
      0 ≤ p.out → p.out < 8192 → (∀ i, i < n → ok (k + i) = true) →
      read_copy ok p k ubuf n =
        (true, { p with out := (p.out + n) % 8192 },
          ubuf ++ (List.range n).map (fun i => p.buff ((p.out + (i : Nat)) % 8192))) := by
  intro n
  induction n with
  | zero =>
    intro p k ubuf h0 h1 _
    have : p.out % 8192 = p.out := by omega
    simp [read_copy, this]
  | succ n ih =>
    intro p k ubuf h0 h1 hc
    have hk : ok k = true := by simpa using hc 0 (by omega)
    have hni := next_index_eq p.out h0 h1
    have := ih { p with out := next_index p.out } (k + 1) (ubuf ++ [p.buff p.out])
      (by simp only [hni]; omega) (by simp only [hni]; omega)
      (fun i hi => by have := hc (i + 1) (by omega); rwa [show k + 1 + i = k + (i + 1) by omega])
    simp only [hni] at this
    simp only [read_copy, hk, if_true, hni, this]
    refine Prod.ext rfl (Prod.ext ?_ ?_)
    · simp only
      congr 1
      push_cast; omega
    · have e0 : (p.out + ((0 : Nat) : Int)) % 8192 = p.out := by
        simp only [Nat.cast_zero, add_zero]; omega
      have e1 : ∀ i : Nat, ((p.out + 1) % 8192 + (i : Int)) % 8192
          = (p.out + ((i + 1 : Nat) : Int)) % 8192 := by
        intro i; push_cast; omega
      simp only [List.append_assoc, List.range_succ_eq_map, List.map_cons, List.map_map,
        List.singleton_append, e0, e1, Function.comp_def, Nat.succ_eq_add_one]

theorem deref_some {m : Module} {ptr : Option Nat} {a : Nat} {p : data_pipe}
    (h : deref m ptr = some (a, p)) : ptr = some a ∧ m.heap[a]? = some p := by
  unfold deref at h
  cases ptr with
  | none => simp at h
  | some b =>
    simp only at h
    cases hb : m.heap[b]? with
    | none => simp [hb] at h
    | some q =>
      simp only [hb, Option.some.injEq, Prod.mk.injEq] at h
      obtain ⟨rfl, rfl⟩ := h
      exact ⟨rfl, hb⟩

theorem list_set_same {α : Type} (l : List α) (a : Nat) (p : α) (h : l[a]? = some p) :
    l.set a p = l := by
  apply List.ext_getElem?
  intro j
  rw [List.getElem?_set]
  by_cases hj : a = j
  · subst hj
    have hlt : a < l.length := (List.getElem?_eq_some.mp h).1
    simp [hlt, h]
  · simp [hj]

theorem store_same {m : Module} {ptr : Option Nat} {a : Nat} {p : data_pipe}
    (h : deref m ptr = some (a, p)) : store m a p = m := by
  unfold store
  rw [list_set_same _ _ _ (deref_some h).2]

/-- A write that meets no copy fault appends `min count (MAX_SIZE - size)` bytes
at `in` and broadcasts. -/
theorem disco_write_ok (m : Module) (filp : file) (copy_from_user : Nat → Option UInt8)
    (count a : Nat) (p : data_pipe) (d : Nat → UInt8)
    (h : deref m filp.private_data = some (a, p)) (hr : range_inv p)
    (hlt : p.size < 8192) (hd : ∀ k, k < count → copy_from_user k = some (d k)) :
    ∃ p', disco_write m filp copy_from_user count =
        some (((min count (8192 - p.size).toNat : Nat) : Int),
          { store m a p' with broadcasts := m.broadcasts + 1 }) ∧
      p'.size = p.size + (min count (8192 - p.size).toNat : Nat) ∧
      p'.in_ = (p.in_ + (min count (8192 - p.size).toNat : Nat)) % 8192 ∧
      p'.out = p.out ∧
      p'.lectorf = p.lectorf ∧ p'.lector = p.lector ∧ p'.escritor = p.escritor ∧
      (∀ i : Nat, i < min count (8192 - p.size).toNat →
        p'.buff ((p.in_ + i) % 8192) = d i) ∧
      (∀ j : Int, (∀ i : Nat, i < min count (8192 - p.size).toNat →
        j ≠ (p.in_ + i) % 8192) → p'.buff j = p.buff j) := by
  obtain ⟨hs0, hs1, hi0, hi1, _, _⟩ := hr
  simp only [MAX_SIZE] at hs1 hi1
  have hroom : to_size_t (to_int (MAX_SIZE - p.size)) = (8192 - p.size).toNat := by
    simp only [MAX_SIZE]
    rw [to_int_eq _ (by omega) (by omega), to_size_t_eq _ (by omega) (by omega)]
  have hcount : (if count > (8192 - p.size).toNat then (8192 - p.size).toNat else count)
      = min count (8192 - p.size).toNat := by
    split <;> omega
  have hn : min count (8192 - p.size).toNat ≤ 8192 := by omega
  obtain ⟨q, he, hin, hout, hsz, hlf, hl, hes, hnew, hold⟩ :=
    write_copy_ok copy_from_user d (min count (8192 - p.size).toNat) p 0 hi0 hi1 hn
      (fun i hi => by simpa using hd i (by omega))
  refine ⟨{ q with size := p.size + (min count (8192 - p.size).toNat : Nat) },
    ?_, rfl, hin, hout, hlf, hl, hes, ?_, hold⟩
  · have hne : p.size ≠ MAX_SIZE := by simp only [MAX_SIZE]; omega
    simp only [disco_write, h, write_body, hne, if_false, hroom, hcount, he, if_true, hsz]
    rw [to_ssize_t_eq _ hn, to_int_eq _ (by omega) (by omega)]
  · intro i hi
    simpa using hnew i hi

/-- A read that need not wait, on a stream the writer has not closed, consumes
`min c size` bytes at `out`. -/
theorem disco_read_ok (m : Module) (filp : file) (c : Nat) (f_pos : Int) (copy_to_user : Nat → Bool)
    (waits : List c_wait_result) (a : Nat) (p : data_pipe)
    (h : deref m filp.private_data = some (a, p)) (hr : range_inv p)
    (hw : p.escritor ≠ 0) (hc : p.lectorf = 0) (hs : f_pos < p.size)
    (hok : ∀ k, k < c → copy_to_user k = true) :
    disco_read m filp c f_pos copy_to_user waits =
      some (read_ret.returned ((min c p.size.toNat : Nat) : Int)
          ((List.range (min c p.size.toNat)).map
            (fun i => p.buff ((p.out + (i : Nat)) % 8192))),
        store m a { p with out := (p.out + (min c p.size.toNat : Nat)) % 8192,
                           size := p.size - (min c p.size.toNat : Nat) }) := by
  obtain ⟨hs0, hs1, _, _, ho0, ho1⟩ := hr
  simp only [MAX_SIZE] at hs1 ho1
  have hmw : must_wait p f_pos = false := by
    simp [must_wait, hw, hs]
  have hcount : (if c > to_size_t p.size then to_size_t p.size else c) = min c p.size.toNat := by
    rw [to_size_t_eq _ hs0 hs1]
    split <;> omega
  have hn : min c p.size.toNat ≤ 8192 := by omega
  have hcopy := read_copy_ok copy_to_user (min c p.size.toNat) p 0 [] ho0 ho1
    (fun i hi => by simpa using hok i (by omega))
  have hbody : read_body p c copy_to_user =
      (((min c p.size.toNat : Nat) : Int),
        { p with out := (p.out + (min c p.size.toNat : Nat)) % 8192,
                 size := p.size - (min c p.size.toNat : Nat) },
        (List.range (min c p.size.toNat)).map
            (fun i => p.buff ((p.out + (i : Nat)) % 8192))) := by
    simp only [read_body, hc, ne_eq, not_true_eq_false, if_false, hcount, hcopy, List.nil_append]
    rw [to_ssize_t_eq _ hn, to_int_eq _ (by omega) (by omega)]
  cases waits with
  | nil => simp only [disco_read, h, hmw, hbody]; rfl
  | cons w rest => simp only [disco_read, h, hmw, hbody]; rfl

/-! ## The range invariant, operation by operation -/

theorem next_index_range (x : Int) (h0 : 0 ≤ x) (h1 : x < 8192) :
    0 ≤ next_index x ∧ next_index x < 8192 := by
  rw [next_index_eq x h0 h1]; omega

/-- Whatever its outcome, the copy loop of `disco_write` keeps `in` a valid
index and touches no other integer field. -/
theorem write_copy_any (cfu : Nat → Option UInt8) :
    ∀ (n : Nat) (p : data_pipe) (k : Nat), 0 ≤ p.in_ → p.in_ < 8192 →
      0 ≤ (write_copy cfu p k n).2.in_ ∧ (write_copy cfu p k n).2.in_ < 8192 ∧
      (write_copy cfu p k n).2.out = p.out ∧ (write_copy cfu p k n).2.size = p.size ∧
      (write_copy cfu p k n).2.lectorf = p.lectorf ∧
      (write_copy cfu p k n).2.lector = p.lector ∧
      (write_copy cfu p k n).2.escritor = p.escritor := by
  intro n
  induction n with
  | zero => intro p k h0 h1; exact ⟨h0, h1, rfl, rfl, rfl, rfl, rfl⟩
  | succ n ih =>
    intro p k h0 h1
    cases hk : cfu k with
    | none => simp [write_copy, hk, h0, h1]
    | some b =>
      simp only [write_copy, hk]
      have hr := next_index_range p.in_ h0 h1
      exact ih { p with buff := Function.update p.buff p.in_ b, in_ := next_index p.in_ }
        (k + 1) hr.1 hr.2

/-- Whatever its outcome, the copy loop of `disco_read` keeps `out` a valid
index and touches no other field. -/
theorem read_copy_any (ok : Nat → Bool) :
    ∀ (n : Nat) (p : data_pipe) (k : Nat) (ubuf : List UInt8), 0 ≤ p.out → p.out < 8192 →
      0 ≤ (read_copy ok p k ubuf n).2.1.out ∧ (read_copy ok p k ubuf n).2.1.out < 8192 ∧
      (read_copy ok p k ubuf n).2.1.in_ = p.in_ ∧ (read_copy ok p k ubuf n).2.1.size = p.size ∧
      (read_copy ok p k ubuf n).2.1.lectorf = p.lectorf ∧
      (read_copy ok p k ubuf n).2.1.lector = p.lector ∧
      (read_copy ok p k ubuf n).2.1.escritor = p.escritor ∧
      (read_copy ok p k ubuf n).2.1.buff = p.buff := by
  intro n
  induction n with
  | zero => intro p k ubuf h0 h1; exact ⟨h0, h1, rfl, rfl, rfl, rfl, rfl, rfl⟩
  | succ n ih =>
    intro p k ubuf h0 h1
    cases hk : ok k with
    | false => simp [read_copy, hk, h0, h1]
    | true =>
      simp only [read_copy, hk, if_true]
      have hr := next_index_range p.out h0 h1
      exact ih { p with out := next_index p.out } (k + 1) (ubuf ++ [p.buff p.out]) hr.1 hr.2

theorem write_body_range (p : data_pipe) (cfu : Nat → Option UInt8) (count : Nat)
    (hr : range_inv p) : range_inv (write_body p cfu count).2.1 := by
  obtain ⟨hs0, hs1, hi0, hi1, ho0, ho1⟩ := hr
  simp only [MAX_SIZE] at hs1 hi1 ho1
  unfold write_body
  by_cases hfull : p.size = MAX_SIZE
  · rw [if_pos hfull]
    exact ⟨hs0, hs1, hi0, hi1, ho0, ho1⟩
  · rw [if_neg hfull]
    simp only []
    simp only [MAX_SIZE] at hfull
    have hroom : to_size_t (to_int (MAX_SIZE - p.size)) = (8192 - p.size).toNat := by
      simp only [MAX_SIZE]
      rw [to_int_eq _ (by omega) (by omega), to_size_t_eq _ (by omega) (by omega)]
    rw [hroom]
    generalize hcnt : (if count > (8192 - p.size).toNat then (8192 - p.size).toNat
      else count) = n
    have hn : n ≤ (8192 - p.size).toNat := by rw [← hcnt]; split <;> omega
    have hany := write_copy_any cfu n p 0 hi0 hi1
    rcases hwc : write_copy cfu p 0 n with ⟨b, p'⟩
    rw [hwc] at hany
    obtain ⟨a0, a1, a2, a3, _⟩ := hany
    simp only at a0 a1 a2 a3
    cases b
    · simp only [range_inv, MAX_SIZE]; omega
    · simp only [range_inv, MAX_SIZE, a3]
      rw [to_int_eq _ (by omega) (by omega)]
      omega

theorem read_body_range (p : data_pipe) (count : Nat) (ok : Nat → Bool)
    (hr : range_inv p) : range_inv (read_body p count ok).2.1 := by
  obtain ⟨hs0, hs1, hi0, hi1, ho0, ho1⟩ := hr
  simp only [MAX_SIZE] at hs1 hi1 ho1
  unfold read_body
  by_cases hl : p.lectorf ≠ 0
  · rw [if_pos hl]
    exact ⟨hs0, hs1, hi0, hi1, ho0, ho1⟩
  · rw [if_neg hl]
    simp only []
    rw [to_size_t_eq _ hs0 hs1]
    generalize hcnt : (if count > p.size.toNat then p.size.toNat else count) = n
    have hn : n ≤ p.size.toNat := by rw [← hcnt]; split <;> omega
    have hany := read_copy_any ok n p 0 [] ho0 ho1
    rcases hrc : read_copy ok p 0 [] n with ⟨b, p', u⟩
    rw [hrc] at hany
    obtain ⟨a0, a1, a2, a3, _⟩ := hany
    simp only at a0 a1 a2 a3
    cases b
    · simp only [range_inv, MAX_SIZE]; omega
    · simp only [range_inv, MAX_SIZE, a3]
      rw [to_int_eq _ (by omega) (by omega)]
      omega

theorem deref_mem {m : Module} {ptr : Option Nat} {a : Nat} {p : data_pipe}
    (h : deref m ptr = some (a, p)) : p ∈ m.heap :=
  List.mem_iff_getElem?.mpr ⟨a, (deref_some h).2⟩

theorem heap_ok_set {l : List data_pipe} (a : Nat) (p : data_pipe)
    (hl : ∀ q ∈ l, range_inv q) (hp : range_inv p) : ∀ q ∈ l.set a p, range_inv q := by
  intro q hq
  rcases List.mem_or_eq_of_mem_set hq with h | h
  · exact hl q h
  · exact h ▸ hp

theorem init_pipe_range (g : data_pipe) : range_inv (init_pipe g) := by
  simp [range_inv, init_pipe, MAX_SIZE]

theorem writer_mark_range (p : data_pipe) (h : range_inv p) : range_inv (writer_mark p) := by
  obtain ⟨_, _, hi0, hi1, ho0, ho1⟩ := h
  exact ⟨by simp [writer_mark], by simp [writer_mark, MAX_SIZE], hi0, hi1, ho0, ho1⟩

theorem heap_ok_append {l : List data_pipe} (p : data_pipe)
    (hl : ∀ q ∈ l, range_inv q) (hp : range_inv p) : ∀ q ∈ l ++ [p], range_inv q := by
  intro q hq
  rcases List.mem_append.mp hq with h | h
  · exact hl q h
  · rw [List.mem_singleton] at h; exact h ▸ hp

theorem disco_open_heap_ok (m : Module) (hm : heap_ok m) (filp : file)
    (kp : Option data_pipe) (kb : Bool) (rc : Int) (m' : Module) (filp' : file)
    (h : disco_open m filp kp kb = some (rc, m', filp')) : heap_ok m' := by
  unfold disco_open at h
  split at h
  · split at h
    · cases hd : deref m m.pipe with
      | none => simp [hd] at h
      | some ap =>
        obtain ⟨a, p⟩ := ap
        simp only [hd, Option.some.injEq, Prod.mk.injEq] at h
        obtain ⟨_, rfl, _⟩ := h
        exact heap_ok_set a _ hm (writer_mark_range p (hm p (deref_mem hd)))
    · cases kp with
      | none =>
        simp only [Option.some.injEq, Prod.mk.injEq] at h
        obtain ⟨_, rfl, _⟩ := h
        exact hm
      | some g =>
        cases kb with
        | false =>
          simp only [Bool.false_eq_true, if_false, Option.some.injEq, Prod.mk.injEq] at h
          obtain ⟨_, rfl, _⟩ := h
          exact hm
        | true =>
          simp only [if_true, Option.some.injEq, Prod.mk.injEq] at h
          obtain ⟨_, rfl, _⟩ := h
          exact heap_ok_append _ hm (writer_mark_range _ (init_pipe_range g))
  · split at h
    · split at h
      · simp only [Option.some.injEq, Prod.mk.injEq] at h
        obtain ⟨_, rfl, _⟩ := h
        exact hm
      · cases kp with
        | none =>
          simp only [Option.some.injEq, Prod.mk.injEq] at h
          obtain ⟨_, rfl, _⟩ := h
          exact hm
        | some g =>
          cases kb with
          | false =>
            simp only [Bool.false_eq_true, if_false, Option.some.injEq, Prod.mk.injEq] at h
            obtain ⟨_, rfl, _⟩ := h
            exact hm
          | true =>
            simp only [if_true, Option.some.injEq, Prod.mk.injEq] at h
            obtain ⟨_, rfl, _⟩ := h
            exact heap_ok_append _ hm (init_pipe_range g)
    · simp only [Option.some.injEq, Prod.mk.injEq] at h
      obtain ⟨_, rfl, _⟩ := h
      exact hm

theorem disco_release_heap_ok (m : Module) (hm : heap_ok m) (filp : file)
    (rc : Int) (m' : Module) (h : disco_release m filp = some (rc, m')) : heap_ok m' := by
  unfold disco_release at h
  split at h
  · cases hd : deref m filp.private_data with
    | none => simp [hd] at h
    | some ap =>
      obtain ⟨a, p⟩ := ap
      simp only [hd, Option.some.injEq, Prod.mk.injEq] at h
      obtain ⟨_, rfl⟩ := h
      exact heap_ok_set a _ hm (hm p (deref_mem hd))
  · simp only [Option.some.injEq, Prod.mk.injEq] at h
    obtain ⟨_, rfl⟩ := h
    exact hm

theorem disco_write_heap_ok (m : Module) (hm : heap_ok m) (filp : file)
    (cfu : Nat → Option UInt8) (count : Nat) (rc : Int) (m' : Module)
    (h : disco_write m filp cfu count = some (rc, m')) : heap_ok m' := by
  unfold disco_write at h
  cases hd : deref m filp.private_data with
  | none => simp [hd] at h
  | some ap =>
    obtain ⟨a, p⟩ := ap
    have hb := write_body_range p cfu count (hm p (deref_mem hd))
    rcases hwb : write_body p cfu count with ⟨rc', p', bc⟩
    rw [hwb] at hb
    simp only [hd, hwb, Option.some.injEq, Prod.mk.injEq] at h
    obtain ⟨_, rfl⟩ := h
    exact heap_ok_set a _ hm hb

theorem read_pass_heap_ok (m : Module) (hm : heap_ok m) (a : Nat) (p : data_pipe)
    (ptr : Option Nat) (hd : deref m ptr = some (a, p)) (count : Nat) (ok : Nat → Bool) :
    heap_ok (store m a (read_body p count ok).2.1) :=
  heap_ok_set a _ hm (read_body_range p count ok (hm p (deref_mem hd)))

theorem disco_read_heap_ok (filp : file) (count : Nat) (f_pos : Int) (ok : Nat → Bool) :
    ∀ (waits : List c_wait_result) (m : Module), heap_ok m →
      (∀ mw, c_wait_result.woken mw ∈ waits → heap_ok mw) →
      ∀ (r : read_ret) (m' : Module),
        disco_read m filp count f_pos ok waits = some (r, m') → heap_ok m' := by
  intro waits
  induction waits with
  | nil =>
    intro m hm _ r m' h
    simp only [disco_read] at h
    cases hd : deref m filp.private_data with
    | none => simp [hd] at h
    | some ap =>
      obtain ⟨a, p⟩ := ap
      simp only [hd] at h
      split at h
      · simp only [Option.some.injEq, Prod.mk.injEq] at h
        obtain ⟨_, rfl⟩ := h
        exact hm
      · have := read_pass_heap_ok m hm a p _ hd count ok
        rcases hrb : read_body p count ok with ⟨rc', p', u⟩
        rw [hrb] at this
        simp only [hrb, Option.some.injEq, Prod.mk.injEq] at h
        obtain ⟨_, rfl⟩ := h
        exact this
  | cons w rest ih =>
    intro m hm hw r m' h
    simp only [disco_read] at h
    cases hd : deref m filp.private_data with
    | none => simp [hd] at h
    | some ap =>
      obtain ⟨a, p⟩ := ap
      simp only [hd] at h
      split at h
      · cases w with
        | interrupted =>
          simp only [Option.some.injEq, Prod.mk.injEq] at h
          obtain ⟨_, rfl⟩ := h
          exact hm
        | woken mw =>
          simp only at h
          exact ih mw (hw mw (List.mem_cons_self _ _))
            (fun m2 h2 => hw m2 (List.mem_cons_of_mem _ h2)) r m' h
      · have := read_pass_heap_ok m hm a p _ hd count ok
        rcases hrb : read_body p count ok with ⟨rc', p', u⟩
        rw [hrb] at this
        simp only [hrb, Option.some.injEq, Prod.mk.injEq] at h
        obtain ⟨_, rfl⟩ := h
        exact this

/-! ## Sessions written from empty -/

/-- On a full session `disco_write` returns `-ENOSPC` and changes nothing. -/
theorem full_write_rejected (m : Module) (filp : file)
    (copy_from_user : Nat → Option UInt8) (count a : Nat) (p : data_pipe)
    (h : deref m filp.private_data = some (a, p)) (hfull : p.size = 8192) :
    disco_write m filp copy_from_user count = some (-ENOSPC, m) := by
  simp only [disco_write, h, write_body, hfull, MAX_SIZE, if_true, store_same h]
  rfl

theorem deref_store {m : Module} {ptr : Option Nat} {a : Nat} {p : data_pipe}
    (h : deref m ptr = some (a, p)) (p' : data_pipe) (b : Nat) :
    deref { store m a p' with broadcasts := b } ptr = some (a, p') := by
  obtain ⟨rfl, hp⟩ := deref_some h
  have hlt : a < m.heap.length := (List.getElem?_eq_some.mp hp).1
  simp only [deref, store, List.getElem?_set_self hlt]

theorem holds_range {p : data_pipe} {l : List UInt8} (h : holds p l) : range_inv p := by
  obtain ⟨h1, h2, h3, h4, _⟩ := h
  simp only [range_inv, MAX_SIZE]
  omega

/-- One write of a whole byte string that fits extends the held bytes. -/
theorem holds_write (m : Module) (filp : file) (a : Nat) (p : data_pipe)
    (l w : List UInt8) (hd : deref m filp.private_data = some (a, p)) (hp : holds p l)
    (hfit : l.length + w.length ≤ 8192) :
    ∃ rc m' p', disco_write m filp (user_bytes w) w.length = some (rc, m') ∧
      m'.wait = m.wait ∧ m'.pipe = m.pipe ∧
      deref m' filp.private_data = some (a, p') ∧ holds p' (l ++ w) := by
  by_cases hfull : p.size = 8192
  · have hw : w = [] := by
      have := hp.2.1
      apply List.eq_nil_of_length_eq_zero
      omega
    subst hw
    refine ⟨_, m, p, full_write_rejected m filp _ _ a p hd hfull, rfl, rfl, hd, ?_⟩
    simpa using hp
  · have hr := holds_range hp
    obtain ⟨h1, h2, h3, h4, h5, h6, h7⟩ := hp
    have hlt : p.size < 8192 := by omega
    obtain ⟨p', he, hsz, hin, hout, hlf, _, hes, hnew, hold⟩ :=
      disco_write_ok m filp (user_bytes w) w.length a p (fun k => w.getD k 0) hd hr hlt
        (fun k hk => by simp [user_bytes, List.getD, List.getElem?_eq_getElem hk])
    have hmin : min w.length (8192 - p.size).toNat = w.length := by omega
    rw [hmin] at he hsz hin hnew hold
    refine ⟨_, _, p', he, rfl, rfl, deref_store hd p' _, ?_⟩
    refine ⟨by rw [hout, h1], ?_, ?_, ?_, by rw [hes]; exact h5, by rw [hlf, h6], ?_⟩
    · rw [hsz, h2]; simp
    · rw [hin, h3]; simp only [List.length_append]; push_cast; omega
    · simp only [List.length_append]; omega
    · intro i hi
      simp only [List.length_append] at hi
      by_cases hil : i < l.length
      · rw [List.getElem?_append_left hil, h7 i hil]
        congr 1
        symm
        apply hold
        intro k hk
        rw [h3]; omega
      · have hk : i - l.length < w.length := by omega
        rw [List.getElem?_append_right (by omega)]
        have := hnew (i - l.length) hk
        have hcell : (p.in_ + ((i - l.length : Nat) : Int)) % 8192 = (i : Int) := by
          rw [h3]; omega
        rw [hcell] at this
        rw [this, List.getElem?_eq_getElem hk]
        simp [List.getD, List.getElem?_eq_getElem hk]

/-- A sequence of whole writes that fits extends the held bytes by the
concatenation of the strings. -/
theorem holds_write_all (filp : file) (a : Nat) :
    ∀ (ws : List (List UInt8)) (m : Module) (p : data_pipe) (l : List UInt8),
      deref m filp.private_data = some (a, p) → holds p l →
      l.length + ws.flatten.length ≤ 8192 →
      ∃ m' p', write_all m filp ws = some m' ∧ m'.wait = m.wait ∧ m'.pipe = m.pipe ∧
        deref m' filp.private_data = some (a, p') ∧ holds p' (l ++ ws.flatten) := by
  intro ws
  induction ws with
  | nil =>
    intro m p l hd hp _
    exact ⟨m, p, rfl, rfl, rfl, hd, by simpa using hp⟩
  | cons w ws ih =>
    intro m p l hd hp hfit
    simp only [List.flatten_cons, List.length_append] at hfit
    obtain ⟨rc, m1, p1, he, hw1, hp1, hd1, hh1⟩ :=
      holds_write m filp a p l w hd hp (by omega)
    obtain ⟨m2, p2, he2, hw2, hp2, hd2, hh2⟩ :=
      ih m1 p1 (l ++ w) hd1 hh1 (by simp only [List.length_append]; omega)
    refine ⟨m2, p2, ?_, hw2.trans hw1, hp2.trans hp1, hd2, ?_⟩
    · simp only [write_all, he]; exact he2
    · simpa [List.flatten_cons, List.append_assoc] using hh2

/-- A read of sufficient `count` on a session holding `l` returns `l` and
empties the session. -/
theorem holds_read (m : Module) (filp : file) (a : Nat) (p : data_pipe) (l : List UInt8)
    (count : Nat) (f_pos : Int) (copy_to_user : Nat → Bool) (waits : List c_wait_result)
    (hd : deref m filp.private_data = some (a, p)) (hp : holds p l)
    (hcount : l.length ≤ count) (hfp : f_pos < l.length)
    (hok : ∀ k, k < count → copy_to_user k = true) :
    ∃ m' p', disco_read m filp count f_pos copy_to_user waits =
        some (read_ret.returned l.length l, m') ∧
      deref m' filp.private_data = some (a, p') ∧ p'.size = 0 := by
  have hr := holds_range hp
  obtain ⟨h1, h2, h3, h4, h5, h6, h7⟩ := hp
  have he := disco_read_ok m filp count f_pos copy_to_user waits a p hd hr h5 h6
    (by omega) hok
  have hmin : min count p.size.toNat = l.length := by omega
  rw [hmin] at he
  have hlist : (List.range l.length).map (fun i => p.buff ((p.out + (i : Nat)) % 8192)) = l := by
    apply List.ext_getElem?
    intro i
    rw [List.getElem?_map]
    by_cases hi : i < l.length
    · rw [List.getElem?_range hi, h7 i hi, h1]
      simp only [Option.map_some', zero_add]
      congr 2
      omega
    · rw [List.getElem?_eq_none (by simpa using hi), List.getElem?_eq_none (by omega)]
      rfl
  rw [hlist] at he
  refine ⟨_, { p with out := (p.out + (l.length : Nat)) % 8192,
                       size := p.size - (l.length : Nat) }, he, ?_, ?_⟩
  · exact deref_store hd _ m.broadcasts
  · simp only [h2]; omega

/-- What a write-mode open does on an idle module when both allocations
succeed. -/
theorem disco_open_writer_create (m : Module) (wf : file) (g : data_pipe)
    (hidle : m.wait = 0) (hwf : wf.f_mode &&& FMODE_WRITE ≠ 0) :
    disco_open m wf (some g) true =
      some (0,
        { wait := TRUE, pipe := some m.heap.length,
          heap := m.heap ++ [writer_mark (init_pipe g)],
          broadcasts := m.broadcasts + 1 },
        { wf with private_data := some m.heap.length }) := by
  simp only [disco_open, hwf, hidle, ne_eq, not_true_eq_false, not_false_eq_true, if_true,
    if_false]

/-- What a read-mode open does on a module that awaits a partner. -/
theorem disco_open_reader_join (m : Module) (rf : file) (kp : Option data_pipe) (kb : Bool)
    (hwait : m.wait ≠ 0) (hrf : rf.f_mode &&& FMODE_WRITE = 0)
    (hrf2 : rf.f_mode &&& FMODE_READ ≠ 0) :
    disco_open m rf kp kb =
      some (0, { m with wait := FALSE, broadcasts := m.broadcasts + 1 },
        { rf with private_data := m.pipe }) := by
  simp only [disco_open, hrf, hrf2, hwait, ne_eq, not_true_eq_false, not_false_eq_true,
    if_true, if_false]

theorem holds_fresh (g : data_pipe) : holds (writer_mark (init_pipe g)) [] := by
  simp [holds, writer_mark, init_pipe, TRUE, FALSE]

theorem deref_append_new (m : Module) (p : data_pipe) (w : Int) (q : Option Nat) (b : Nat) :
    deref { wait := w, pipe := q, heap := m.heap ++ [p], broadcasts := b }
      (some m.heap.length) = some (m.heap.length, p) := by
  simp [deref]

/-- What a read-mode open does on an idle module when both allocations
succeed. -/
theorem disco_open_reader_create (m : Module) (rf : file) (g : data_pipe)
    (hidle : m.wait = 0) (hrf : rf.f_mode &&& FMODE_WRITE = 0)
    (hrf2 : rf.f_mode &&& FMODE_READ ≠ 0) :
    disco_open m rf (some g) true =
      some (0,
        { m with wait := TRUE, pipe := some m.heap.length,
                 heap := m.heap ++ [init_pipe g] },
        { rf with private_data := some m.heap.length }) := by
  simp only [disco_open, hrf, hrf2, hidle, ne_eq, not_true_eq_false, not_false_eq_true,
    if_true, if_false]

/-- What a write-mode open does on a module that awaits a partner. -/
theorem disco_open_writer_join (m : Module) (wf : file) (kp : Option data_pipe) (kb : Bool)
    (a : Nat) (p : data_pipe) (hwait : m.wait ≠ 0) (hwf : wf.f_mode &&& FMODE_WRITE ≠ 0)
    (hd : deref m m.pipe = some (a, p)) :
    disco_open m wf kp kb =
      some (0,
        { store m a (writer_mark p) with wait := FALSE, broadcasts := m.broadcasts + 1 },
        { wf with private_data := some a }) := by
  simp only [disco_open, hwf, hwait, hd, ne_eq, not_false_eq_true, if_true]

theorem deref_set {m : Module} (m' : Module) {ptr : Option Nat} {a : Nat} {p : data_pipe}
    (h : deref m ptr = some (a, p)) (p' : data_pipe) (hm' : m'.heap = m.heap.set a p') :
    deref m' ptr = some (a, p') := by
  obtain ⟨rfl, hp⟩ := deref_some h
  have hlt : a < m.heap.length := (List.getElem?_eq_some.mp hp).1
  simp only [deref, hm', List.getElem?_set_self hlt]

/-! ## End of stream -/

/-- Claim C1, evaluated on the code: after open writer, close writer with
nothing written, open reader, the session has `size = 0` and `lectorf` set,
and `disco_read` at file position 0 does not return: it sleeps in `c_wait`,
and returns only when that wait is interrupted, with `-EINTR`. -/
theorem read_after_close_blocks :
    disco_open disco_init wfile (some junk) true = some (0, opened_module, whandle) ∧
    disco_release opened_module whandle =
      some (0, { wait := 1, pipe := some 0, heap := [closed_empty_pipe], broadcasts := 2 }) ∧
    disco_open { wait := 1, pipe := some 0, heap := [closed_empty_pipe], broadcasts := 2 }
        rfile none false =
      some (0, { wait := 0, pipe := some 0, heap := [closed_empty_pipe], broadcasts := 3 },
        rhandle) ∧
    closed_empty_pipe.size = 0 ∧ closed_empty_pipe.lectorf = TRUE ∧
    disco_read { wait := 0, pipe := some 0, heap := [closed_empty_pipe], broadcasts := 3 }
        rhandle 10 0 writable [] =
      some (read_ret.blocked,
        { wait := 0, pipe := some 0, heap := [closed_empty_pipe], broadcasts := 3 }) ∧
    disco_read { wait := 0, pipe := some 0, heap := [closed_empty_pipe], broadcasts := 3 }
        rhandle 10 0 writable [c_wait_result.interrupted] =
      some (read_ret.returned (-EINTR) [],
        { wait := 0, pipe := some 0, heap := [closed_empty_pipe], broadcasts := 3 }) :=
  ⟨rfl, rfl, rfl, rfl, rfl, rfl, rfl⟩

/-- Claim C2, evaluated on the code: after open writer, write of the bytes
1, 2, 3, close writer, open reader, a `disco_read` with `max_count = 10` at
file position 0 returns 0 bytes although `size = 3`, and leaves `size = 3`:
the three bytes are never delivered. -/
theorem read_after_close_drops_data :
    disco_write opened_module whandle (user_bytes [1, 2, 3]) 3 =
      some (3, { wait := 1, pipe := some 0, heap := [three_pipe], broadcasts := 2 }) ∧
    disco_release { wait := 1, pipe := some 0, heap := [three_pipe], broadcasts := 2 } whandle =
      some (0, { wait := 1, pipe := some 0, heap := [{ three_pipe with lectorf := 1 }],
                 broadcasts := 3 }) ∧
    disco_open { wait := 1, pipe := some 0, heap := [{ three_pipe with lectorf := 1 }],
                 broadcasts := 3 } rfile none false =
      some (0, { wait := 0, pipe := some 0, heap := [{ three_pipe with lectorf := 1 }],
                 broadcasts := 4 }, rhandle) ∧
    disco_read { wait := 0, pipe := some 0, heap := [{ three_pipe with lectorf := 1 }],
                 broadcasts := 4 } rhandle 10 0 writable [] =
      some (read_ret.returned 0 [],
        { wait := 0, pipe := some 0, heap := [{ three_pipe with lectorf := 1 }],
          broadcasts := 4 }) ∧
    ({ three_pipe with lectorf := 1 } : data_pipe).size = 3 :=
  ⟨rfl, rfl, rfl, rfl, rfl⟩

/-! ## Write on a full buffer -/

/-- Claim C4: on a session with `size = 8192`, `disco_write` returns `-ENOSPC`
for every input and leaves the whole global state, hence the session (buffer,
`in`, `out`, `size`, flags), as it was. -/
theorem write_full_no_space (m : Module) (filp : file)
    (copy_from_user : Nat → Option UInt8) (count a : Nat) (p : data_pipe)
    (h : deref m filp.private_data = some (a, p)) (hfull : p.size = 8192) :
    disco_write m filp copy_from_user count = some (-ENOSPC, m) :=
  full_write_rejected m filp copy_from_user count a p h hfull

/-- Claim C4 at a full session and a write of one byte. -/
theorem write_full_no_space_witness :
    deref full_module whandle.private_data = some (0, full_pipe) ∧
      full_pipe.size = 8192 ∧
      disco_write full_module whandle (user_bytes [1]) 1 = some (-ENOSPC, full_module) :=
  ⟨rfl, rfl, write_full_no_space full_module whandle (user_bytes [1]) 1 0 full_pipe rfl rfl⟩

/-! ## Copy fault in a write -/

/-- Claim C7, evaluated on the code: on the empty session of `opened_module`,
a write of `count = 3` whose first byte is copied and whose second byte
faults returns `-EFAULT` with `in = 1` and `size = 0`: the cursor counts the
copied byte, the occupancy does not. -/
theorem write_fault_leaves_size :
    user_bytes [1] 0 = some 1 ∧ user_bytes [1] 1 = none ∧
    (disco_write opened_module whandle (user_bytes [1]) 3).map
        (fun r => (r.1, mview r.2)) =
      some (-EFAULT,
        { wait := 1, pipe := some 0,
          heap := [{ in_ := 1, out := 0, size := 0, lectorf := 0, lector := 1,
                     escritor := 1, head := [1, 0, 0, 0, 0, 0, 0, 0] }],
          broadcasts := 1 }) := by
  decide

/-! ## Interrupted read -/

/-- Claim C8: when `disco_read` has to wait and `c_wait` returns non-zero, the
call returns `-EINTR`, stores no byte in the user buffer and leaves the whole
global state (every session, `pipe`, `wait`) as it was. -/
theorem read_interrupted_atomic (m : Module) (filp : file) (count : Nat) (f_pos : Int)
    (copy_to_user : Nat → Bool) (rest : List c_wait_result) (a : Nat) (p : data_pipe)
    (h : deref m filp.private_data = some (a, p)) (hw : must_wait p f_pos = true) :
    disco_read m filp count f_pos copy_to_user (c_wait_result.interrupted :: rest) =
      some (read_ret.returned (-EINTR) [], m) := by
  simp only [disco_read, h, hw, if_true]

/-- Claim C8 at a reader of an empty session. -/
theorem read_interrupted_atomic_witness :
    deref opened_module rhandle.private_data = some (0, fresh_pipe) ∧
      must_wait fresh_pipe 0 = true ∧
      disco_read opened_module rhandle 10 0 writable [c_wait_result.interrupted] =
        some (read_ret.returned (-EINTR) [], opened_module) :=
  ⟨rfl, rfl, read_interrupted_atomic opened_module rhandle 10 0 writable [] 0 fresh_pipe rfl rfl⟩

/-! ## Append and consume -/

/-- Claim C9: on a session within the range invariant and with `size < 8192`,
a `disco_write` of `count` bytes that meets no copy fault returns
`n = min count (8192 - size)`; afterwards `size` has grown by `n`, `in` is
`(in + n) mod 8192`, `out` and the flags are as before, cell
`(in + i) mod 8192` holds input byte `i` for `i < n`, and every other cell is
as before. -/
theorem write_append_postcondition (m : Module) (filp : file)
    (copy_from_user : Nat → Option UInt8) (count a : Nat) (p : data_pipe)
    (d : Nat → UInt8)
    (h : deref m filp.private_data = some (a, p)) (hr : range_inv p)
    (hlt : p.size < 8192) (hd : ∀ k, k < count → copy_from_user k = some (d k)) :
    ∃ p', disco_write m filp copy_from_user count =
        some (((min count (8192 - p.size).toNat : Nat) : Int),
          { store m a p' with broadcasts := m.broadcasts + 1 }) ∧
      p'.size = p.size + (min count (8192 - p.size).toNat : Nat) ∧
      p'.in_ = (p.in_ + (min count (8192 - p.size).toNat : Nat)) % 8192 ∧
      p'.out = p.out ∧
      p'.lectorf = p.lectorf ∧ p'.lector = p.lector ∧ p'.escritor = p.escritor ∧
      (∀ i : Nat, i < min count (8192 - p.size).toNat →
        p'.buff ((p.in_ + i) % 8192) = d i) ∧
      (∀ j : Int, (∀ i : Nat, i < min count (8192 - p.size).toNat →
        j ≠ (p.in_ + i) % 8192) → p'.buff j = p.buff j) :=
  disco_write_ok m filp copy_from_user count a p d h hr hlt hd

/-- Claim C9 at a session holding three bytes and a write of two more. -/
theorem write_append_postcondition_witness :
    deref three_module whandle.private_data = some (0, three_pipe) ∧
      range_inv three_pipe ∧ three_pipe.size < 8192 ∧
      (∀ k, k < 2 → user_bytes [4, 5] k = some ([4, 5].getD k 0)) ∧
      ∃ p', disco_write three_module whandle (user_bytes [4, 5]) 2 =
          some (((min 2 (8192 - three_pipe.size).toNat : Nat) : Int),
            { store three_module 0 p' with broadcasts := three_module.broadcasts + 1 }) ∧
        p'.size = three_pipe.size + (min 2 (8192 - three_pipe.size).toNat : Nat) ∧
        p'.in_ = (three_pipe.in_ + (min 2 (8192 - three_pipe.size).toNat : Nat)) % 8192 ∧
        p'.out = three_pipe.out ∧
        p'.lectorf = three_pipe.lectorf ∧ p'.lector = three_pipe.lector ∧
        p'.escritor = three_pipe.escritor ∧
        (∀ i : Nat, i < min 2 (8192 - three_pipe.size).toNat →
          p'.buff ((three_pipe.in_ + i) % 8192) = [4, 5].getD i 0) ∧
        (∀ j : Int, (∀ i : Nat, i < min 2 (8192 - three_pipe.size).toNat →
          j ≠ (three_pipe.in_ + i) % 8192) → p'.buff j = three_pipe.buff j) :=
  ⟨rfl, by decide, by decide, by decide,
    write_append_postcondition three_module whandle (user_bytes [4, 5]) 2 0 three_pipe
      (fun k => [4, 5].getD k 0) rfl (by decide) (by decide) (by decide)⟩

/-- Claim C10: on a session within the range invariant, with a writer present
(`escritor` set), the writer not closed (`lectorf` clear) and `size > 0`, a
`disco_read` at file position 0 with `max_count = c` that meets no copy fault
returns `n = min c size` and delivers the cells `(out + i) mod 8192`, `i < n`,
in that order; afterwards `out` is `(out + n) mod 8192`, `size` is
`size - n`, and `in`, the buffer and the flags are as before. -/
theorem read_consume_postcondition (m : Module) (filp : file) (c : Nat)
    (copy_to_user : Nat → Bool) (waits : List c_wait_result) (a : Nat) (p : data_pipe)
    (h : deref m filp.private_data = some (a, p)) (hr : range_inv p)
    (hw : p.escritor ≠ 0) (hc : p.lectorf = 0) (hs : 0 < p.size)
    (hok : ∀ k, k < c → copy_to_user k = true) :
    disco_read m filp c 0 copy_to_user waits =
      some (read_ret.returned ((min c p.size.toNat : Nat) : Int)
          ((List.range (min c p.size.toNat)).map
            (fun i => p.buff ((p.out + (i : Nat)) % 8192))),
        store m a { p with out := (p.out + (min c p.size.toNat : Nat)) % 8192,
                           size := p.size - (min c p.size.toNat : Nat) }) :=
  disco_read_ok m filp c 0 copy_to_user waits a p h hr hw hc hs hok

/-- Claim C10 at a session holding three bytes and a read of at most two. -/
theorem read_consume_postcondition_witness :
    deref three_module rhandle.private_data = some (0, three_pipe) ∧
      range_inv three_pipe ∧ three_pipe.escritor ≠ 0 ∧ three_pipe.lectorf = 0 ∧
      0 < three_pipe.size ∧ (∀ k, k < 2 → writable k = true) ∧
      disco_read three_module rhandle 2 0 writable [] =
        some (read_ret.returned ((min 2 three_pipe.size.toNat : Nat) : Int)
            ((List.range (min 2 three_pipe.size.toNat)).map
              (fun i => three_pipe.buff ((three_pipe.out + (i : Nat)) % 8192))),
          store three_module 0
            { three_pipe with
                out := (three_pipe.out + (min 2 three_pipe.size.toNat : Nat)) % 8192,
                size := three_pipe.size - (min 2 three_pipe.size.toNat : Nat) }) :=
  ⟨rfl, by decide, by decide, by decide, by decide, by decide,
    read_consume_postcondition three_module rhandle 2 writable [] 0 three_pipe rfl
      (by decide) (by decide) (by decide) (by decide) (by decide)⟩

/-! ## Range invariant -/

/-- Claim C6: the range invariant (`0 ≤ size ≤ 8192`, `0 ≤ in < 8192`,
`0 ≤ out < 8192`) holds for a freshly created session, and when it holds for
every session of the module it still does after `disco_open` (either role,
join, create or failed allocation), `disco_release`, `disco_read` (data
delivered, copy fault, interrupted or still waiting, the states found at each
wake-up being within the invariant) and `disco_write` (full or short
transfer, no space, copy fault). -/
theorem range_invariant_preserved (m : Module) (hm : heap_ok m) :
    (∀ g : data_pipe, range_inv (init_pipe g) ∧ range_inv (writer_mark (init_pipe g))) ∧
    (∀ (filp : file) (kmalloc_pipe : Option data_pipe) (kmalloc_buff : Bool) (rc : Int)
        (m' : Module) (filp' : file),
      disco_open m filp kmalloc_pipe kmalloc_buff = some (rc, m', filp') → heap_ok m') ∧
    (∀ (filp : file) (rc : Int) (m' : Module),
      disco_release m filp = some (rc, m') → heap_ok m') ∧
    (∀ (filp : file) (count : Nat) (f_pos : Int) (copy_to_user : Nat → Bool)
        (waits : List c_wait_result) (r : read_ret) (m' : Module),
      (∀ mw, c_wait_result.woken mw ∈ waits → heap_ok mw) →
      disco_read m filp count f_pos copy_to_user waits = some (r, m') → heap_ok m') ∧
    (∀ (filp : file) (copy_from_user : Nat → Option UInt8) (count : Nat) (rc : Int)
        (m' : Module),
      disco_write m filp copy_from_user count = some (rc, m') → heap_ok m') :=
  ⟨fun g => ⟨init_pipe_range g, writer_mark_range _ (init_pipe_range g)⟩,
    fun filp kp kb rc m' filp' h => disco_open_heap_ok m hm filp kp kb rc m' filp' h,
    fun filp rc m' h => disco_release_heap_ok m hm filp rc m' h,
    fun filp count f_pos ok waits r m' hw h =>
      disco_read_heap_ok filp count f_pos ok waits m hm hw r m' h,
    fun filp cfu count rc m' h => disco_write_heap_ok m hm filp cfu count rc m' h⟩

/-- Claim C6 at a session holding three bytes: a write that faults on its
second byte and a read that faults on its second byte both return `-EFAULT`
and leave a module within the invariant. -/
theorem range_invariant_preserved_witness :
    heap_ok three_module ∧
    (∃ m', disco_write three_module whandle (user_bytes [9]) 2 = some (-EFAULT, m') ∧
      heap_ok m') ∧
    (∃ u m', disco_read three_module rhandle 2 0 (fun k => decide (k < 1)) [] =
        some (read_ret.returned (-EFAULT) u, m') ∧ heap_ok m') :=
  have h0 : heap_ok three_module := by
    intro p hp
    simp only [three_module, List.mem_singleton] at hp
    subst hp
    decide
  ⟨h0,
    ⟨_, rfl, (range_invariant_preserved three_module h0).2.2.2.2 whandle (user_bytes [9]) 2
      _ _ rfl⟩,
    ⟨_, _, rfl, (range_invariant_preserved three_module h0).2.2.2.1 rhandle 2 0
      (fun k => decide (k < 1)) [] _ _ (fun _ h => by simp at h) rfl⟩⟩

/-! ## First in, first out -/

theorem size_at_set (m m' : Module) (a : Nat) (p p' : data_pipe)
    (hp : m.heap[a]? = some p) (hm' : m'.heap = m.heap.set a p') (x : Nat) :
    size_at m' x = if x = a then p'.size else size_at m x := by
  have hlt : a < m.heap.length := (List.getElem?_eq_some.mp hp).1
  unfold size_at
  rw [hm', List.getElem?_set]
  by_cases hx : x = a
  · subst hx; simp [hlt]
  · have : ¬ a = x := fun h => hx h.symm
    simp [hx, this]

theorem size_at_append (m m' : Module) (p' : data_pipe)
    (hm' : m'.heap = m.heap ++ [p']) (x : Nat) :
    size_at m' x = if x = m.heap.length then p'.size else size_at m x := by
  unfold size_at
  rw [hm']
  by_cases hx : x = m.heap.length
  · subst hx; simp
  · rcases Nat.lt_or_gt_of_ne hx with h | h
    · rw [List.getElem?_append_left h]; simp [hx]
    · rw [List.getElem?_append_right (by omega), List.getElem?_eq_none (by simp; omega),
        List.getElem?_eq_none (by omega)]
      simp [hx]

theorem size_at_fresh (m : Module) : size_at m m.heap.length = 0 := by
  unfold size_at
  rw [List.getElem?_eq_none (by omega)]

theorem size_at_deref {m : Module} {ptr : Option Nat} {a : Nat} {p : data_pipe}
    (h : deref m ptr = some (a, p)) : size_at m a = p.size := by
  unfold size_at
  rw [(deref_some h).2]

theorem credit_apply (f : Nat → Int) (ptr : Option Nat) (n : Int) (x : Nat) :
    credit f ptr n x = f x + (if ptr = some x ∧ 0 < n then n else 0) := by
  unfold credit
  cases ptr with
  | none => simp
  | some a =>
    by_cases hn : 0 < n
    · by_cases hx : x = a
      · subst hx; simp [hn]
      · have : ¬ a = x := fun h => hx h.symm
        simp [hn, Function.update, hx, this]
    · simp [hn]

/-- Unless it returns `-EFAULT`, the body of `disco_write` adds to `size`
exactly the count it returns (nothing when it returns `-ENOSPC`). -/
theorem write_body_acct (p : data_pipe) (cfu : Nat → Option UInt8) (count : Nat)
    (hr : range_inv p) (hnf : (write_body p cfu count).1 ≠ -EFAULT) :
    (write_body p cfu count).2.1.size =
      p.size + (if 0 < (write_body p cfu count).1 then (write_body p cfu count).1 else 0) := by
  obtain ⟨hs0, hs1, hi0, hi1, ho0, ho1⟩ := hr
  simp only [MAX_SIZE] at hs1 hi1 ho1
  unfold write_body at hnf ⊢
  by_cases hfull : p.size = MAX_SIZE
  · rw [if_pos hfull]; simp [ENOSPC]
  · rw [if_neg hfull] at hnf ⊢
    simp only [] at hnf ⊢
    simp only [MAX_SIZE] at hfull
    have hroom : to_size_t (to_int (MAX_SIZE - p.size)) = (8192 - p.size).toNat := by
      simp only [MAX_SIZE]
      rw [to_int_eq _ (by omega) (by omega), to_size_t_eq _ (by omega) (by omega)]
    rw [hroom] at hnf ⊢
    generalize hcnt : (if count > (8192 - p.size).toNat then (8192 - p.size).toNat
      else count) = n at hnf ⊢
    have hn : n ≤ (8192 - p.size).toNat := by rw [← hcnt]; split <;> omega
    have hany := write_copy_any cfu n p 0 hi0 hi1
    rcases hwc : write_copy cfu p 0 n with ⟨b, p'⟩
    rw [hwc] at hany hnf
    obtain ⟨_, _, _, a3, _⟩ := hany
    simp only at a3
    cases b
    · simp at hnf
    · simp only [a3]
      rw [to_int_eq _ (by omega) (by omega), to_ssize_t_eq _ (by omega)]
      split <;> omega

/-- Unless it returns `-EFAULT`, the body of `disco_read` takes from `size`
exactly the count it returns. -/
theorem read_body_acct (p : data_pipe) (count : Nat) (ok : Nat → Bool)
    (hr : range_inv p) (hnf : (read_body p count ok).1 ≠ -EFAULT) :
    (read_body p count ok).2.1.size =
      p.size - (if 0 < (read_body p count ok).1 then (read_body p count ok).1 else 0) := by
  obtain ⟨hs0, hs1, hi0, hi1, ho0, ho1⟩ := hr
  simp only [MAX_SIZE] at hs1 hi1 ho1
  unfold read_body at hnf ⊢
  by_cases hl : p.lectorf ≠ 0
  · rw [if_pos hl]; simp
  · rw [if_neg hl] at hnf ⊢
    simp only [] at hnf ⊢
    rw [to_size_t_eq _ hs0 hs1] at hnf ⊢
    generalize hcnt : (if count > p.size.toNat then p.size.toNat else count) = n at hnf ⊢
    have hn : n ≤ p.size.toNat := by rw [← hcnt]; split <;> omega
    have hany := read_copy_any ok n p 0 [] ho0 ho1
    rcases hrc : read_copy ok p 0 [] n with ⟨b, p', u⟩
    rw [hrc] at hany hnf
    obtain ⟨_, _, _, a3, _⟩ := hany
    simp only at a3
    cases b
    · simp at hnf
    · simp only [a3]
      rw [to_int_eq _ (by omega) (by omega), to_ssize_t_eq _ (by omega)]
      split <;> omega

theorem size_at_congr (m m' : Module) (h : m'.heap = m.heap) (x : Nat) :
    size_at m' x = size_at m x := by
  unfold size_at; rw [h]

theorem disco_write_acct (m : Module) (hm : heap_ok m) (filp : file)
    (cfu : Nat → Option UInt8) (count : Nat) (rc : Int) (m' : Module)
    (h : disco_write m filp cfu count = some (rc, m')) (hnf : rc ≠ -EFAULT) (x : Nat) :
    size_at m' x =
      size_at m x + (if filp.private_data = some x ∧ 0 < rc then rc else 0) := by
  unfold disco_write at h
  cases hd : deref m filp.private_data with
  | none => simp [hd] at h
  | some ap =>
    obtain ⟨a, p⟩ := ap
    obtain ⟨hptr, hp⟩ := deref_some hd
    have hacct := write_body_acct p cfu count (hm p (deref_mem hd))
    rcases hwb : write_body p cfu count with ⟨rc', p', bc⟩
    rw [hwb] at hacct
    simp only [hd, hwb, Option.some.injEq, Prod.mk.injEq] at h
    obtain ⟨rfl, rfl⟩ := h
    rw [size_at_set m _ a p p' hp rfl x, hptr]
    by_cases hx : x = a
    · subst hx
      rw [if_pos rfl, hacct hnf, size_at_deref hd]
      simp
    · have : ¬ a = x := fun h => hx h.symm
      simp [hx, this]

theorem disco_read_acct (m : Module) (hm : heap_ok m) (filp : file) (count : Nat)
    (f_pos : Int) (ok : Nat → Bool) (intr : Bool) (r : read_ret) (m' : Module)
    (h : disco_read m filp count f_pos ok
      (if intr then [c_wait_result.interrupted] else []) = some (r, m')) :
    (r = read_ret.blocked → m' = m) ∧
    (∀ rc u, r = read_ret.returned rc u → rc ≠ -EFAULT → ∀ x : Nat,
      size_at m' x =
        size_at m x - (if filp.private_data = some x ∧ 0 < rc then rc else 0)) := by
  cases hd : deref m filp.private_data with
  | none => cases intr <;> simp [disco_read, hd] at h
  | some ap =>
    obtain ⟨a, p⟩ := ap
    obtain ⟨hptr, hp⟩ := deref_some hd
    by_cases hw : must_wait p f_pos = true
    · cases intr with
      | false =>
        simp only [Bool.false_eq_true, if_false, disco_read, hd, hw, if_true,
          Option.some.injEq, Prod.mk.injEq] at h
        obtain ⟨rfl, rfl⟩ := h
        exact ⟨fun _ => rfl, fun rc u hr => by cases hr⟩
      | true =>
        simp only [if_true, disco_read, hd, hw, Option.some.injEq, Prod.mk.injEq] at h
        obtain ⟨rfl, rfl⟩ := h
        refine ⟨fun hr => (by cases hr), fun rc u hr _ x => ?_⟩
        cases hr
        simp [EINTR]
    · have hacct := read_body_acct p count ok (hm p (deref_mem hd))
      rcases hrb : read_body p count ok with ⟨rc', p', u'⟩
      rw [hrb] at hacct
      have h2 : some (read_ret.returned rc' u', store m a p') = some (r, m') := by
        cases intr <;> simpa [disco_read, hd, hw, hrb] using h
      simp only [Option.some.injEq, Prod.mk.injEq] at h2
      obtain ⟨rfl, rfl⟩ := h2
      refine ⟨fun hr => (by cases hr), fun rc u hr hnf x => ?_⟩
      cases hr
      rw [size_at_set m _ a p p' hp rfl x, hptr]
      by_cases hx : x = a
      · subst hx
        rw [if_pos rfl, hacct hnf, size_at_deref hd]
        simp
      · have : ¬ a = x := fun h => hx h.symm
        simp [hx, this]

theorem disco_release_acct (m : Module) (filp : file) (rc : Int) (m' : Module)
    (h : disco_release m filp = some (rc, m')) (x : Nat) : size_at m' x = size_at m x := by
  unfold disco_release at h
  split at h
  · cases hd : deref m filp.private_data with
    | none => simp [hd] at h
    | some ap =>
      obtain ⟨a, p⟩ := ap
      simp only [hd, Option.some.injEq, Prod.mk.injEq] at h
      obtain ⟨_, rfl⟩ := h
      rw [size_at_set m _ a p { p with lectorf := TRUE } (deref_some hd).2 rfl x]
      by_cases hx : x = a
      · subst hx; simp [size_at_deref hd]
      · simp [hx]
  · simp only [Option.some.injEq, Prod.mk.injEq] at h
    obtain ⟨_, rfl⟩ := h
    rfl

theorem disco_open_acct (m : Module) (filp : file) (kp : Option data_pipe) (kb : Bool)
    (rc : Int) (m' : Module) (filp' : file)
    (h : disco_open m filp kp kb = some (rc, m', filp')) (D : Nat → Int) (x : Nat) :
    size_at m' x + drop_on_open m filp.f_mode D x = size_at m x + D x := by
  unfold disco_open at h
  unfold drop_on_open
  by_cases hwm : filp.f_mode &&& FMODE_WRITE ≠ 0
  · rw [if_pos hwm] at h
    by_cases hwait : m.wait ≠ 0
    · rw [if_pos hwait] at h
      rw [if_pos ⟨hwm, hwait⟩]
      cases hd : deref m m.pipe with
      | none => simp [hd] at h
      | some ap =>
        obtain ⟨a, p⟩ := ap
        simp only [hd, Option.some.injEq, Prod.mk.injEq] at h
        obtain ⟨_, rfl, _⟩ := h
        rw [size_at_set m _ a p (writer_mark p) (deref_some hd).2 rfl x]
        by_cases hx : x = a
        · subst hx
          simp [size_at_deref hd, writer_mark]
          omega
        · simp [hx, Function.update]
    · rw [if_neg hwait] at h
      rw [if_neg (fun hc => hwait hc.2)]
      cases kp with
      | none =>
        simp only [Option.some.injEq, Prod.mk.injEq] at h
        obtain ⟨_, rfl, _⟩ := h
        rfl
      | some g =>
        cases kb with
        | false =>
          simp only [Bool.false_eq_true, if_false, Option.some.injEq, Prod.mk.injEq] at h
          obtain ⟨_, rfl, _⟩ := h
          rfl
        | true =>
          simp only [if_true, Option.some.injEq, Prod.mk.injEq] at h
          obtain ⟨_, rfl, _⟩ := h
          rw [size_at_append m _ (writer_mark (init_pipe g)) rfl x]
          by_cases hx : x = m.heap.length
          · subst hx; simp [size_at_fresh, writer_mark]
          · simp [hx]
  · rw [if_neg hwm] at h
    rw [if_neg (fun hc => hwm hc.1)]
    by_cases hrm : filp.f_mode &&& FMODE_READ ≠ 0
    · rw [if_pos hrm] at h
      by_cases hwait : m.wait ≠ 0
      · rw [if_pos hwait] at h
        simp only [Option.some.injEq, Prod.mk.injEq] at h
        obtain ⟨_, rfl, _⟩ := h
        rfl
      · rw [if_neg hwait] at h
        cases kp with
        | none =>
          simp only [Option.some.injEq, Prod.mk.injEq] at h
          obtain ⟨_, rfl, _⟩ := h
          rfl
        | some g =>
          cases kb with
          | false =>
            simp only [Bool.false_eq_true, if_false, Option.some.injEq, Prod.mk.injEq] at h
            obtain ⟨_, rfl, _⟩ := h
            rfl
          | true =>
            simp only [if_true, Option.some.injEq, Prod.mk.injEq] at h
            obtain ⟨_, rfl, _⟩ := h
            rw [size_at_append m _ (init_pipe g) rfl x]
            by_cases hx : x = m.heap.length
            · subst hx; simp [size_at_fresh, init_pipe]
            · simp [hx]
    · rw [if_neg hrm] at h
      simp only [Option.some.injEq, Prod.mk.injEq] at h
      obtain ⟨_, rfl, _⟩ := h
      rfl

theorem count_fault_zero {f : Nat} {rc : Int} (h : count_fault f rc = 0) :
    f = 0 ∧ rc ≠ -EFAULT := by
  unfold count_fault at h
  by_cases hrc : rc = -EFAULT
  · rw [if_pos hrc] at h; omega
  · rw [if_neg hrc] at h; exact ⟨h, hrc⟩

/-- One call keeps the books balanced. -/
theorem step_books (s s' : Sys) (op : Op) (hb : books_ok s) (h : step s op = some s') :
    books_ok s' := by
  obtain ⟨hheap, hacct⟩ := hb
  cases op with
  | do_open f_mode kp kb =>
    simp only [step] at h
    cases ho : disco_open s.m { f_mode := f_mode, private_data := none } kp kb with
    | none => simp [ho] at h
    | some res =>
      obtain ⟨rc, m', filp'⟩ := res
      simp only [ho, Option.some.injEq] at h
      subst h
      refine ⟨disco_open_heap_ok s.m hheap _ kp kb rc m' filp' ho, fun hf a => ?_⟩
      have h1 := disco_open_acct s.m _ kp kb rc m' filp' ho s.dropped a
      have h2 := hacct hf a
      simp only at h1 ⊢
      omega
  | do_release fd =>
    simp only [step] at h
    cases hfd : s.files[fd]? with
    | none => simp [hfd] at h
    | some filp =>
      cases ho : disco_release s.m filp with
      | none => simp [hfd, ho] at h
      | some res =>
        obtain ⟨rc, m'⟩ := res
        simp only [hfd, ho, Option.some.injEq] at h
        subst h
        refine ⟨disco_release_heap_ok s.m hheap filp rc m' ho, fun hf a => ?_⟩
        have h1 := disco_release_acct s.m filp rc m' ho a
        have h2 := hacct hf a
        simp only at h1 ⊢
        omega
  | do_read fd count f_pos ok intr =>
    simp only [step] at h
    cases hfd : s.files[fd]? with
    | none => simp [hfd] at h
    | some filp =>
      cases ho : disco_read s.m filp count f_pos ok
          (if intr then [c_wait_result.interrupted] else []) with
      | none => simp [hfd, ho] at h
      | some res =>
        obtain ⟨r, m'⟩ := res
        have hheap' : heap_ok m' :=
          disco_read_heap_ok filp count f_pos ok _ s.m hheap
            (fun mw hmw => by cases intr <;> simp at hmw) r m' ho
        obtain ⟨hblk, hret⟩ := disco_read_acct s.m hheap filp count f_pos ok intr r m' ho
        cases r with
        | blocked =>
          simp only [hfd, ho, Option.some.injEq] at h
          subst h
          refine ⟨hheap', fun hf a => ?_⟩
          have := hblk rfl
          subst this
          exact hacct hf a
        | returned rc u =>
          simp only [hfd, ho, Option.some.injEq] at h
          subst h
          refine ⟨hheap', fun hf a => ?_⟩
          obtain ⟨hf0, hnf⟩ := count_fault_zero hf
          have h1 := hret rc u rfl hnf a
          have h2 := hacct hf0 a
          simp only [credit_apply] at h1 ⊢
          omega
  | do_write fd cfu count =>
    simp only [step] at h
    cases hfd : s.files[fd]? with
    | none => simp [hfd] at h
    | some filp =>
      cases ho : disco_write s.m filp cfu count with
      | none => simp [hfd, ho] at h
      | some res =>
        obtain ⟨rc, m'⟩ := res
        simp only [hfd, ho, Option.some.injEq] at h
        subst h
        refine ⟨disco_write_heap_ok s.m hheap filp cfu count rc m' ho, fun hf a => ?_⟩
        obtain ⟨hf0, hnf⟩ := count_fault_zero hf
        have h1 := disco_write_acct s.m hheap filp cfu count rc m' ho hnf a
        have h2 := hacct hf0 a
        simp only [credit_apply] at h1 ⊢
        omega

/-- A sequence of calls keeps the books balanced. -/
theorem run_books : ∀ (ops : List Op) (s s' : Sys), books_ok s → run s ops = some s' →
    books_ok s' := by
  intro ops
  induction ops with
  | nil =>
    intro s s' hb h
    simp only [run, Option.some.injEq] at h
    exact h ▸ hb
  | cons op ops ih =>
    intro s s' hb h
    simp only [run] at h
    cases hs : step s op with
    | none => simp [hs] at h
    | some s1 =>
      simp only [hs] at h
      exact ih s1 s' (step_books s s1 op hb hs) h

theorem init_books : books_ok init_sys := by
  refine ⟨fun p hp => by simp [init_sys, disco_init] at hp, fun _ a => ?_⟩
  simp [size_at, init_sys, disco_init]

/-- Claim C5 as stated fails: after open writer, write of three bytes, open
writer again, the session has `size = 0` while 3 bytes were written to it
and none read. -/
theorem size_accounting_counterexample :
    (run init_sys reopen_trace).map
        (fun s => (s.m.heap.map (fun p => p.size), s.written 0, s.consumed 0,
          decide (size_at s.m 0 = s.written 0 - s.consumed 0))) =
      some ([0], 3, 0, false) := by
  decide

/-- Claim C5, amended: after every sequence of calls from the state of
`disco_init` in which no call returned `-EFAULT`, the `size` of every session
is the number of bytes written to it, less the number read from it, less the
unread bytes dropped by the write-mode opens that joined it. -/
theorem size_accounting_amended (ops : List Op) (s : Sys)
    (hrun : run init_sys ops = some s) (hnf : s.faults = 0) (a : Nat) (p : data_pipe)
    (hp : s.m.heap[a]? = some p) :
    p.size = s.written a - s.consumed a - s.dropped a := by
  have := (run_books ops init_sys s init_books hrun).2 hnf a
  simpa [size_at, hp] using this

/-- Claim C5, amended, at two sequences: one with reads, an interrupted read
and a close, one in which a second write-mode open drops three bytes. -/
theorem size_accounting_amended_witness :
    (∃ s p, run init_sys plain_trace = some s ∧ s.faults = 0 ∧ s.m.heap[0]? = some p ∧
      p.size = s.written 0 - s.consumed 0 - s.dropped 0) ∧
    (∃ s p, run init_sys reopen_trace = some s ∧ s.faults = 0 ∧ s.m.heap[0]? = some p ∧
      s.dropped 0 = 3 ∧ p.size = s.written 0 - s.consumed 0 - s.dropped 0) :=
  ⟨⟨_, _, rfl, rfl, rfl, size_accounting_amended plain_trace _ rfl rfl 0 _ rfl⟩,
   ⟨_, _, rfl, rfl, rfl, rfl, size_accounting_amended reopen_trace _ rfl rfl 0 _ rfl⟩⟩

/-! ## Flags and wake-ups -/

/-- Whatever its outcome, the copy loop of `disco_write` touches only the
buffer and `in`. -/
theorem write_copy_fields (cfu : Nat → Option UInt8) :
    ∀ (n : Nat) (p : data_pipe) (k : Nat),
      (write_copy cfu p k n).2.out = p.out ∧ (write_copy cfu p k n).2.size = p.size ∧
      (write_copy cfu p k n).2.lectorf = p.lectorf ∧
      (write_copy cfu p k n).2.lector = p.lector ∧
      (write_copy cfu p k n).2.escritor = p.escritor := by
  intro n
  induction n with
  | zero => intro p k; exact ⟨rfl, rfl, rfl, rfl, rfl⟩
  | succ n ih =>
    intro p k
    cases hk : cfu k with
    | none => simp [write_copy, hk]
    | some b =>
      simp only [write_copy, hk]
      exact ih { p with buff := Function.update p.buff p.in_ b, in_ := next_index p.in_ }
        (k + 1)

/-- Whatever its outcome, the copy loop of `disco_read` touches only `out`. -/
theorem read_copy_fields (ok : Nat → Bool) :
    ∀ (n : Nat) (p : data_pipe) (k : Nat) (ubuf : List UInt8),
      (read_copy ok p k ubuf n).2.1.in_ = p.in_ ∧ (read_copy ok p k ubuf n).2.1.size = p.size ∧
      (read_copy ok p k ubuf n).2.1.lectorf = p.lectorf ∧
      (read_copy ok p k ubuf n).2.1.lector = p.lector ∧
      (read_copy ok p k ubuf n).2.1.escritor = p.escritor ∧
      (read_copy ok p k ubuf n).2.1.buff = p.buff := by
  intro n
  induction n with
  | zero => intro p k ubuf; exact ⟨rfl, rfl, rfl, rfl, rfl, rfl⟩
  | succ n ih =>
    intro p k ubuf
    cases hk : ok k with
    | false => simp [read_copy, hk]
    | true =>
      simp only [read_copy, hk, if_true]
      exact ih { p with out := next_index p.out } (k + 1) (ubuf ++ [p.buff p.out])

/-- The body of `disco_write` leaves the three flags as they were. -/
theorem write_body_flags (p : data_pipe) (cfu : Nat → Option UInt8) (count : Nat) :
    (write_body p cfu count).2.1.lectorf = p.lectorf ∧
    (write_body p cfu count).2.1.lector = p.lector ∧
    (write_body p cfu count).2.1.escritor = p.escritor := by
  unfold write_body
  by_cases hfull : p.size = MAX_SIZE
  · rw [if_pos hfull]; exact ⟨rfl, rfl, rfl⟩
  · rw [if_neg hfull]
    simp only []
    generalize (if count > to_size_t (to_int (MAX_SIZE - p.size)) then
      to_size_t (to_int (MAX_SIZE - p.size)) else count) = n
    have hany := write_copy_fields cfu n p 0
    rcases hwc : write_copy cfu p 0 n with ⟨b, p'⟩
    rw [hwc] at hany
    obtain ⟨_, _, a3, a4, a5⟩ := hany
    cases b <;> exact ⟨a3, a4, a5⟩

/-- The body of `disco_read` leaves the three flags, `in` and the buffer as
they were. -/
theorem read_body_flags (p : data_pipe) (count : Nat) (ok : Nat → Bool) :
    (read_body p count ok).2.1.lectorf = p.lectorf ∧
    (read_body p count ok).2.1.lector = p.lector ∧
    (read_body p count ok).2.1.escritor = p.escritor ∧
    (read_body p count ok).2.1.in_ = p.in_ ∧
    (read_body p count ok).2.1.buff = p.buff := by
  unfold read_body
  by_cases hl : p.lectorf ≠ 0
  · rw [if_pos hl]; exact ⟨rfl, rfl, rfl, rfl, rfl⟩
  · rw [if_neg hl]
    simp only []
    generalize (if count > to_size_t p.size then to_size_t p.size else count) = n
    have hany := read_copy_fields ok n p 0 []
    rcases hrc : read_copy ok p 0 [] n with ⟨b, p', u⟩
    rw [hrc] at hany
    obtain ⟨a1, _, a3, a4, a5, a6⟩ := hany
    cases b <;> exact ⟨a3, a4, a5, a1, a6⟩

/-- A reader that must wait and is woken re-tests its condition on the state
it finds. -/
theorem disco_read_woken (m m' : Module) (filp : file) (count : Nat) (f_pos : Int)
    (ok : Nat → Bool) (rest : List c_wait_result) (a : Nat) (p : data_pipe)
    (hd : deref m filp.private_data = some (a, p)) (hw : must_wait p f_pos = true) :
    disco_read m filp count f_pos ok (c_wait_result.woken m' :: rest) =
      disco_read m' filp count f_pos ok rest := by
  simp only [disco_read, hd, hw, if_true]

/-- A reader that must wait and is not woken stays asleep. -/
theorem disco_read_blocked (m : Module) (filp : file) (count : Nat) (f_pos : Int)
    (ok : Nat → Bool) (a : Nat) (p : data_pipe)
    (hd : deref m filp.private_data = some (a, p)) (hw : must_wait p f_pos = true) :
    disco_read m filp count f_pos ok [] = some (read_ret.blocked, m) := by
  simp only [disco_read, hd, hw, if_true]

/-! ## Pairing -/

/-- Claim C15: a write-mode `disco_open` succeeds on the join path (`wait`
set, `pipe` valid) and on the create path (`wait` clear, both allocations
succeed), and after every successful write-mode `disco_open` the session its
handle points to has `lector = TRUE`, `escritor = TRUE` and `size = 0`,
whatever the joined session held. -/
theorem writer_open_resets (m : Module) (filp : file) (kp : Option data_pipe) (kb : Bool)
    (hw : filp.f_mode &&& FMODE_WRITE ≠ 0) :
    (∀ a p, m.wait ≠ 0 → deref m m.pipe = some (a, p) →
      ∃ m' filp' p', disco_open m filp kp kb = some (0, m', filp') ∧
        deref m' filp'.private_data = some (a, p') ∧
        p'.lector = TRUE ∧ p'.escritor = TRUE ∧ p'.size = 0) ∧
    (∀ g, m.wait = 0 → kp = some g → kb = true →
      ∃ m' filp' p', disco_open m filp kp kb = some (0, m', filp') ∧
        deref m' filp'.private_data = some (m.heap.length, p') ∧
        p'.lector = TRUE ∧ p'.escritor = TRUE ∧ p'.size = 0) ∧
    (∀ m' filp', disco_open m filp kp kb = some (0, m', filp') →
      ∃ a p', deref m' filp'.private_data = some (a, p') ∧
        p'.lector = TRUE ∧ p'.escritor = TRUE ∧ p'.size = 0) := by
  have hjoin : ∀ a p, m.wait ≠ 0 → deref m m.pipe = some (a, p) →
      ∃ m' filp' p', disco_open m filp kp kb = some (0, m', filp') ∧
        deref m' filp'.private_data = some (a, p') ∧
        p'.lector = TRUE ∧ p'.escritor = TRUE ∧ p'.size = 0 := by
    intro a p hwait hd
    refine ⟨_, _, writer_mark p, disco_open_writer_join m filp kp kb a p hwait hw hd, ?_,
      rfl, rfl, rfl⟩
    have := deref_set
      { store m a (writer_mark p) with wait := FALSE, broadcasts := m.broadcasts + 1 }
      hd (writer_mark p) rfl
    rw [(deref_some hd).1] at this
    exact this
  have hcreate : ∀ g, m.wait = 0 → kp = some g → kb = true →
      ∃ m' filp' p', disco_open m filp kp kb = some (0, m', filp') ∧
        deref m' filp'.private_data = some (m.heap.length, p') ∧
        p'.lector = TRUE ∧ p'.escritor = TRUE ∧ p'.size = 0 := by
    intro g hidle hkp hkb
    subst hkp hkb
    exact ⟨_, _, writer_mark (init_pipe g), disco_open_writer_create m filp g hidle hw,
      deref_append_new m _ _ _ _, rfl, rfl, rfl⟩
  refine ⟨hjoin, hcreate, ?_⟩
  intro m' filp' h
  by_cases hwait : m.wait ≠ 0
  · cases hd : deref m m.pipe with
    | none => simp [disco_open, hw, hwait, hd] at h
    | some ap =>
      obtain ⟨a, p⟩ := ap
      obtain ⟨m2, f2, p2, he, hd2, h1, h2, h3⟩ := hjoin a p hwait hd
      rw [he] at h
      simp only [Option.some.injEq, Prod.mk.injEq, true_and] at h
      obtain ⟨rfl, rfl⟩ := h
      exact ⟨a, p2, hd2, h1, h2, h3⟩
  · have hidle : m.wait = 0 := not_not.mp hwait
    cases kp with
    | none => simp [disco_open, hw, hidle, ENOMEM] at h
    | some g =>
      cases kb with
      | false => simp [disco_open, hw, hidle, ENOMEM] at h
      | true =>
        obtain ⟨m2, f2, p2, he, hd2, h1, h2, h3⟩ := hcreate g hidle rfl rfl
        rw [he] at h
        simp only [Option.some.injEq, Prod.mk.injEq, true_and] at h
        obtain ⟨rfl, rfl⟩ := h
        exact ⟨_, p2, hd2, h1, h2, h3⟩

/-- Claim C15 at a write-mode open that joins a session holding three bytes. -/
theorem writer_open_resets_witness :
    wfile.f_mode &&& FMODE_WRITE ≠ 0 ∧
    { three_module with wait := 1 }.wait ≠ 0 ∧ three_pipe.size = 3 ∧
    deref { three_module with wait := 1 } ({ three_module with wait := 1 } : Module).pipe =
      some (0, three_pipe) ∧
    ∃ m' filp' p', disco_open { three_module with wait := 1 } wfile none false =
        some (0, m', filp') ∧
      deref m' filp'.private_data = some (0, p') ∧
      p'.lector = TRUE ∧ p'.escritor = TRUE ∧ p'.size = 0 :=
  ⟨by decide, by decide, rfl, rfl,
    (writer_open_resets { three_module with wait := 1 } wfile none false (by decide)).1
      0 three_pipe (by decide) rfl⟩

/-- Claim C12: when `wait` is set (and `pipe` points to a session), a
`disco_open` in write mode or in read mode returns 0 with the handle set to
`pipe`, adds no session record, leaves `pipe` as it was and clears `wait`;
the role of the opener that created the session plays no part. -/
theorem join_regardless_of_role (m : Module) (filp : file) (kp : Option data_pipe)
    (kb : Bool) (a : Nat) (p : data_pipe)
    (hwait : m.wait ≠ 0) (hpipe : deref m m.pipe = some (a, p))
    (hrole : filp.f_mode &&& FMODE_WRITE ≠ 0 ∨ filp.f_mode &&& FMODE_READ ≠ 0) :
    ∃ m', disco_open m filp kp kb = some (0, m', { filp with private_data := m.pipe }) ∧
      m'.pipe = m.pipe ∧ m'.wait = 0 ∧ m'.heap.length = m.heap.length := by
  by_cases hw : filp.f_mode &&& FMODE_WRITE ≠ 0
  · have hptr := (deref_some hpipe).1
    refine ⟨{ store m a (writer_mark p) with wait := FALSE, broadcasts := m.broadcasts + 1 },
      ?_, rfl, rfl, ?_⟩
    · rw [disco_open_writer_join m filp kp kb a p hwait hw hpipe, hptr]
    · simp [store]
  · have hr : filp.f_mode &&& FMODE_READ ≠ 0 := hrole.resolve_left hw
    exact ⟨_, disco_open_reader_join m filp kp kb hwait (not_not.mp hw) hr, rfl, rfl, rfl⟩

/-- Claim C12 at a second write-mode open right after a first one. -/
theorem join_regardless_of_role_witness :
    opened_module.wait ≠ 0 ∧ deref opened_module opened_module.pipe = some (0, fresh_pipe) ∧
    (wfile.f_mode &&& FMODE_WRITE ≠ 0 ∨ wfile.f_mode &&& FMODE_READ ≠ 0) ∧
    ∃ m', disco_open opened_module wfile none false =
        some (0, m', { wfile with private_data := opened_module.pipe }) ∧
      m'.pipe = opened_module.pipe ∧ m'.wait = 0 ∧
      m'.heap.length = opened_module.heap.length :=
  ⟨by decide, rfl, by decide,
    join_regardless_of_role opened_module wfile none false 0 fresh_pipe (by decide) rfl
      (by decide)⟩

/-- Claim C13: when `wait` is clear and the allocation of the record or of
the buffer fails, a `disco_open` in write mode or in read mode returns
`-ENOMEM` and leaves the global state (`pipe`, `wait`, every session) and
the caller's `filp` as they were. -/
theorem allocation_failure_atomic (m : Module) (filp : file) (kp : Option data_pipe)
    (kb : Bool) (hidle : m.wait = 0)
    (hrole : filp.f_mode &&& FMODE_WRITE ≠ 0 ∨ filp.f_mode &&& FMODE_READ ≠ 0)
    (hfail : kp = none ∨ kb = false) :
    disco_open m filp kp kb = some (-ENOMEM, m, filp) := by
  unfold disco_open
  by_cases hw : filp.f_mode &&& FMODE_WRITE ≠ 0
  · rw [if_pos hw, if_neg (by simp [hidle])]
    cases kp with
    | none => rfl
    | some g =>
      have hkb : kb = false := by simpa using hfail
      subst hkb
      rfl
  · have hr : filp.f_mode &&& FMODE_READ ≠ 0 := hrole.resolve_left hw
    rw [if_neg hw, if_pos hr, if_neg (by simp [hidle])]
    cases kp with
    | none => rfl
    | some g =>
      have hkb : kb = false := by simpa using hfail
      subst hkb
      rfl

/-- Claim C13 at a read-mode open whose buffer allocation fails. -/
theorem allocation_failure_atomic_witness :
    three_module.wait = 0 ∧
    (rfile.f_mode &&& FMODE_WRITE ≠ 0 ∨ rfile.f_mode &&& FMODE_READ ≠ 0) ∧
    ((some junk = none) ∨ false = false) ∧
    disco_open three_module rfile (some junk) false = some (-ENOMEM, three_module, rfile) :=
  ⟨rfl, by decide, Or.inr rfl,
    allocation_failure_atomic three_module rfile (some junk) false rfl (by decide) (Or.inr rfl)⟩

/-! ## The ways each operation returns -/

theorem write_body_bc (p : data_pipe) (cfu : Nat → Option UInt8) (count : Nat)
    (h : 0 ≤ (write_body p cfu count).1) : (write_body p cfu count).2.2 = true := by
  unfold write_body at h ⊢
  by_cases hfull : p.size = MAX_SIZE
  · rw [if_pos hfull] at h; simp [ENOSPC] at h
  · rw [if_neg hfull] at h ⊢
    simp only [] at h ⊢
    generalize (if count > to_size_t (to_int (MAX_SIZE - p.size)) then
      to_size_t (to_int (MAX_SIZE - p.size)) else count) = n at h ⊢
    rcases hwc : write_copy cfu p 0 n with ⟨b, p'⟩
    rw [hwc] at h
    cases b
    · simp [EFAULT] at h
    · rfl

/-- What `disco_write` returns, in terms of its body. -/
theorem disco_write_eq (m : Module) (filp : file) (cfu : Nat → Option UInt8) (count : Nat)
    (a : Nat) (p : data_pipe) (hd : deref m filp.private_data = some (a, p)) :
    disco_write m filp cfu count =
      some ((write_body p cfu count).1,
        { store m a (write_body p cfu count).2.1 with
            broadcasts := if (write_body p cfu count).2.2 then m.broadcasts + 1
              else m.broadcasts }) := by
  simp only [disco_write, hd]

/-- What `disco_release` returns on a write-mode handle. -/
theorem disco_release_writer (m : Module) (filp : file) (a : Nat) (p : data_pipe)
    (hw : filp.f_mode &&& FMODE_WRITE ≠ 0) (hd : deref m filp.private_data = some (a, p)) :
    disco_release m filp =
      some (0, { store m a { p with lectorf := TRUE } with
                   broadcasts := m.broadcasts + 1 }) := by
  simp only [disco_release, hw, hd, ne_eq, not_false_eq_true, if_true]

/-! ## Broadcasts -/

/-- Claim C19: `broadcasts` counts the `c_broadcast (&cond)` calls; each
operation is one critical section, entered with `m` and left with `m'`.  A
`disco_write` that returns a count, a successful write-mode `disco_open` (on
the join path and on the create path) and a `disco_release` on a write-mode
handle each issue one broadcast inside their critical section; and a reader
that had to wait and is woken re-tests its wait condition on the state it
finds. -/
theorem broadcast_on_change (m : Module) :
    (∀ (filp : file) (copy_from_user : Nat → Option UInt8) (count : Nat) (rc : Int)
        (m' : Module),
      disco_write m filp copy_from_user count = some (rc, m') → 0 ≤ rc →
      m'.broadcasts = m.broadcasts + 1) ∧
    (∀ (filp : file) (kmalloc_pipe : Option data_pipe) (kmalloc_buff : Bool) (m' : Module)
        (filp' : file),
      filp.f_mode &&& FMODE_WRITE ≠ 0 →
      disco_open m filp kmalloc_pipe kmalloc_buff = some (0, m', filp') →
      m'.broadcasts = m.broadcasts + 1) ∧
    (∀ (filp : file) (rc : Int) (m' : Module),
      filp.f_mode &&& FMODE_WRITE ≠ 0 →
      disco_release m filp = some (rc, m') → m'.broadcasts = m.broadcasts + 1) ∧
    (∀ (m' : Module) (filp : file) (count : Nat) (f_pos : Int) (copy_to_user : Nat → Bool)
        (rest : List c_wait_result) (a : Nat) (p : data_pipe),
      deref m filp.private_data = some (a, p) → must_wait p f_pos = true →
      disco_read m filp count f_pos copy_to_user (c_wait_result.woken m' :: rest) =
        disco_read m' filp count f_pos copy_to_user rest) := by
  refine ⟨?_, ?_, ?_, ?_⟩
  · intro filp cfu count rc m' h hrc
    cases hd : deref m filp.private_data with
    | none => simp [disco_write, hd] at h
    | some ap =>
      obtain ⟨a, p⟩ := ap
      rw [disco_write_eq m filp cfu count a p hd] at h
      simp only [Option.some.injEq, Prod.mk.injEq] at h
      obtain ⟨rfl, rfl⟩ := h
      simp [write_body_bc p cfu count hrc]
  · intro filp kp kb m' filp' hw h
    by_cases hwait : m.wait ≠ 0
    · cases hd : deref m m.pipe with
      | none => simp [disco_open, hw, hwait, hd] at h
      | some ap =>
        obtain ⟨a, p⟩ := ap
        rw [disco_open_writer_join m filp kp kb a p hwait hw hd] at h
        simp only [Option.some.injEq, Prod.mk.injEq, true_and] at h
        obtain ⟨rfl, _⟩ := h
        rfl
    · have hidle : m.wait = 0 := not_not.mp hwait
      cases kp with
      | none => simp [disco_open, hw, hidle, ENOMEM] at h
      | some g =>
        cases kb with
        | false => simp [disco_open, hw, hidle, ENOMEM] at h
        | true =>
          rw [disco_open_writer_create m filp g hidle hw] at h
          simp only [Option.some.injEq, Prod.mk.injEq, true_and] at h
          obtain ⟨rfl, _⟩ := h
          rfl
  · intro filp rc m' hw h
    cases hd : deref m filp.private_data with
    | none => simp [disco_release, hw, hd] at h
    | some ap =>
      obtain ⟨a, p⟩ := ap
      rw [disco_release_writer m filp a p hw hd] at h
      simp only [Option.some.injEq, Prod.mk.injEq] at h
      obtain ⟨_, rfl⟩ := h
      rfl
  · intro m' filp count f_pos ok rest a p hd hw
    exact disco_read_woken m m' filp count f_pos ok rest a p hd hw

/-- Claim C19 at a write of one byte, a write-mode open that creates, one
that joins, and a close of the writer. -/
theorem broadcast_on_change_witness :
    (∃ m', disco_write three_module whandle (user_bytes [4]) 1 = some (1, m') ∧
      m'.broadcasts = three_module.broadcasts + 1) ∧
    (∃ m' filp', disco_open three_module wfile (some junk) true = some (0, m', filp') ∧
      m'.broadcasts = three_module.broadcasts + 1) ∧
    (∃ m' filp', disco_open opened_module wfile none false = some (0, m', filp') ∧
      m'.broadcasts = opened_module.broadcasts + 1) ∧
    (∃ m', disco_release three_module whandle = some (0, m') ∧
      m'.broadcasts = three_module.broadcasts + 1) :=
  ⟨⟨_, rfl, (broadcast_on_change three_module).1 whandle (user_bytes [4]) 1 1 _ rfl
      (by decide)⟩,
   ⟨_, _, rfl, (broadcast_on_change three_module).2.1 wfile (some junk) true _ _
      (by decide) rfl⟩,
   ⟨_, _, rfl, (broadcast_on_change opened_module).2.1 wfile none false _ _
      (by decide) rfl⟩,
   ⟨_, rfl, (broadcast_on_change three_module).2.2.1 whandle 0 _ (by decide) rfl⟩⟩

/-- The six ways `disco_open` can return. -/
theorem disco_open_cases (m : Module) (filp : file) (kp : Option data_pipe) (kb : Bool)
    (rc : Int) (m' : Module) (filp' : file)
    (h : disco_open m filp kp kb = some (rc, m', filp')) :
    (∃ a p, filp.f_mode &&& FMODE_WRITE ≠ 0 ∧ m.wait ≠ 0 ∧ deref m m.pipe = some (a, p) ∧
      rc = 0 ∧ filp' = { filp with private_data := some a } ∧
      m' = { store m a (writer_mark p) with wait := FALSE,
                                             broadcasts := m.broadcasts + 1 }) ∨
    (∃ g, filp.f_mode &&& FMODE_WRITE ≠ 0 ∧ m.wait = 0 ∧ kp = some g ∧ rc = 0 ∧
      filp' = { filp with private_data := some m.heap.length } ∧
      m' = { wait := TRUE, pipe := some m.heap.length,
             heap := m.heap ++ [writer_mark (init_pipe g)],
             broadcasts := m.broadcasts + 1 }) ∨
    (filp.f_mode &&& FMODE_WRITE = 0 ∧ filp.f_mode &&& FMODE_READ ≠ 0 ∧ m.wait ≠ 0 ∧
      rc = 0 ∧ filp' = { filp with private_data := m.pipe } ∧
      m' = { m with wait := FALSE, broadcasts := m.broadcasts + 1 }) ∨
    (∃ g, filp.f_mode &&& FMODE_WRITE = 0 ∧ filp.f_mode &&& FMODE_READ ≠ 0 ∧ m.wait = 0 ∧
      kp = some g ∧ rc = 0 ∧ filp' = { filp with private_data := some m.heap.length } ∧
      m' = { m with wait := TRUE, pipe := some m.heap.length,
                    heap := m.heap ++ [init_pipe g] }) ∨
    ((filp.f_mode &&& FMODE_WRITE ≠ 0 ∨ filp.f_mode &&& FMODE_READ ≠ 0) ∧ m.wait = 0 ∧
      rc = -ENOMEM ∧ filp' = filp ∧ m' = m) ∨
    (filp.f_mode &&& FMODE_WRITE = 0 ∧ filp.f_mode &&& FMODE_READ = 0 ∧
      rc = 0 ∧ filp' = filp ∧ m' = m) := by
  by_cases hw : filp.f_mode &&& FMODE_WRITE ≠ 0
  · by_cases hwait : m.wait ≠ 0
    · cases hd : deref m m.pipe with
      | none => simp [disco_open, hw, hwait, hd] at h
      | some ap =>
        obtain ⟨a, p⟩ := ap
        rw [disco_open_writer_join m filp kp kb a p hwait hw hd] at h
        simp only [Option.some.injEq, Prod.mk.injEq] at h
        obtain ⟨rfl, rfl, rfl⟩ := h
        exact Or.inl ⟨a, p, hw, hwait, rfl, rfl, rfl, rfl⟩
    · have hidle : m.wait = 0 := not_not.mp hwait
      have hfail : ∀ kp kb, (kp = none ∨ kb = false) →
          disco_open m filp kp kb = some (-ENOMEM, m, filp) := by
        intro kp kb hf
        unfold disco_open
        rw [if_pos hw, if_neg (by simp [hidle])]
        cases kp with
        | none => rfl
        | some g =>
          have hkb : kb = false := by simpa using hf
          subst hkb
          rfl
      cases kp with
      | none =>
        rw [hfail none kb (Or.inl rfl)] at h
        simp only [Option.some.injEq, Prod.mk.injEq] at h
        obtain ⟨rfl, rfl, rfl⟩ := h
        exact Or.inr (Or.inr (Or.inr (Or.inr (Or.inl ⟨Or.inl hw, hidle, rfl, rfl, rfl⟩))))
      | some g =>
        cases kb with
        | false =>
          rw [hfail (some g) false (Or.inr rfl)] at h
          simp only [Option.some.injEq, Prod.mk.injEq] at h
          obtain ⟨rfl, rfl, rfl⟩ := h
          exact Or.inr (Or.inr (Or.inr (Or.inr (Or.inl ⟨Or.inl hw, hidle, rfl, rfl, rfl⟩))))
        | true =>
          rw [disco_open_writer_create m filp g hidle hw] at h
          simp only [Option.some.injEq, Prod.mk.injEq] at h
          obtain ⟨rfl, rfl, rfl⟩ := h
          exact Or.inr (Or.inl ⟨g, hw, hidle, rfl, rfl, rfl, rfl⟩)
  · have hw0 : filp.f_mode &&& FMODE_WRITE = 0 := not_not.mp hw
    by_cases hr : filp.f_mode &&& FMODE_READ ≠ 0
    · by_cases hwait : m.wait ≠ 0
      · rw [disco_open_reader_join m filp kp kb hwait hw0 hr] at h
        simp only [Option.some.injEq, Prod.mk.injEq] at h
        obtain ⟨rfl, rfl, rfl⟩ := h
        exact Or.inr (Or.inr (Or.inl ⟨hw0, hr, hwait, rfl, rfl, rfl⟩))
      · have hidle : m.wait = 0 := not_not.mp hwait
        have hfail : ∀ kp kb, (kp = none ∨ kb = false) →
            disco_open m filp kp kb = some (-ENOMEM, m, filp) := by
          intro kp kb hf
          unfold disco_open
          rw [if_neg hw, if_pos hr, if_neg (by simp [hidle])]
          cases kp with
          | none => rfl
          | some g =>
            have hkb : kb = false := by simpa using hf
            subst hkb
            rfl
        cases kp with
        | none =>
          rw [hfail none kb (Or.inl rfl)] at h
          simp only [Option.some.injEq, Prod.mk.injEq] at h
          obtain ⟨rfl, rfl, rfl⟩ := h
          exact Or.inr (Or.inr (Or.inr (Or.inr (Or.inl ⟨Or.inr hr, hidle, rfl, rfl, rfl⟩))))
        | some g =>
          cases kb with
          | false =>
            rw [hfail (some g) false (Or.inr rfl)] at h
            simp only [Option.some.injEq, Prod.mk.injEq] at h
            obtain ⟨rfl, rfl, rfl⟩ := h
            exact Or.inr (Or.inr (Or.inr (Or.inr (Or.inl ⟨Or.inr hr, hidle, rfl, rfl, rfl⟩))))
          | true =>
            rw [disco_open_reader_create m filp g hidle hw0 hr] at h
            simp only [Option.some.injEq, Prod.mk.injEq] at h
            obtain ⟨rfl, rfl, rfl⟩ := h
            exact Or.inr (Or.inr (Or.inr (Or.inl ⟨g, hw0, hr, hidle, rfl, rfl, rfl, rfl⟩)))
    · have hr0 : filp.f_mode &&& FMODE_READ = 0 := not_not.mp hr
      simp only [disco_open, hw0, hr0, ne_eq, not_true_eq_false, if_false,
        Option.some.injEq, Prod.mk.injEq] at h
      obtain ⟨rfl, rfl, rfl⟩ := h
      exact Or.inr (Or.inr (Or.inr (Or.inr (Or.inr ⟨hw0, hr0, rfl, rfl, rfl⟩))))

/-- The two ways `disco_release` can return. -/
theorem disco_release_cases (m : Module) (filp : file) (rc : Int) (m' : Module)
    (h : disco_release m filp = some (rc, m')) :
    rc = 0 ∧
    ((∃ a p, filp.f_mode &&& FMODE_WRITE ≠ 0 ∧ deref m filp.private_data = some (a, p) ∧
        m' = { store m a { p with lectorf := TRUE } with
                 broadcasts := m.broadcasts + 1 }) ∨
      (filp.f_mode &&& FMODE_WRITE = 0 ∧ m' = m)) := by
  by_cases hw : filp.f_mode &&& FMODE_WRITE ≠ 0
  · cases hd : deref m filp.private_data with
    | none => simp [disco_release, hw, hd] at h
    | some ap =>
      obtain ⟨a, p⟩ := ap
      rw [disco_release_writer m filp a p hw hd] at h
      simp only [Option.some.injEq, Prod.mk.injEq] at h
      obtain ⟨rfl, rfl⟩ := h
      exact ⟨rfl, Or.inl ⟨a, p, hw, rfl, rfl⟩⟩
  · have hw0 : filp.f_mode &&& FMODE_WRITE = 0 := not_not.mp hw
    simp only [disco_release, hw0, ne_eq, not_true_eq_false, if_false, Option.some.injEq,
      Prod.mk.injEq] at h
    obtain ⟨rfl, rfl⟩ := h
    exact ⟨rfl, Or.inr ⟨hw0, rfl⟩⟩

/-- One pass of `disco_read` that need not wait, in terms of its body. -/
theorem disco_read_pass (m : Module) (filp : file) (count : Nat) (f_pos : Int)
    (ok : Nat → Bool) (waits : List c_wait_result) (a : Nat) (p : data_pipe)
    (hd : deref m filp.private_data = some (a, p)) (hw : must_wait p f_pos = false) :
    disco_read m filp count f_pos ok waits =
      some (read_ret.returned (read_body p count ok).1 (read_body p count ok).2.2,
        store m a (read_body p count ok).2.1) := by
  cases waits <;> simp only [disco_read, hd, hw] <;> rfl

/-- The ways `disco_read` can return: asleep or interrupted in the state it
last found, or through its body on that state. -/
theorem disco_read_cases (filp : file) (count : Nat) (f_pos : Int) (ok : Nat → Bool) :
    ∀ (waits : List c_wait_result) (m : Module) (r : read_ret) (m' : Module),
      disco_read m filp count f_pos ok waits = some (r, m') →
      ∃ m0 a p, (m0 = m ∨ c_wait_result.woken m0 ∈ waits) ∧
        deref m0 filp.private_data = some (a, p) ∧
        ((must_wait p f_pos = true ∧ m' = m0 ∧
            (r = read_ret.blocked ∨ r = read_ret.returned (-EINTR) [])) ∨
          (must_wait p f_pos = false ∧
            r = read_ret.returned (read_body p count ok).1 (read_body p count ok).2.2 ∧
            m' = store m0 a (read_body p count ok).2.1)) := by
  intro waits
  induction waits with
  | nil =>
    intro m r m' h
    cases hd : deref m filp.private_data with
    | none => simp [disco_read, hd] at h
    | some ap =>
      obtain ⟨a, p⟩ := ap
      cases hw : must_wait p f_pos with
      | true =>
        rw [disco_read_blocked m filp count f_pos ok a p hd hw] at h
        simp only [Option.some.injEq, Prod.mk.injEq] at h
        obtain ⟨rfl, rfl⟩ := h
        exact ⟨m, a, p, Or.inl rfl, hd, Or.inl ⟨hw, rfl, Or.inl rfl⟩⟩
      | false =>
        rw [disco_read_pass m filp count f_pos ok [] a p hd hw] at h
        simp only [Option.some.injEq, Prod.mk.injEq] at h
        obtain ⟨rfl, rfl⟩ := h
        exact ⟨m, a, p, Or.inl rfl, hd, Or.inr ⟨hw, rfl, rfl⟩⟩
  | cons w rest ih =>
    intro m r m' h
    cases hd : deref m filp.private_data with
    | none => simp [disco_read, hd] at h
    | some ap =>
      obtain ⟨a, p⟩ := ap
      cases hw : must_wait p f_pos with
      | true =>
        cases w with
        | interrupted =>
          simp only [disco_read, hd, hw, if_true, Option.some.injEq, Prod.mk.injEq] at h
          obtain ⟨rfl, rfl⟩ := h
          exact ⟨m, a, p, Or.inl rfl, hd, Or.inl ⟨hw, rfl, Or.inr rfl⟩⟩
        | woken mw =>
          rw [disco_read_woken m mw filp count f_pos ok rest a p hd hw] at h
          obtain ⟨m0, a0, p0, hm0, hd0, hres⟩ := ih mw r m' h
          refine ⟨m0, a0, p0, Or.inr ?_, hd0, hres⟩
          rcases hm0 with rfl | hm0
          · exact List.mem_cons_self _ _
          · exact List.mem_cons_of_mem _ hm0
      | false =>
        rw [disco_read_pass m filp count f_pos ok (w :: rest) a p hd hw] at h
        simp only [Option.some.injEq, Prod.mk.injEq] at h
        obtain ⟨rfl, rfl⟩ := h
        exact ⟨m, a, p, Or.inl rfl, hd, Or.inr ⟨hw, rfl, rfl⟩⟩


theorem eos_set (m m' : Module) (a b : Nat) (q : data_pipe) (h : eos_at m a)
    (hm' : m'.heap = m.heap.set b q) (hq : b = a → q.lectorf ≠ 0) : eos_at m' a := by
  obtain ⟨p, hp, hl⟩ := h
  have hlt : a < m.heap.length := (List.getElem?_eq_some.mp hp).1
  unfold eos_at
  rw [hm', List.getElem?_set]
  by_cases hb : b = a
  · subst hb
    exact ⟨q, by simp [hlt], hq rfl⟩
  · exact ⟨p, by simp [hb, hp], hl⟩

theorem eos_append (m m' : Module) (a : Nat) (q : data_pipe) (h : eos_at m a)
    (hm' : m'.heap = m.heap ++ [q]) : eos_at m' a := by
  obtain ⟨p, hp, hl⟩ := h
  have hlt : a < m.heap.length := (List.getElem?_eq_some.mp hp).1
  exact ⟨p, by rw [hm', List.getElem?_append_left hlt, hp], hl⟩

theorem eos_deref {m : Module} {ptr : Option Nat} {a b : Nat} {p : data_pipe}
    (h : eos_at m a) (hd : deref m ptr = some (b, p)) (hb : b = a) : p.lectorf ≠ 0 := by
  obtain ⟨q, hq, hl⟩ := h
  have := (deref_some hd).2
  rw [hb, hq] at this
  simp only [Option.some.injEq] at this
  exact this ▸ hl

theorem disco_open_eos (m : Module) (a : Nat) (h : eos_at m a) (filp : file)
    (kp : Option data_pipe) (kb : Bool) (rc : Int) (m' : Module) (filp' : file)
    (ho : disco_open m filp kp kb = some (rc, m', filp')) : eos_at m' a := by
  rcases disco_open_cases m filp kp kb rc m' filp' ho with
    ⟨b, p, _, _, hd, _, _, rfl⟩ | ⟨g, _, _, _, _, _, rfl⟩ | ⟨_, _, _, _, _, rfl⟩ |
    ⟨g, _, _, _, _, _, _, rfl⟩ | ⟨_, _, _, _, rfl⟩ | ⟨_, _, _, _, rfl⟩
  · exact eos_set m _ a b (writer_mark p) h rfl
      (fun hb => (eos_deref h hd hb : p.lectorf ≠ 0))
  · exact eos_append m _ a _ h rfl
  · exact h
  · exact eos_append m _ a _ h rfl
  · exact h
  · exact h

theorem disco_release_eos (m : Module) (a : Nat) (h : eos_at m a) (filp : file)
    (rc : Int) (m' : Module) (ho : disco_release m filp = some (rc, m')) : eos_at m' a := by
  rcases (disco_release_cases m filp rc m' ho).2 with ⟨b, p, _, _, rfl⟩ | ⟨_, rfl⟩
  · exact eos_set m _ a b _ h rfl (fun _ => (show TRUE ≠ 0 by decide))
  · exact h

theorem disco_write_eos (m : Module) (a : Nat) (h : eos_at m a) (filp : file)
    (cfu : Nat → Option UInt8) (count : Nat) (rc : Int) (m' : Module)
    (ho : disco_write m filp cfu count = some (rc, m')) : eos_at m' a := by
  cases hd : deref m filp.private_data with
  | none => simp [disco_write, hd] at ho
  | some bp =>
    obtain ⟨b, p⟩ := bp
    rw [disco_write_eq m filp cfu count b p hd] at ho
    simp only [Option.some.injEq, Prod.mk.injEq] at ho
    obtain ⟨_, rfl⟩ := ho
    exact eos_set m _ a b _ h rfl
      (fun hb => by rw [(write_body_flags p cfu count).1]; exact eos_deref h hd hb)

theorem disco_read_eos (m : Module) (a : Nat) (h : eos_at m a) (filp : file) (count : Nat)
    (f_pos : Int) (ok : Nat → Bool) (waits : List c_wait_result)
    (hw : ∀ mw, c_wait_result.woken mw ∈ waits → eos_at mw a) (r : read_ret) (m' : Module)
    (ho : disco_read m filp count f_pos ok waits = some (r, m')) : eos_at m' a := by
  obtain ⟨m0, b, p, hm0, hd, hres⟩ := disco_read_cases filp count f_pos ok waits m r m' ho
  have h0 : eos_at m0 a := by
    rcases hm0 with rfl | hm0
    · exact h
    · exact hw m0 hm0
  rcases hres with ⟨_, rfl, _⟩ | ⟨_, _, rfl⟩
  · exact h0
  · exact eos_set m0 _ a b _ h0 rfl
      (fun hb => by rw [(read_body_flags p count ok).1]; exact eos_deref h0 hd hb)

/-! ## End-of-stream flag -/

/-- Claim C14: `disco_release` on a write-mode handle sets `lectorf` of its
session to `TRUE`; and when `lectorf` of the session at address `a` is set,
it is still set after `disco_open` (either role, join or create or failed),
`disco_release`, `disco_read` (any outcome, the states found at wake-ups
having it set) and `disco_write` (any outcome). -/
theorem eos_flag_monotone (m : Module) (a : Nat) :
    (∀ (filp : file) (p : data_pipe), filp.f_mode &&& FMODE_WRITE ≠ 0 →
      deref m filp.private_data = some (a, p) →
      ∃ m' p', disco_release m filp = some (0, m') ∧ m'.heap[a]? = some p' ∧
        p'.lectorf = TRUE) ∧
    (eos_at m a →
      (∀ (filp : file) (kmalloc_pipe : Option data_pipe) (kmalloc_buff : Bool) (rc : Int)
          (m' : Module) (filp' : file),
        disco_open m filp kmalloc_pipe kmalloc_buff = some (rc, m', filp') → eos_at m' a) ∧
      (∀ (filp : file) (rc : Int) (m' : Module),
        disco_release m filp = some (rc, m') → eos_at m' a) ∧
      (∀ (filp : file) (count : Nat) (f_pos : Int) (copy_to_user : Nat → Bool)
          (waits : List c_wait_result) (r : read_ret) (m' : Module),
        (∀ mw, c_wait_result.woken mw ∈ waits → eos_at mw a) →
        disco_read m filp count f_pos copy_to_user waits = some (r, m') → eos_at m' a) ∧
      (∀ (filp : file) (copy_from_user : Nat → Option UInt8) (count : Nat) (rc : Int)
          (m' : Module),
        disco_write m filp copy_from_user count = some (rc, m') → eos_at m' a)) := by
  refine ⟨?_, fun h => ⟨?_, ?_, ?_, ?_⟩⟩
  · intro filp p hw hd
    have hp := (deref_some hd).2
    have hlt : a < m.heap.length := (List.getElem?_eq_some.mp hp).1
    refine ⟨_, { p with lectorf := TRUE }, disco_release_writer m filp a p hw hd, ?_, rfl⟩
    simp only [store, List.getElem?_set_self hlt]
  · intro filp kp kb rc m' filp' ho
    exact disco_open_eos m a h filp kp kb rc m' filp' ho
  · intro filp rc m' ho
    exact disco_release_eos m a h filp rc m' ho
  · intro filp count f_pos ok waits r m' hw ho
    exact disco_read_eos m a h filp count f_pos ok waits hw r m' ho
  · intro filp cfu count rc m' ho
    exact disco_write_eos m a h filp cfu count rc m' ho


/-- Claim C14 at a writer that closes, then a write-mode open that joins the
closed session and a write into it. -/
theorem eos_flag_monotone_witness :
    (∃ m' p', disco_release opened_module whandle = some (0, m') ∧
      m'.heap[0]? = some p' ∧ p'.lectorf = TRUE) ∧
    eos_at closed_module 0 ∧
    (∃ m' filp', disco_open closed_module wfile none false = some (0, m', filp') ∧
      eos_at m' 0) ∧
    (∃ m', disco_write closed_module whandle (user_bytes [1]) 1 = some (1, m') ∧
      eos_at m' 0) :=
  have h0 : eos_at closed_module 0 := ⟨closed_empty_pipe, rfl, by decide⟩
  ⟨(eos_flag_monotone opened_module 0).1 whandle fresh_pipe (by decide) rfl,
   h0,
   ⟨_, _, rfl, ((eos_flag_monotone closed_module 0).2 h0).1 wfile none false _ _ _ rfl⟩,
   ⟨_, rfl, ((eos_flag_monotone closed_module 0).2 h0).2.2.2 whandle (user_bytes [1]) 1 _ _
      rfl⟩⟩

theorem files_of_step_open (s s' : Sys) (f_mode : Nat) (kp : Option data_pipe) (kb : Bool)
    (h : step s (Op.do_open f_mode kp kb) = some s') :
    ∃ rc filp', disco_open s.m { f_mode := f_mode, private_data := none } kp kb =
        some (rc, s'.m, filp') ∧
      s'.files = if rc = 0 then s.files ++ [filp'] else s.files := by
  simp only [step] at h
  cases ho : disco_open s.m { f_mode := f_mode, private_data := none } kp kb with
  | none => simp [ho] at h
  | some res =>
    obtain ⟨rc, m', filp'⟩ := res
    simp only [ho, Option.some.injEq] at h
    subst h
    exact ⟨rc, filp', rfl, rfl⟩

/-- A step that is not an `open` leaves `wait`, `pipe` and the table of files
as they were. -/
theorem step_other_globals (s s' : Sys) (op : Op) (h : step s op = some s')
    (hop : ∀ f_mode kp kb, op ≠ Op.do_open f_mode kp kb) :
    s'.m.wait = s.m.wait ∧ s'.m.pipe = s.m.pipe ∧ s'.files = s.files := by
  cases op with
  | do_open f_mode kp kb => exact absurd rfl (hop f_mode kp kb)
  | do_release fd =>
    simp only [step] at h
    cases hfd : s.files[fd]? with
    | none => simp [hfd] at h
    | some filp =>
      cases ho : disco_release s.m filp with
      | none => simp [hfd, ho] at h
      | some res =>
        obtain ⟨rc, m'⟩ := res
        simp only [hfd, ho, Option.some.injEq] at h
        subst h
        rcases (disco_release_cases s.m filp rc m' ho).2 with ⟨b, p, _, _, rfl⟩ | ⟨_, rfl⟩
        · exact ⟨rfl, rfl, rfl⟩
        · exact ⟨rfl, rfl, rfl⟩
  | do_read fd count f_pos ok intr =>
    simp only [step] at h
    cases hfd : s.files[fd]? with
    | none => simp [hfd] at h
    | some filp =>
      cases ho : disco_read s.m filp count f_pos ok
          (if intr then [c_wait_result.interrupted] else []) with
      | none => simp [hfd, ho] at h
      | some res =>
        obtain ⟨r, m'⟩ := res
        obtain ⟨m0, b, p, hm0, _, hres⟩ :=
          disco_read_cases filp count f_pos ok _ s.m r m' ho
        have hm0' : m0 = s.m := by
          rcases hm0 with rfl | hm0
          · rfl
          · cases intr <;> simp at hm0
        subst hm0'
        have hg : m'.wait = s.m.wait ∧ m'.pipe = s.m.pipe := by
          rcases hres with ⟨_, rfl, _⟩ | ⟨_, _, rfl⟩
          · exact ⟨rfl, rfl⟩
          · exact ⟨rfl, rfl⟩
        cases r with
        | blocked =>
          simp only [hfd, ho, Option.some.injEq] at h
          subst h
          exact ⟨hg.1, hg.2, rfl⟩
        | returned rc u =>
          simp only [hfd, ho, Option.some.injEq] at h
          subst h
          exact ⟨hg.1, hg.2, rfl⟩
  | do_write fd cfu count =>
    simp only [step] at h
    cases hfd : s.files[fd]? with
    | none => simp [hfd] at h
    | some filp =>
      cases ho : disco_write s.m filp cfu count with
      | none => simp [hfd, ho] at h
      | some res =>
        obtain ⟨rc, m'⟩ := res
        simp only [hfd, ho, Option.some.injEq] at h
        subst h
        cases hd : deref s.m filp.private_data with
        | none => simp [disco_write, hd] at ho
        | some bp =>
          obtain ⟨b, p⟩ := bp
          rw [disco_write_eq s.m filp cfu count b p hd] at ho
          simp only [Option.some.injEq, Prod.mk.injEq] at ho
          obtain ⟨_, rfl⟩ := ho
          exact ⟨rfl, rfl, rfl⟩

theorem step_parity (s s' : Sys) (op : Op) (hp : parity_ok s) (hr : has_role op = true)
    (h : step s op = some s') : parity_ok s' := by
  cases op with
  | do_open f_mode kp kb =>
    obtain ⟨rc, filp', ho, hf⟩ := files_of_step_open s s' f_mode kp kb h
    have hrole : f_mode &&& FMODE_WRITE ≠ 0 ∨ f_mode &&& FMODE_READ ≠ 0 := by
      simpa [has_role] using hr
    unfold parity_ok at hp ⊢
    rcases disco_open_cases s.m _ kp kb rc s'.m filp' ho with
      ⟨b, p, _, hw, _, hrc, _, hm⟩ | ⟨g, _, hw, _, hrc, _, hm⟩ | ⟨_, _, hw, hrc, _, hm⟩ |
      ⟨g, _, _, hw, _, hrc, _, hm⟩ | ⟨_, hw, hrc, _, hm⟩ | ⟨h1, h2, _, _, _⟩
    · rw [hf, hm, if_pos hrc]
      simp only [List.length_append, List.length_singleton, store, FALSE]
      rcases hp with ⟨h0, _⟩ | ⟨_, h1⟩
      · exact absurd h0 hw
      · left; exact ⟨trivial, by omega⟩
    · rw [hf, hm, if_pos hrc]
      simp only [List.length_append, List.length_singleton, TRUE]
      rcases hp with ⟨_, h0⟩ | ⟨h1, _⟩
      · right; exact ⟨trivial, by omega⟩
      · rw [hw] at h1; exact absurd h1 (by decide)
    · rw [hf, hm, if_pos hrc]
      simp only [List.length_append, List.length_singleton, FALSE]
      rcases hp with ⟨h0, _⟩ | ⟨_, h1⟩
      · exact absurd h0 hw
      · left; exact ⟨trivial, by omega⟩
    · rw [hf, hm, if_pos hrc]
      simp only [List.length_append, List.length_singleton, TRUE]
      rcases hp with ⟨_, h0⟩ | ⟨h1, _⟩
      · right; exact ⟨trivial, by omega⟩
      · rw [hw] at h1; exact absurd h1 (by decide)
    · rw [hf, hm, if_neg (by rw [hrc]; decide)]
      exact hp
    · rcases hrole with hx | hx
      · exact absurd h1 hx
      · exact absurd h2 hx
  | do_release fd =>
    obtain ⟨hw, _, hf⟩ := step_other_globals s s' _ h (fun _ _ _ hc => by cases hc)
    unfold parity_ok at hp ⊢
    rw [hw, hf]; exact hp
  | do_read fd count f_pos ok intr =>
    obtain ⟨hw, _, hf⟩ := step_other_globals s s' _ h (fun _ _ _ hc => by cases hc)
    unfold parity_ok at hp ⊢
    rw [hw, hf]; exact hp
  | do_write fd cfu count =>
    obtain ⟨hw, _, hf⟩ := step_other_globals s s' _ h (fun _ _ _ hc => by cases hc)
    unfold parity_ok at hp ⊢
    rw [hw, hf]; exact hp

theorem run_parity : ∀ (ops : List Op) (s s' : Sys), parity_ok s →
    (∀ op ∈ ops, has_role op = true) → run s ops = some s' → parity_ok s' := by
  intro ops
  induction ops with
  | nil =>
    intro s s' hp _ h
    simp only [run, Option.some.injEq] at h
    exact h ▸ hp
  | cons op ops ih =>
    intro s s' hp hr h
    simp only [run] at h
    cases hs : step s op with
    | none => simp [hs] at h
    | some s1 =>
      simp only [hs] at h
      exact ih s1 s' (step_parity s s1 op hp (hr op (List.mem_cons_self _ _)) hs)
        (fun o ho => hr o (List.mem_cons_of_mem _ ho)) h


/-- With `wait` set and `pipe` valid, an open in either role joins. -/
theorem disco_open_join (m : Module) (filp : file) (kp : Option data_pipe)
    (kb : Bool) (a : Nat) (p : data_pipe)
    (hwait : m.wait ≠ 0) (hpipe : deref m m.pipe = some (a, p))
    (hrole : filp.f_mode &&& FMODE_WRITE ≠ 0 ∨ filp.f_mode &&& FMODE_READ ≠ 0) :
    ∃ m', disco_open m filp kp kb = some (0, m', { filp with private_data := m.pipe }) ∧
      m'.pipe = m.pipe ∧ m'.wait = 0 ∧ m'.heap.length = m.heap.length ∧
      ∃ p', deref m' m.pipe = some (a, p') ∧ p'.lectorf = p.lectorf := by
  have hptr := (deref_some hpipe).1
  by_cases hw : filp.f_mode &&& FMODE_WRITE ≠ 0
  · refine ⟨{ store m a (writer_mark p) with wait := FALSE, broadcasts := m.broadcasts + 1 },
      ?_, rfl, rfl, ?_, writer_mark p, ?_, rfl⟩
    · rw [disco_open_writer_join m filp kp kb a p hwait hw hpipe, hptr]
    · simp [store]
    · exact deref_set _ hpipe (writer_mark p) rfl
  · have hr : filp.f_mode &&& FMODE_READ ≠ 0 := hrole.resolve_left hw
    exact ⟨_, disco_open_reader_join m filp kp kb hwait (not_not.mp hw) hr, rfl, rfl, rfl,
      p, hpipe, rfl⟩

/-! ## Parity of opens -/

/-- Claim C17: a `disco_open` in write or read mode either succeeds and
negates `wait`, or fails and changes nothing; `disco_release`, `disco_write`
and `disco_read` leave `wait` and `pipe` as the call found them (for a read
that slept: as it found them at its last wake-up).  Hence after any sequence
of calls from the state of `disco_init` whose opens all have a role, `wait`
is set exactly when the number of successful opens (the entries of the file
table) is odd; and after open writer, close writer on an idle module, the
next open in either role returns the handle of that closed session and adds
no record. -/
theorem wait_is_open_parity :
    (∀ (m : Module) (filp : file) (kp : Option data_pipe) (kb : Bool) (rc : Int)
        (m' : Module) (filp' : file),
      (filp.f_mode &&& FMODE_WRITE ≠ 0 ∨ filp.f_mode &&& FMODE_READ ≠ 0) →
      disco_open m filp kp kb = some (rc, m', filp') →
      (rc = 0 ∧ (m.wait ≠ 0 → m'.wait = 0) ∧ (m.wait = 0 → m'.wait ≠ 0)) ∨
        (rc ≠ 0 ∧ m' = m)) ∧
    (∀ (m : Module) (filp : file) (rc : Int) (m' : Module),
      disco_release m filp = some (rc, m') → m'.wait = m.wait ∧ m'.pipe = m.pipe) ∧
    (∀ (m : Module) (filp : file) (count : Nat) (f_pos : Int) (copy_to_user : Nat → Bool)
        (waits : List c_wait_result) (r : read_ret) (m' : Module),
      disco_read m filp count f_pos copy_to_user waits = some (r, m') →
      ∃ m0, (m0 = m ∨ c_wait_result.woken m0 ∈ waits) ∧
        m'.wait = m0.wait ∧ m'.pipe = m0.pipe) ∧
    (∀ (m : Module) (filp : file) (copy_from_user : Nat → Option UInt8) (count : Nat)
        (rc : Int) (m' : Module),
      disco_write m filp copy_from_user count = some (rc, m') →
      m'.wait = m.wait ∧ m'.pipe = m.pipe) ∧
    (∀ (ops : List Op) (s : Sys), run init_sys ops = some s →
      (∀ op ∈ ops, has_role op = true) →
      (s.m.wait ≠ 0 ↔ s.files.length % 2 = 1)) ∧
    (∀ (m : Module) (wf filp : file) (g : data_pipe) (kp : Option data_pipe) (kb : Bool),
      m.wait = 0 → wf.f_mode &&& FMODE_WRITE ≠ 0 →
      (filp.f_mode &&& FMODE_WRITE ≠ 0 ∨ filp.f_mode &&& FMODE_READ ≠ 0) →
      ∃ m1 wh m2 m3 p,
        disco_open m wf (some g) true = some (0, m1, wh) ∧
        disco_release m1 wh = some (0, m2) ∧
        disco_open m2 filp kp kb =
          some (0, m3, { filp with private_data := wh.private_data }) ∧
        m3.heap.length = m1.heap.length ∧
        deref m3 wh.private_data = some (m.heap.length, p) ∧ p.lectorf = TRUE) := by
  refine ⟨?_, ?_, ?_, ?_, ?_, ?_⟩
  · intro m filp kp kb rc m' filp' hrole ho
    rcases disco_open_cases m filp kp kb rc m' filp' ho with
      ⟨b, p, _, hw, _, hrc, _, hm⟩ | ⟨g, _, hw, _, hrc, _, hm⟩ | ⟨_, _, hw, hrc, _, hm⟩ |
      ⟨g, _, _, hw, _, hrc, _, hm⟩ | ⟨_, hw, hrc, _, hm⟩ | ⟨h1, h2, _, _, _⟩
    · exact Or.inl ⟨hrc, fun _ => by rw [hm]; rfl, fun h0 => absurd h0 hw⟩
    · exact Or.inl ⟨hrc, fun h0 => absurd hw h0, fun _ => by rw [hm]; exact (show TRUE ≠ 0 by decide)⟩
    · exact Or.inl ⟨hrc, fun _ => by rw [hm]; rfl, fun h0 => absurd h0 hw⟩
    · exact Or.inl ⟨hrc, fun h0 => absurd hw h0, fun _ => by rw [hm]; exact (show TRUE ≠ 0 by decide)⟩
    · exact Or.inr ⟨by rw [hrc]; decide, hm⟩
    · rcases hrole with hx | hx
      · exact absurd h1 hx
      · exact absurd h2 hx
  · intro m filp rc m' ho
    rcases (disco_release_cases m filp rc m' ho).2 with ⟨b, p, _, _, rfl⟩ | ⟨_, rfl⟩
    · exact ⟨rfl, rfl⟩
    · exact ⟨rfl, rfl⟩
  · intro m filp count f_pos ok waits r m' ho
    obtain ⟨m0, b, p, hm0, _, hres⟩ := disco_read_cases filp count f_pos ok waits m r m' ho
    refine ⟨m0, hm0, ?_⟩
    rcases hres with ⟨_, rfl, _⟩ | ⟨_, _, rfl⟩
    · exact ⟨rfl, rfl⟩
    · exact ⟨rfl, rfl⟩
  · intro m filp cfu count rc m' ho
    cases hd : deref m filp.private_data with
    | none => simp [disco_write, hd] at ho
    | some bp =>
      obtain ⟨b, p⟩ := bp
      rw [disco_write_eq m filp cfu count b p hd] at ho
      simp only [Option.some.injEq, Prod.mk.injEq] at ho
      obtain ⟨_, rfl⟩ := ho
      exact ⟨rfl, rfl⟩
  · intro ops s hrun hrole
    have hp : parity_ok s :=
      run_parity ops init_sys s (Or.inl ⟨rfl, rfl⟩) hrole hrun
    rcases hp with ⟨h0, h1⟩ | ⟨h0, h1⟩
    · rw [h0, h1]; decide
    · rw [h0, h1]; decide
  · intro m wf filp g kp kb hidle hwf hrole
    have hopen := disco_open_writer_create m wf g hidle hwf
    have hd1 := deref_append_new m (writer_mark (init_pipe g)) TRUE (some m.heap.length)
      (m.broadcasts + 1)
    have hrel := disco_release_writer
      { wait := TRUE, pipe := some m.heap.length,
        heap := m.heap ++ [writer_mark (init_pipe g)], broadcasts := m.broadcasts + 1 }
      { wf with private_data := some m.heap.length } m.heap.length
      (writer_mark (init_pipe g)) hwf hd1
    have hd2 := deref_set
      { store { wait := TRUE, pipe := some m.heap.length,
                heap := m.heap ++ [writer_mark (init_pipe g)],
                broadcasts := m.broadcasts + 1 }
          m.heap.length { writer_mark (init_pipe g) with lectorf := TRUE } with
        broadcasts := m.broadcasts + 1 + 1 }
      hd1 { writer_mark (init_pipe g) with lectorf := TRUE } rfl
    obtain ⟨m3, hj, _, _, hlen, p', hd3, hl3⟩ :=
      disco_open_join _ filp kp kb m.heap.length _ (show TRUE ≠ 0 by decide) hd2 hrole
    refine ⟨_, _, _, m3, p', hopen, hrel, hj, ?_, hd3, hl3⟩
    rw [hlen]
    simp [store]

/-- Claim C17 at a sequence with three successful opens and a failed one,
and at a read-mode open after open writer, close writer. -/
theorem wait_is_open_parity_witness :
    (∃ s, run init_sys opens_trace = some s ∧ (∀ op ∈ opens_trace, has_role op = true) ∧
      s.files.length = 3 ∧ (s.m.wait ≠ 0 ↔ s.files.length % 2 = 1)) ∧
    (∃ m1 wh m2 m3 p,
      disco_open disco_init wfile (some junk) true = some (0, m1, wh) ∧
      disco_release m1 wh = some (0, m2) ∧
      disco_open m2 rfile (some junk) true =
        some (0, m3, { rfile with private_data := wh.private_data }) ∧
      m3.heap.length = m1.heap.length ∧
      deref m3 wh.private_data = some (disco_init.heap.length, p) ∧ p.lectorf = TRUE) :=
  ⟨⟨_, rfl, by decide, rfl,
      wait_is_open_parity.2.2.2.2.1 opens_trace _ rfl (by decide)⟩,
    wait_is_open_parity.2.2.2.2.2 disco_init wfile rfile junk (some junk) true rfl
      (by decide) (by decide)⟩

/-! ## Cursor consistency, operation by operation -/

theorem write_copy_in (cfu : Nat → Option UInt8) :
    ∀ (n : Nat) (p : data_pipe) (k : Nat), 0 ≤ p.in_ → p.in_ < 8192 →
      (write_copy cfu p k n).1 = true →
      (write_copy cfu p k n).2.in_ = (p.in_ + n) % 8192 := by
  intro n
  induction n with
  | zero => intro p k h0 h1 _; simp only [write_copy, Nat.cast_zero, add_zero]; omega
  | succ n ih =>
    intro p k h0 h1 h
    cases hk : cfu k with
    | none => simp [write_copy, hk] at h
    | some b =>
      simp only [write_copy, hk] at h ⊢
      have hr := next_index_range p.in_ h0 h1
      have := ih { p with buff := Function.update p.buff p.in_ b, in_ := next_index p.in_ }
        (k + 1) hr.1 hr.2 h
      rw [this]
      simp only [next_index_eq p.in_ h0 h1]
      push_cast; omega

theorem read_copy_out (ok : Nat → Bool) :
    ∀ (n : Nat) (p : data_pipe) (k : Nat) (ubuf : List UInt8), 0 ≤ p.out → p.out < 8192 →
      (read_copy ok p k ubuf n).1 = true →
      (read_copy ok p k ubuf n).2.1.out = (p.out + n) % 8192 := by
  intro n
  induction n with
  | zero => intro p k ubuf h0 h1 _; simp only [read_copy, Nat.cast_zero, add_zero]; omega
  | succ n ih =>
    intro p k ubuf h0 h1 h
    cases hk : ok k with
    | false => simp [read_copy, hk] at h
    | true =>
      simp only [read_copy, hk, if_true] at h ⊢
      have hr := next_index_range p.out h0 h1
      have := ih { p with out := next_index p.out } (k + 1) (ubuf ++ [p.buff p.out])
        hr.1 hr.2 h
      rw [this]
      simp only [next_index_eq p.out h0 h1]
      push_cast; omega

/-- Unless it returns `-EFAULT`, the body of `disco_write` keeps the cursors
consistent. -/
theorem write_body_cursor (p : data_pipe) (cfu : Nat → Option UInt8) (count : Nat)
    (hr : range_inv p) (hc : cursor_inv p) (hnf : (write_body p cfu count).1 ≠ -EFAULT) :
    cursor_inv (write_body p cfu count).2.1 := by
  obtain ⟨hs0, hs1, hi0, hi1, ho0, ho1⟩ := hr
  simp only [MAX_SIZE] at hs1 hi1 ho1
  unfold cursor_inv at hc ⊢
  unfold write_body at hnf ⊢
  by_cases hfull : p.size = MAX_SIZE
  · rw [if_pos hfull]; exact hc
  · rw [if_neg hfull] at hnf ⊢
    simp only [] at hnf ⊢
    simp only [MAX_SIZE] at hfull
    have hroom : to_size_t (to_int (MAX_SIZE - p.size)) = (8192 - p.size).toNat := by
      simp only [MAX_SIZE]
      rw [to_int_eq _ (by omega) (by omega), to_size_t_eq _ (by omega) (by omega)]
    rw [hroom] at hnf ⊢
    generalize hcnt : (if count > (8192 - p.size).toNat then (8192 - p.size).toNat
      else count) = n at hnf ⊢
    have hn : n ≤ (8192 - p.size).toNat := by rw [← hcnt]; split <;> omega
    have hany := write_copy_fields cfu n p 0
    have hin := write_copy_in cfu n p 0 hi0 hi1
    rcases hwc : write_copy cfu p 0 n with ⟨b, p'⟩
    rw [hwc] at hany hnf hin
    obtain ⟨a2, a3, _⟩ := hany
    simp only at a2 a3 hin
    cases b
    · simp at hnf
    · simp only [a2, a3, hin rfl]
      rw [to_int_eq _ (by omega) (by omega)]
      omega

/-- Unless it returns `-EFAULT`, the body of `disco_read` keeps the cursors
consistent. -/
theorem read_body_cursor (p : data_pipe) (count : Nat) (ok : Nat → Bool)
    (hr : range_inv p) (hc : cursor_inv p) (hnf : (read_body p count ok).1 ≠ -EFAULT) :
    cursor_inv (read_body p count ok).2.1 := by
  obtain ⟨hs0, hs1, hi0, hi1, ho0, ho1⟩ := hr
  simp only [MAX_SIZE] at hs1 hi1 ho1
  unfold cursor_inv at hc ⊢
  unfold read_body at hnf ⊢
  by_cases hl : p.lectorf ≠ 0
  · rw [if_pos hl]; exact hc
  · rw [if_neg hl] at hnf ⊢
    simp only [] at hnf ⊢
    rw [to_size_t_eq _ hs0 hs1] at hnf ⊢
    generalize hcnt : (if count > p.size.toNat then p.size.toNat else count) = n at hnf ⊢
    have hn : n ≤ p.size.toNat := by rw [← hcnt]; split <;> omega
    have hany := read_copy_fields ok n p 0 []
    have hout := read_copy_out ok n p 0 [] ho0 ho1
    rcases hrc : read_copy ok p 0 [] n with ⟨b, p', u⟩
    rw [hrc] at hany hnf hout
    obtain ⟨a1, a2, _⟩ := hany
    simp only at a1 a2 hout
    cases b
    · simp at hnf
    · simp only [a1, a2, hout rfl]
      rw [to_int_eq _ (by omega) (by omega)]
      omega

theorem cursors_ok_set {l : List data_pipe} (a : Nat) (p : data_pipe)
    (hl : ∀ q ∈ l, range_inv q ∧ cursor_inv q) (hp : range_inv p ∧ cursor_inv p) :
    ∀ q ∈ l.set a p, range_inv q ∧ cursor_inv q := by
  intro q hq
  rcases List.mem_or_eq_of_mem_set hq with h | h
  · exact hl q h
  · exact h ▸ hp

theorem cursors_ok_append {l : List data_pipe} (p : data_pipe)
    (hl : ∀ q ∈ l, range_inv q ∧ cursor_inv q) (hp : range_inv p ∧ cursor_inv p) :
    ∀ q ∈ l ++ [p], range_inv q ∧ cursor_inv q := by
  intro q hq
  rcases List.mem_append.mp hq with h | h
  · exact hl q h
  · rw [List.mem_singleton] at h; exact h ▸ hp

theorem init_pipe_cursor (g : data_pipe) :
    cursor_inv (init_pipe g) ∧ cursor_inv (writer_mark (init_pipe g)) := by
  constructor <;> simp [cursor_inv, init_pipe, writer_mark]


theorem same_stream_strip {p q : data_pipe} : same_stream p q ↔ strip p = strip q := by
  cases p; cases q
  simp [same_stream, strip]

theorem write_copy_strip (cfu : Nat → Option UInt8) :
    ∀ (n : Nat) (p : data_pipe) (k : Nat),
      write_copy cfu (strip p) k n =
        ((write_copy cfu p k n).1, strip (write_copy cfu p k n).2) := by
  intro n
  induction n with
  | zero => intro p k; rfl
  | succ n ih =>
    intro p k
    cases hk : cfu k with
    | none => simp [write_copy, hk]
    | some b =>
      simp only [write_copy, hk]
      exact ih { p with buff := Function.update p.buff p.in_ b, in_ := next_index p.in_ }
        (k + 1)

theorem read_copy_strip (ok : Nat → Bool) :
    ∀ (n : Nat) (p : data_pipe) (k : Nat) (ubuf : List UInt8),
      read_copy ok (strip p) k ubuf n =
        ((read_copy ok p k ubuf n).1, strip (read_copy ok p k ubuf n).2.1,
          (read_copy ok p k ubuf n).2.2) := by
  intro n
  induction n with
  | zero => intro p k ubuf; rfl
  | succ n ih =>
    intro p k ubuf
    cases hk : ok k with
    | false => simp [read_copy, hk]
    | true =>
      simp only [read_copy, hk, if_true]
      exact ih { p with out := next_index p.out } (k + 1) (ubuf ++ [p.buff p.out])

theorem write_body_strip (p : data_pipe) (cfu : Nat → Option UInt8) (count : Nat) :
    write_body (strip p) cfu count =
      ((write_body p cfu count).1, strip (write_body p cfu count).2.1,
        (write_body p cfu count).2.2) := by
  unfold write_body
  by_cases hfull : p.size = MAX_SIZE
  · have : (strip p).size = MAX_SIZE := hfull
    rw [if_pos hfull, if_pos this]
  · have : ¬ (strip p).size = MAX_SIZE := hfull
    rw [if_neg hfull, if_neg this]
    simp only []
    have hs : (strip p).size = p.size := rfl
    rw [hs, write_copy_strip]
    rcases write_copy cfu p 0 _ with ⟨b, p'⟩
    cases b <;> rfl

theorem read_body_strip (p : data_pipe) (count : Nat) (ok : Nat → Bool) :
    read_body (strip p) count ok =
      ((read_body p count ok).1, strip (read_body p count ok).2.1,
        (read_body p count ok).2.2) := by
  unfold read_body
  by_cases hl : p.lectorf ≠ 0
  · have : (strip p).lectorf ≠ 0 := hl
    rw [if_pos hl, if_pos this]
  · have : ¬ (strip p).lectorf ≠ 0 := hl
    rw [if_neg hl, if_neg this]
    simp only []
    have hs : (strip p).size = p.size := rfl
    rw [hs, read_copy_strip]
    rcases read_copy ok p 0 [] _ with ⟨b, p', u⟩
    cases b <;> rfl

/-- On the same stream `disco_write`'s body returns the same code, makes the
same broadcast decision and leaves the same stream. -/
theorem write_body_twin (p q : data_pipe) (cfu : Nat → Option UInt8) (count : Nat)
    (h : same_stream p q) :
    (write_body p cfu count).1 = (write_body q cfu count).1 ∧
    (write_body p cfu count).2.2 = (write_body q cfu count).2.2 ∧
    same_stream (write_body p cfu count).2.1 (write_body q cfu count).2.1 := by
  have h1 := write_body_strip p cfu count
  have h2 := write_body_strip q cfu count
  rw [same_stream_strip.mp h, h2] at h1
  simp only [Prod.mk.injEq] at h1
  exact ⟨h1.1.symm, h1.2.2.symm, same_stream_strip.mpr h1.2.1.symm⟩

/-- On the same stream `disco_read`'s body returns the same code, delivers
the same bytes and leaves the same stream. -/
theorem read_body_twin (p q : data_pipe) (count : Nat) (ok : Nat → Bool)
    (h : same_stream p q) :
    (read_body p count ok).1 = (read_body q count ok).1 ∧
    (read_body p count ok).2.2 = (read_body q count ok).2.2 ∧
    same_stream (read_body p count ok).2.1 (read_body q count ok).2.1 := by
  have h1 := read_body_strip p count ok
  have h2 := read_body_strip q count ok
  rw [same_stream_strip.mp h, h2] at h1
  simp only [Prod.mk.injEq] at h1
  exact ⟨h1.1.symm, h1.2.2.symm, same_stream_strip.mpr h1.2.1.symm⟩

/-- Twin sessions take the same wait decision at a file position that is not
negative. -/
theorem must_wait_twin (p q : data_pipe) (f_pos : Int) (h : twin p q) (hf : 0 ≤ f_pos) :
    must_wait p f_pos = must_wait q f_pos ∧
      (must_wait p f_pos = false → p.escritor = q.escritor) := by
  obtain ⟨⟨_, _, _, hsz, _⟩, he⟩ := h
  unfold must_wait
  rcases he with he | he
  · rw [he, hsz]; exact ⟨rfl, fun _ => rfl⟩
  · have hq : q.size = 0 := hsz ▸ he
    have h1 : p.size ≤ f_pos := by omega
    have h2 : q.size ≤ f_pos := by omega
    simp [h1, h2]


theorem twin_deref (m1 m2 : Module) (h : twin_modules m1 m2) (ptr : Option Nat) :
    (deref m1 ptr = none ∧ deref m2 ptr = none) ∨
    (∃ a p q, deref m1 ptr = some (a, p) ∧ deref m2 ptr = some (a, q) ∧
      m1.heap[a]? = some p ∧ m2.heap[a]? = some q ∧ twin p q) := by
  obtain ⟨_, _, _, hlen, hpt⟩ := h
  cases ptr with
  | none => exact Or.inl ⟨rfl, rfl⟩
  | some a =>
    by_cases ha : a < m1.heap.length
    · have ha2 : a < m2.heap.length := hlen ▸ ha
      have h1 : m1.heap[a]? = some m1.heap[a] := List.getElem?_eq_getElem ha
      have h2 : m2.heap[a]? = some m2.heap[a] := List.getElem?_eq_getElem ha2
      refine Or.inr ⟨a, m1.heap[a], m2.heap[a], ?_, ?_, h1, h2, hpt a _ _ h1 h2⟩
      · simp only [deref, h1]
      · simp only [deref, h2]
    · have h1 : m1.heap[a]? = none := List.getElem?_eq_none (by omega)
      have h2 : m2.heap[a]? = none := List.getElem?_eq_none (by omega)
      refine Or.inl ⟨?_, ?_⟩
      · simp only [deref, h1]
      · simp only [deref, h2]

theorem twin_set (m1 m2 m1' m2' : Module) (a : Nat) (p' q' : data_pipe)
    (h : twin_modules m1 m2)
    (h1 : m1'.heap = m1.heap.set a p') (h2 : m2'.heap = m2.heap.set a q')
    (hw : m1'.wait = m2'.wait) (hp : m1'.pipe = m2'.pipe)
    (hb : m1'.broadcasts = m2'.broadcasts) (ht : twin p' q') : twin_modules m1' m2' := by
  obtain ⟨_, _, _, hlen, hpt⟩ := h
  refine ⟨hw, hp, hb, by rw [h1, h2, List.length_set, List.length_set, hlen], ?_⟩
  intro x p q hx1 hx2
  rw [h1, List.getElem?_set] at hx1
  rw [h2, List.getElem?_set] at hx2
  by_cases hax : a = x
  · subst hax
    by_cases hlt : a < m1.heap.length
    · have hlt2 : a < m2.heap.length := hlen ▸ hlt
      simp only [if_true, hlt, hlt2, Option.some.injEq] at hx1 hx2
      rw [← hx1, ← hx2]; exact ht
    · simp [hlt] at hx1
  · simp only [hax, if_false] at hx1 hx2
    exact hpt x p q hx1 hx2

theorem twin_append (m1 m2 m1' m2' : Module) (p' q' : data_pipe)
    (h : twin_modules m1 m2)
    (h1 : m1'.heap = m1.heap ++ [p']) (h2 : m2'.heap = m2.heap ++ [q'])
    (hw : m1'.wait = m2'.wait) (hp : m1'.pipe = m2'.pipe)
    (hb : m1'.broadcasts = m2'.broadcasts) (ht : twin p' q') : twin_modules m1' m2' := by
  obtain ⟨_, _, _, hlen, hpt⟩ := h
  refine ⟨hw, hp, hb, by rw [h1, h2, List.length_append, List.length_append, hlen]; rfl, ?_⟩
  intro x p q hx1 hx2
  rw [h1] at hx1
  rw [h2] at hx2
  by_cases hlt : x < m1.heap.length
  · have hlt2 : x < m2.heap.length := hlen ▸ hlt
    rw [List.getElem?_append_left hlt] at hx1
    rw [List.getElem?_append_left hlt2] at hx2
    exact hpt x p q hx1 hx2
  · have hge : m1.heap.length ≤ x := by omega
    have hge2 : m2.heap.length ≤ x := hlen ▸ hge
    rw [List.getElem?_append_right hge] at hx1
    rw [List.getElem?_append_right hge2] at hx2
    by_cases hx0 : x - m1.heap.length = 0
    · have hx02 : x - m2.heap.length = 0 := hlen ▸ hx0
      rw [hx0] at hx1
      rw [hx02] at hx2
      simp only [List.getElem?_cons_zero, Option.some.injEq] at hx1 hx2
      rw [← hx1, ← hx2]; exact ht
    · rw [List.getElem?_eq_none (by simp; omega)] at hx1
      cases hx1

theorem agree_set (m1 m2 m1' m2' : Module) (a : Nat) (p' q' : data_pipe)
    (h1 : m1'.heap = m1.heap.set a p') (h2 : m2'.heap = m2.heap.set a q')
    (he : agree_escr m1 m2 a → p'.escritor = q'.escritor) (x : Nat)
    (hx : agree_escr m1 m2 x) : agree_escr m1' m2' x := by
  obtain ⟨hlt, hag⟩ := hx
  refine ⟨by rw [h1, List.length_set]; exact hlt, ?_⟩
  intro p q hp hq
  rw [h1, List.getElem?_set] at hp
  rw [h2, List.getElem?_set] at hq
  by_cases hax : a = x
  · subst hax
    by_cases hlt2 : a < m2.heap.length
    · simp only [if_true, hlt, hlt2, Option.some.injEq] at hp hq
      rw [← hp, ← hq]; exact he ⟨hlt, hag⟩
    · simp [hlt2] at hq
  · simp only [hax, if_false] at hp hq
    exact hag p q hp hq

theorem agree_append (m1 m2 m1' m2' : Module) (p' q' : data_pipe)
    (hlen : m1.heap.length = m2.heap.length)
    (h1 : m1'.heap = m1.heap ++ [p']) (h2 : m2'.heap = m2.heap ++ [q']) (x : Nat)
    (hx : agree_escr m1 m2 x) : agree_escr m1' m2' x := by
  obtain ⟨hlt, hag⟩ := hx
  have hlt2 : x < m2.heap.length := hlen ▸ hlt
  refine ⟨by rw [h1, List.length_append]; omega, ?_⟩
  intro p q hp hq
  rw [h1, List.getElem?_append_left hlt] at hp
  rw [h2, List.getElem?_append_left hlt2] at hq
  exact hag p q hp hq

theorem agree_new (m1 m2 m1' m2' : Module) (p' q' : data_pipe)
    (hlen : m1.heap.length = m2.heap.length)
    (h1 : m1'.heap = m1.heap ++ [p']) (h2 : m2'.heap = m2.heap ++ [q'])
    (he : p'.escritor = q'.escritor) : agree_escr m1' m2' m1.heap.length := by
  refine ⟨by rw [h1, List.length_append]; simp, ?_⟩
  intro p q hp hq
  rw [h1, List.getElem?_append_right (le_refl _)] at hp
  rw [h2, List.getElem?_append_right (le_of_eq hlen.symm), ← hlen] at hq
  simp only [Nat.sub_self, List.getElem?_cons_zero, Option.some.injEq] at hp hq
  rw [← hp, ← hq]; exact he

theorem agree_at_set (m1 m2 m1' m2' : Module) (a : Nat) (p' q' : data_pipe)
    (hlt : a < m1.heap.length)
    (h1 : m1'.heap = m1.heap.set a p') (h2 : m2'.heap = m2.heap.set a q')
    (he : p'.escritor = q'.escritor) : agree_escr m1' m2' a := by
  refine ⟨by rw [h1, List.length_set]; exact hlt, ?_⟩
  intro p q hp hq
  rw [h1, List.getElem?_set] at hp
  rw [h2, List.getElem?_set] at hq
  by_cases hlt2 : a < m2.heap.length
  · simp only [if_true, hlt, hlt2, Option.some.injEq] at hp hq
    rw [← hp, ← hq]; exact he
  · simp [hlt2] at hq

theorem agree_congr (m1 m2 m1' m2' : Module) (h1 : m1'.heap = m1.heap)
    (h2 : m2'.heap = m2.heap) (x : Nat) (hx : agree_escr m1 m2 x) :
    agree_escr m1' m2' x := by
  unfold agree_escr at hx ⊢
  rw [h1, h2]; exact hx


theorem twin_writer_mark (p q : data_pipe) (h : same_stream p q) :
    twin (writer_mark p) (writer_mark q) := by
  obtain ⟨h1, h2, h3, _, h5⟩ := h
  exact ⟨⟨h1, h2, h3, rfl, h5⟩, Or.inl rfl⟩

theorem twin_init_pipe (g1 g2 : data_pipe) : twin (init_pipe g1) (init_pipe g2) :=
  ⟨⟨rfl, rfl, rfl, rfl, rfl⟩, Or.inr rfl⟩

theorem twin_congr (m1 m2 m1' m2' : Module) (h : twin_modules m1 m2)
    (h1 : m1'.heap = m1.heap) (h2 : m2'.heap = m2.heap)
    (hw : m1'.wait = m2'.wait) (hp : m1'.pipe = m2'.pipe)
    (hb : m1'.broadcasts = m2'.broadcasts) : twin_modules m1' m2' := by
  obtain ⟨_, _, _, hlen, hpt⟩ := h
  refine ⟨hw, hp, hb, by rw [h1, h2, hlen], ?_⟩
  rw [h1, h2]; exact hpt

/-- With `wait` clear and a failed allocation, an open in either role fails
and changes nothing. -/
theorem disco_open_enomem (m : Module) (filp : file) (kp : Option data_pipe)
    (kb : Bool) (hidle : m.wait = 0)
    (hrole : filp.f_mode &&& FMODE_WRITE ≠ 0 ∨ filp.f_mode &&& FMODE_READ ≠ 0)
    (hfail : kp = none ∨ kb = false) :
    disco_open m filp kp kb = some (-ENOMEM, m, filp) := by
  unfold disco_open
  by_cases hw : filp.f_mode &&& FMODE_WRITE ≠ 0
  · rw [if_pos hw, if_neg (by simp [hidle])]
    cases kp with
    | none => rfl
    | some g =>
      have hkb : kb = false := by simpa using hfail
      subst hkb
      rfl
  · have hr : filp.f_mode &&& FMODE_READ ≠ 0 := hrole.resolve_left hw
    rw [if_neg hw, if_pos hr, if_neg (by simp [hidle])]
    cases kp with
    | none => rfl
    | some g =>
      have hkb : kb = false := by simpa using hfail
      subst hkb
      rfl

/-- An open in two twin states: both fail to return, or both return the same
code and handle and leave twin states. -/
theorem open_twin (m1 m2 : Module) (h : twin_modules m1 m2) (filp : file)
    (kp1 kp2 : Option data_pipe) (kb : Bool) (hk : kp1.isSome = kp2.isSome) :
    (disco_open m1 filp kp1 kb = none ∧ disco_open m2 filp kp2 kb = none) ∨
    (∃ rc m1' m2' f', disco_open m1 filp kp1 kb = some (rc, m1', f') ∧
      disco_open m2 filp kp2 kb = some (rc, m2', f') ∧ f'.f_mode = filp.f_mode ∧
      twin_modules m1' m2' ∧
      (∀ x, agree_escr m1 m2 x → agree_escr m1' m2' x) ∧
      (filp.f_mode &&& FMODE_WRITE ≠ 0 → rc = 0 →
        ∀ a, f'.private_data = some a → agree_escr m1' m2' a)) := by
  have hh := h
  obtain ⟨hwait, hpipe, hbc, hlen, hpt⟩ := hh
  by_cases hw : filp.f_mode &&& FMODE_WRITE ≠ 0
  · by_cases hw1 : m1.wait ≠ 0
    · have hw2 : m2.wait ≠ 0 := hwait ▸ hw1
      rcases twin_deref m1 m2 h m1.pipe with ⟨hd1, hd2⟩ | ⟨a, p, q, hd1, hd2, hp1, hp2, ht⟩
      · rw [hpipe] at hd2
        left
        constructor
        · simp [disco_open, hw, hw1, hd1]
        · simp [disco_open, hw, hw2, hd2]
      · right
        have ha : a < m1.heap.length := (List.getElem?_eq_some.mp hp1).1
        rw [hpipe] at hd2
        refine ⟨0, _, _, _, disco_open_writer_join m1 filp kp1 kb a p hw1 hw hd1,
          disco_open_writer_join m2 filp kp2 kb a q hw2 hw hd2, rfl, ?_, ?_, ?_⟩
        · exact twin_set m1 m2 _ _ a _ _ h rfl rfl rfl hpipe (by simp [hbc])
            (twin_writer_mark p q ht.1)
        · exact agree_set m1 m2 _ _ a _ _ rfl rfl (fun _ => rfl)
        · intro _ _ x hx
          simp only [Option.some.injEq] at hx
          subst hx
          exact agree_at_set m1 m2 _ _ a _ _ ha rfl rfl rfl
    · have hi1 : m1.wait = 0 := not_not.mp hw1
      have hi2 : m2.wait = 0 := hwait ▸ hi1
      right
      cases kp1 with
      | none =>
        cases kp2 with
        | some g2 => simp at hk
        | none =>
          exact ⟨_, m1, m2, filp, disco_open_enomem m1 filp none kb hi1 (Or.inl hw) (Or.inl rfl),
            disco_open_enomem m2 filp none kb hi2 (Or.inl hw) (Or.inl rfl), rfl, h,
            fun _ hx => hx, fun _ hrc => absurd hrc (by decide)⟩
      | some g1 =>
        cases kp2 with
        | none => simp at hk
        | some g2 =>
          cases kb with
          | false =>
            exact ⟨_, m1, m2, filp,
              disco_open_enomem m1 filp _ false hi1 (Or.inl hw) (Or.inr rfl),
              disco_open_enomem m2 filp _ false hi2 (Or.inl hw) (Or.inr rfl), rfl, h,
              fun _ hx => hx, fun _ hrc => absurd hrc (by decide)⟩
          | true =>
            refine ⟨0, _,
              { wait := TRUE, pipe := some m2.heap.length,
                heap := m2.heap ++ [writer_mark (init_pipe g2)],
                broadcasts := m2.broadcasts + 1 },
              _, disco_open_writer_create m1 filp g1 hi1 hw, ?_, rfl, ?_, ?_, ?_⟩
            · rw [hlen]; exact disco_open_writer_create m2 filp g2 hi2 hw
            · exact twin_append m1 m2 _ _ _ _ h rfl rfl rfl (by simp [hlen]) (by simp [hbc])
                (twin_writer_mark _ _ (twin_init_pipe g1 g2).1)
            · exact agree_append m1 m2 _ _ _ _ hlen rfl rfl
            · intro _ _ x hx
              simp only [Option.some.injEq] at hx
              subst hx
              exact agree_new m1 m2 _ _ _ _ hlen rfl rfl rfl
  · have hw0 : filp.f_mode &&& FMODE_WRITE = 0 := not_not.mp hw
    right
    by_cases hr : filp.f_mode &&& FMODE_READ ≠ 0
    · by_cases hw1 : m1.wait ≠ 0
      · have hw2 : m2.wait ≠ 0 := hwait ▸ hw1
        refine ⟨0, _, { m2 with wait := FALSE, broadcasts := m2.broadcasts + 1 }, _,
          disco_open_reader_join m1 filp kp1 kb hw1 hw0 hr, ?_, rfl, ?_, ?_,
          fun hc => absurd hw0 hc⟩
        · rw [hpipe]; exact disco_open_reader_join m2 filp kp2 kb hw2 hw0 hr
        · exact twin_congr m1 m2 _ _ h rfl rfl rfl hpipe (by simp [hbc])
        · exact agree_congr m1 m2 _ _ rfl rfl
      · have hi1 : m1.wait = 0 := not_not.mp hw1
        have hi2 : m2.wait = 0 := hwait ▸ hi1
        cases kp1 with
        | none =>
          cases kp2 with
          | some g2 => simp at hk
          | none =>
            exact ⟨_, m1, m2, filp,
              disco_open_enomem m1 filp none kb hi1 (Or.inr hr) (Or.inl rfl),
              disco_open_enomem m2 filp none kb hi2 (Or.inr hr) (Or.inl rfl), rfl, h,
              fun _ hx => hx, fun hc => absurd hw0 hc⟩
        | some g1 =>
          cases kp2 with
          | none => simp at hk
          | some g2 =>
            cases kb with
            | false =>
              exact ⟨_, m1, m2, filp,
                disco_open_enomem m1 filp _ false hi1 (Or.inr hr) (Or.inr rfl),
                disco_open_enomem m2 filp _ false hi2 (Or.inr hr) (Or.inr rfl), rfl, h,
                fun _ hx => hx, fun hc => absurd hw0 hc⟩
            | true =>
              refine ⟨0, _,
                { m2 with wait := TRUE, pipe := some m2.heap.length,
                          heap := m2.heap ++ [init_pipe g2] },
                _, disco_open_reader_create m1 filp g1 hi1 hw0 hr, ?_, rfl,
                ?_, ?_, fun hc => absurd hw0 hc⟩
              · rw [hlen]; exact disco_open_reader_create m2 filp g2 hi2 hw0 hr
              · exact twin_append m1 m2 _ _ _ _ h rfl rfl rfl (by simp [hlen]) hbc
                  (twin_init_pipe g1 g2)
              · exact agree_append m1 m2 _ _ _ _ hlen rfl rfl
    · have hr0 : filp.f_mode &&& FMODE_READ = 0 := not_not.mp hr
      refine ⟨0, m1, m2, filp, ?_, ?_, rfl, h, fun _ hx => hx, fun hc => absurd hw0 hc⟩
      · simp only [disco_open, hw0, hr0, ne_eq, not_true_eq_false, if_false]
      · simp only [disco_open, hw0, hr0, ne_eq, not_true_eq_false, if_false]


/-- A close in two twin states. -/
theorem release_twin (m1 m2 : Module) (h : twin_modules m1 m2) (filp : file) :
    (disco_release m1 filp = none ∧ disco_release m2 filp = none) ∨
    (∃ rc m1' m2', disco_release m1 filp = some (rc, m1') ∧
      disco_release m2 filp = some (rc, m2') ∧ twin_modules m1' m2' ∧
      (∀ x, agree_escr m1 m2 x → agree_escr m1' m2' x)) := by
  have hh := h
  obtain ⟨hwait, hpipe, hbc, hlen, hpt⟩ := hh
  by_cases hw : filp.f_mode &&& FMODE_WRITE ≠ 0
  · rcases twin_deref m1 m2 h filp.private_data with
      ⟨hd1, hd2⟩ | ⟨a, p, q, hd1, hd2, hp1, hp2, ht⟩
    · left
      constructor
      · simp [disco_release, hw, hd1]
      · simp [disco_release, hw, hd2]
    · right
      refine ⟨0, _, _, disco_release_writer m1 filp a p hw hd1,
        disco_release_writer m2 filp a q hw hd2, ?_, ?_⟩
      · refine twin_set m1 m2 _ _ a _ _ h rfl rfl hwait hpipe (by simp [hbc]) ?_
        obtain ⟨⟨h1, h2, h3, h4, _⟩, he⟩ := ht
        exact ⟨⟨h1, h2, h3, h4, rfl⟩, he⟩
      · exact agree_set m1 m2 _ _ a _ _ rfl rfl (fun hag => hag.2 p q hp1 hp2)
  · have hw0 : filp.f_mode &&& FMODE_WRITE = 0 := not_not.mp hw
    right
    refine ⟨0, m1, m2, ?_, ?_, h, fun _ hx => hx⟩
    · simp only [disco_release, hw0, ne_eq, not_true_eq_false, if_false]
    · simp only [disco_release, hw0, ne_eq, not_true_eq_false, if_false]

/-- A write, through a handle whose session has the same `escritor` in both,
in two twin states. -/
theorem write_twin (m1 m2 : Module) (h : twin_modules m1 m2) (filp : file)
    (cfu : Nat → Option UInt8) (count : Nat)
    (hag : ∀ a, filp.private_data = some a → agree_escr m1 m2 a) :
    (disco_write m1 filp cfu count = none ∧ disco_write m2 filp cfu count = none) ∨
    (∃ rc m1' m2', disco_write m1 filp cfu count = some (rc, m1') ∧
      disco_write m2 filp cfu count = some (rc, m2') ∧ twin_modules m1' m2' ∧
      (∀ x, agree_escr m1 m2 x → agree_escr m1' m2' x)) := by
  have hh := h
  obtain ⟨hwait, hpipe, hbc, hlen, hpt⟩ := hh
  rcases twin_deref m1 m2 h filp.private_data with
    ⟨hd1, hd2⟩ | ⟨a, p, q, hd1, hd2, hp1, hp2, ht⟩
  · left
    constructor
    · simp [disco_write, hd1]
    · simp [disco_write, hd2]
  · right
    obtain ⟨hrc, hbr, hss⟩ := write_body_twin p q cfu count ht.1
    have he : p.escritor = q.escritor := (hag a (deref_some hd1).1).2 p q hp1 hp2
    have he' : (write_body p cfu count).2.1.escritor = (write_body q cfu count).2.1.escritor := by
      rw [(write_body_flags p cfu count).2.2, (write_body_flags q cfu count).2.2, he]
    refine ⟨_, _,
      { store m2 a (write_body q cfu count).2.1 with
          broadcasts := if (write_body q cfu count).2.2 then m2.broadcasts + 1
            else m2.broadcasts },
      disco_write_eq m1 filp cfu count a p hd1, ?_, ?_, ?_⟩
    · rw [hrc]; exact disco_write_eq m2 filp cfu count a q hd2
    · exact twin_set m1 m2 _ _ a _ _ h rfl rfl hwait hpipe (by simp [hbc, hbr])
        ⟨hss, Or.inl he'⟩
    · exact agree_set m1 m2 _ _ a _ _ rfl rfl (fun _ => he')

/-- One pass of a read at a file position that is not negative, in two twin
states. -/
theorem read_twin (m1 m2 : Module) (h : twin_modules m1 m2) (filp : file) (count : Nat)
    (f_pos : Int) (ok : Nat → Bool) (intr : Bool) (hf : 0 ≤ f_pos) :
    (disco_read m1 filp count f_pos ok
        (if intr then [c_wait_result.interrupted] else []) = none ∧
      disco_read m2 filp count f_pos ok
        (if intr then [c_wait_result.interrupted] else []) = none) ∨
    (∃ r m1' m2',
      disco_read m1 filp count f_pos ok
        (if intr then [c_wait_result.interrupted] else []) = some (r, m1') ∧
      disco_read m2 filp count f_pos ok
        (if intr then [c_wait_result.interrupted] else []) = some (r, m2') ∧
      twin_modules m1' m2' ∧
      (∀ x, agree_escr m1 m2 x → agree_escr m1' m2' x)) := by
  have hh := h
  obtain ⟨hwait, hpipe, hbc, hlen, hpt⟩ := hh
  rcases twin_deref m1 m2 h filp.private_data with
    ⟨hd1, hd2⟩ | ⟨a, p, q, hd1, hd2, hp1, hp2, ht⟩
  · left
    constructor
    · cases intr <;> simp [disco_read, hd1]
    · cases intr <;> simp [disco_read, hd2]
  · right
    obtain ⟨hmw, hesc⟩ := must_wait_twin p q f_pos ht hf
    cases hw1 : must_wait p f_pos with
    | true =>
      have hw2 : must_wait q f_pos = true := hmw ▸ hw1
      cases intr with
      | false =>
        refine ⟨read_ret.blocked, m1, m2, ?_, ?_, h, fun _ hx => hx⟩
        · exact disco_read_blocked m1 filp count f_pos ok a p hd1 hw1
        · exact disco_read_blocked m2 filp count f_pos ok a q hd2 hw2
      | true =>
        refine ⟨read_ret.returned (-EINTR) [], m1, m2, ?_, ?_, h, fun _ hx => hx⟩
        · simp only [if_true, disco_read, hd1, hw1]
        · simp only [if_true, disco_read, hd2, hw2]
    | false =>
      have hw2 : must_wait q f_pos = false := hmw ▸ hw1
      obtain ⟨hrc, hub, hss⟩ := read_body_twin p q count ok ht.1
      have he : p.escritor = q.escritor := hesc hw1
      have he' : (read_body p count ok).2.1.escritor = (read_body q count ok).2.1.escritor := by
        rw [(read_body_flags p count ok).2.2.1, (read_body_flags q count ok).2.2.1, he]
      refine ⟨_, _, store m2 a (read_body q count ok).2.1,
        disco_read_pass m1 filp count f_pos ok _ a p hd1 hw1, ?_, ?_, ?_⟩
      · rw [hrc, hub]; exact disco_read_pass m2 filp count f_pos ok _ a q hd2 hw2
      · exact twin_set m1 m2 _ _ a _ _ h rfl rfl hwait hpipe hbc ⟨hss, Or.inl he'⟩
      · exact agree_set m1 m2 _ _ a _ _ rfl rfl (fun _ => he')


theorem both_none {α : Type} (R : α → α → Prop) : both R none none := trivial

/-- One call in two runs in step: the same observation, and the runs stay in
step. -/
theorem step_twin (s1 s2 : Sys) (op1 op2 : Op) (ht : twin_sys s1 s2)
    (hc : same_call op1 op2) (hp : polite s1 op1 = true) :
    observe s1 op1 = observe s2 op2 ∧ both twin_sys (step s1 op1) (step s2 op2) := by
  obtain ⟨hm, hfiles, hinv⟩ := ht
  cases op1 with
  | do_open f1 kp1 kb1 =>
    cases op2 with
    | do_open f2 kp2 kb2 =>
      obtain ⟨rfl, rfl, hk⟩ := hc
      rcases open_twin s1.m s2.m hm { f_mode := f1, private_data := none } kp1 kp2 kb1 hk with
        ⟨h1, h2⟩ | ⟨rc, m1', m2', f', h1, h2, hmode, htw, hmono, hnew⟩
      · simp only [observe, step, h1, h2, Option.map_none']
        exact ⟨trivial, trivial⟩
      · simp only [observe, step, h1, h2, Option.map_some']
        refine ⟨trivial, htw, ?_, ?_⟩
        · simp only [hfiles]
        · intro f hf hw a ha
          by_cases hrc : rc = 0
          · simp only [hrc, if_true, List.mem_append, List.mem_singleton] at hf
            rcases hf with hf | hf
            · exact hmono a (hinv f hf hw a ha)
            · subst hf
              exact hnew (by rw [← hmode]; exact hw) hrc a ha
          · simp only [hrc, if_false] at hf
            exact hmono a (hinv f hf hw a ha)
    | do_release _ => exact absurd hc (by simp [same_call])
    | do_read _ _ _ _ _ => exact absurd hc (by simp [same_call])
    | do_write _ _ _ => exact absurd hc (by simp [same_call])
  | do_release fd =>
    cases op2 with
    | do_release fd2 =>
      have hfd : fd = fd2 := hc
      subst hfd
      cases hf : s1.files[fd]? with
      | none =>
        have hf2 : s2.files[fd]? = none := hfiles ▸ hf
        simp only [observe, step, hf, hf2]
        exact ⟨trivial, trivial⟩
      | some filp =>
        have hf2 : s2.files[fd]? = some filp := hfiles ▸ hf
        rcases release_twin s1.m s2.m hm filp with
          ⟨h1, h2⟩ | ⟨rc, m1', m2', h1, h2, htw, hmono⟩
        · simp only [observe, step, hf, hf2, h1, h2, Option.map_none']
          exact ⟨trivial, trivial⟩
        · simp only [observe, step, hf, hf2, h1, h2, Option.map_some']
          exact ⟨trivial, htw, hfiles, fun f hfm hw a ha => hmono a (hinv f hfm hw a ha)⟩
    | do_open _ _ _ => exact absurd hc (by simp [same_call])
    | do_read _ _ _ _ _ => exact absurd hc (by simp [same_call])
    | do_write _ _ _ => exact absurd hc (by simp [same_call])
  | do_read fd count f_pos ok intr =>
    cases op2 with
    | do_read fd2 c2 fp2 ok2 i2 =>
      obtain ⟨rfl, rfl, rfl, rfl, rfl⟩ := hc
      have hfp : 0 ≤ f_pos := by simpa [polite] using hp
      cases hf : s1.files[fd]? with
      | none =>
        have hf2 : s2.files[fd]? = none := hfiles ▸ hf
        simp only [observe, step, hf, hf2]
        exact ⟨trivial, trivial⟩
      | some filp =>
        have hf2 : s2.files[fd]? = some filp := hfiles ▸ hf
        rcases read_twin s1.m s2.m hm filp count f_pos ok intr hfp with
          ⟨h1, h2⟩ | ⟨r, m1', m2', h1, h2, htw, hmono⟩
        · simp only [observe, step, hf, hf2, h1, h2, Option.map_none']
          exact ⟨trivial, trivial⟩
        · cases r with
          | blocked =>
            simp only [observe, step, hf, hf2, h1, h2, Option.map_some']
            exact ⟨trivial, htw, hfiles, fun f hfm hw a ha => hmono a (hinv f hfm hw a ha)⟩
          | returned rc u =>
            simp only [observe, step, hf, hf2, h1, h2, Option.map_some']
            exact ⟨trivial, htw, hfiles, fun f hfm hw a ha => hmono a (hinv f hfm hw a ha)⟩
    | do_open _ _ _ => exact absurd hc (by simp [same_call])
    | do_release _ => exact absurd hc (by simp [same_call])
    | do_write _ _ _ => exact absurd hc (by simp [same_call])
  | do_write fd cfu count =>
    cases op2 with
    | do_write fd2 cfu2 c2 =>
      obtain ⟨rfl, rfl, rfl⟩ := hc
      cases hf : s1.files[fd]? with
      | none =>
        have hf2 : s2.files[fd]? = none := hfiles ▸ hf
        simp only [observe, step, hf, hf2]
        exact ⟨trivial, trivial⟩
      | some filp =>
        have hf2 : s2.files[fd]? = some filp := hfiles ▸ hf
        have hw : filp.f_mode &&& FMODE_WRITE ≠ 0 := by simpa [polite, hf] using hp
        have hmem : filp ∈ s1.files := List.mem_iff_getElem?.mpr ⟨fd, hf⟩
        rcases write_twin s1.m s2.m hm filp cfu count (hinv filp hmem hw) with
          ⟨h1, h2⟩ | ⟨rc, m1', m2', h1, h2, htw, hmono⟩
        · simp only [observe, step, hf, hf2, h1, h2, Option.map_none']
          exact ⟨trivial, trivial⟩
        · simp only [observe, step, hf, hf2, h1, h2, Option.map_some']
          exact ⟨trivial, htw, hfiles, fun f hfm hw a ha => hmono a (hinv f hfm hw a ha)⟩
    | do_open _ _ _ => exact absurd hc (by simp [same_call])
    | do_release _ => exact absurd hc (by simp [same_call])
    | do_read _ _ _ _ _ => exact absurd hc (by simp [same_call])


/-- Two runs of the same calls, started in step, show the same observations
and end in step (or both stop at the same call). -/
theorem run_twin : ∀ (ops1 ops2 : List Op), List.Forall₂ same_call ops1 ops2 →
    ∀ (s1 s2 : Sys), twin_sys s1 s2 → polite_run s1 ops1 = true →
      observations s1 ops1 = observations s2 ops2 ∧
        both twin_sys (run s1 ops1) (run s2 ops2) := by
  intro ops1 ops2 h
  induction h with
  | nil =>
    intro s1 s2 ht _
    exact ⟨rfl, ht⟩
  | @cons op1 op2 l1 l2 hc _ ih =>
    intro s1 s2 ht hp
    simp only [polite_run, Bool.and_eq_true] at hp
    obtain ⟨hobs, hstep⟩ := step_twin s1 s2 op1 op2 ht hc hp.1
    cases h1 : step s1 op1 with
    | none =>
      cases h2 : step s2 op2 with
      | none =>
        simp only [observations, run, h1, h2, hobs]
        exact ⟨trivial, trivial⟩
      | some s2' =>
        rw [h1, h2] at hstep
        exact absurd hstep (by simp [both])
    | some s1' =>
      cases h2 : step s2 op2 with
      | none =>
        rw [h1, h2] at hstep
        exact absurd hstep (by simp [both])
      | some s2' =>
        rw [h1, h2] at hstep
        have hp2 : polite_run s1' l1 = true := by simpa [h1] using hp.2
        obtain ⟨ho, hr⟩ := ih s1' s2' hstep hp2
        simp only [observations, run, h1, h2, hobs, ho]
        exact ⟨trivial, hr⟩

theorem twin_sys_init : twin_sys init_sys init_sys := by
  refine ⟨⟨rfl, rfl, rfl, rfl, ?_⟩, rfl, ?_⟩
  · intro a p q hp _
    simp [init_sys, disco_init] at hp
  · intro f hf
    simp [init_sys] at hf

theorem twin_sys_streams (s1 s2 : Sys) (h : twin_sys s1 s2) : same_streams s1 s2 := by
  obtain ⟨⟨hw, hp, _, hlen, hpt⟩, _, _⟩ := h
  exact ⟨hw, hp, hlen, fun a p q h1 h2 => (hpt a p q h1 h2).1⟩

theorem both_mono {α : Type} (R S : α → α → Prop) (hRS : ∀ x y, R x y → S x y) :
    ∀ (x y : Option α), both R x y → both S x y := by
  intro x y h
  cases x <;> cases y
  · trivial
  · exact h
  · exact h
  · exact hRS _ _ h

/-- Claim C18: take two runs from the state of `disco_init` that issue the
same calls and differ only in what the memory returned by `kmalloc` holds
(hence in the `lector` and `escritor` a read-mode open leaves unset).  If
every write goes through a handle opened in write mode and every read uses a
file position that is not negative, the two runs show the same return codes,
the same delivered bytes and the same sleep decisions call by call, stop at
the same call if a call does not return, and end with the same `wait` and
`pipe` and, in every session, the same `in`, `out`, `size`, `lectorf` and
buffer. -/
theorem flags_unobservable (ops1 ops2 : List Op) (h : List.Forall₂ same_call ops1 ops2)
    (hp : polite_run init_sys ops1 = true) :
    observations init_sys ops1 = observations init_sys ops2 ∧
      both same_streams (run init_sys ops1) (run init_sys ops2) := by
  obtain ⟨ho, hr⟩ := run_twin ops1 ops2 h init_sys init_sys twin_sys_init hp
  exact ⟨ho, both_mono twin_sys same_streams twin_sys_streams _ _ hr⟩

/-- Claim C18 at a reader-first run, once on memory whose `lector` and
`escritor` are non-zero and once on memory where they are zero. -/
theorem flags_unobservable_witness :
    junk.escritor ≠ junk0.escritor ∧ junk.lector ≠ junk0.lector ∧
    List.Forall₂ same_call (flags_trace junk) (flags_trace junk0) ∧
    polite_run init_sys (flags_trace junk) = true ∧
    observations init_sys (flags_trace junk) =
      [some (Obs.code 0), some (Obs.read read_ret.blocked), some (Obs.code 0),
       some (Obs.code 3), some (Obs.read (read_ret.returned 3 [1, 2, 3]))] ∧
    observations init_sys (flags_trace junk) = observations init_sys (flags_trace junk0) ∧
    both same_streams (run init_sys (flags_trace junk)) (run init_sys (flags_trace junk0)) :=
  have hcalls : List.Forall₂ same_call (flags_trace junk) (flags_trace junk0) :=
    List.Forall₂.cons ⟨rfl, rfl, rfl⟩
      (List.Forall₂.cons ⟨rfl, rfl, rfl, rfl, rfl⟩
        (List.Forall₂.cons ⟨rfl, rfl, rfl⟩
          (List.Forall₂.cons ⟨rfl, rfl, rfl⟩
            (List.Forall₂.cons ⟨rfl, rfl, rfl, rfl, rfl⟩ List.Forall₂.nil))))
  ⟨by decide, by decide, hcalls, by decide, by decide,
    (flags_unobservable (flags_trace junk) (flags_trace junk0) hcalls (by decide)).1,
    (flags_unobservable (flags_trace junk) (flags_trace junk0) hcalls (by decide)).2⟩

end Disco
